import Mathlib

/-!
# libdevbinder: wire buffer, transaction builder and command exchange

A shallow embedding of `src/buf.c`, `src/transaction.c` and `src/binder.c`.

Conventions of the embedding
* `size_t`, `binder_size_t`, `binder_uintptr_t` and pointers are 64-bit (LP64, the
  default binder ABI); they are natural numbers below `WORD = 2 ^ 64` and every
  arithmetic operation of the source is reduced modulo `WORD` where the C
  operation can wrap.  Pointer arithmetic is address arithmetic modulo `WORD`.
* A pointer result that can be `NULL` is an `Option`; `none` is `NULL`.
* Memory is a list of bytes (numbers below 256), little endian.
* A dereference of `NULL` and an access outside the accessed array are the
  errors `Err.null_deref` and `Err.out_of_bounds`.
* The driver behind `ioctl(BINDER_WRITE_READ)` is a script of replies, one per
  call; every call is logged.  A call that finds the script empty never returns
  (`Err.blocked`).
-/

namespace LibDevBinder

/-! ## Definitions -/

/-- Number of values of a `size_t` and of a pointer, `2 ^ 64`. -/
def WORD : Nat := 0x10000000000000000

/-- Subtraction of two `size_t` values (or of two pointers into one array): `a - b`
modulo `2 ^ 64`, for operands below `WORD`. -/
def size_sub (a b : Nat) : Nat :=
  if b ≤ a then a - b else a + WORD - b

/-- The `sizeof(b->buffer)` of a `buf_t`, whose storage is `unsigned char buffer[0x200]`. -/
def BUF_CAPACITY : Nat := 0x200

/-- Ways in which a call does not return normally. -/
inductive Err where
  | null_deref
  | out_of_bounds
  | blocked
  | fuel
  deriving DecidableEq, Repr

/-- Little-endian object representation of `v` in `k` bytes. -/
def le_bytes : Nat → Nat → List Nat
  | 0, _ => []
  | k + 1, v => v % 256 :: le_bytes k (v / 256)

/-- Value of a little-endian byte string. -/
def le_value : List Nat → Nat
  | [] => 0
  | x :: xs => x + 256 * le_value xs

/-- The `buf_t` of `include/buf.h`.  The field `base` is the address of `buffer[0]`;
`ptr` is an address. -/
structure buf_t where
  base : Nat
  buffer : List Nat
  ptr : Nat
  size : Nat
  max_size : Nat
  deriving DecidableEq, Repr

/-- Source: `buf_init`. -/
def buf_init (b : buf_t) : buf_t :=
  { base := b.base
    buffer := List.replicate BUF_CAPACITY 0
    ptr := b.base
    size := 0
    max_size := BUF_CAPACITY }

/-- Source: `buf_init_write`. -/
def buf_init_write (b : buf_t) : buf_t :=
  { buf_init b with size := 0 }

/-- Source: `buf_init_read`. -/
def buf_init_read (b : buf_t) : buf_t :=
  { buf_init b with size := BUF_CAPACITY }

/-- Source: `buf_push`.  The test is `b->max_size - b->size < size` on `size_t`. -/
def buf_push (b : buf_t) (size : Nat) : Option Nat × buf_t :=
  if size_sub b.max_size b.size < size then
    (none, b)
  else
    (some b.ptr, { b with ptr := (b.ptr + size) % WORD, size := (b.size + size) % WORD })

/-- Source: `buf_pop`.  The test is `b->buffer + b->size < b->ptr + size` on pointers. -/
def buf_pop (b : buf_t) (size : Nat) : Option Nat × buf_t :=
  if (b.base + b.size) % WORD < (b.ptr + size) % WORD then
    (none, b)
  else
    (some b.ptr, { b with ptr := (b.ptr + size) % WORD })

/-- Source: `buf_is_empty`. -/
def buf_is_empty (b : buf_t) : Int :=
  if (b.base + b.size) % WORD = b.ptr then 1 else 0

/-- Store `bytes` at address `a`; the store has to lie inside `b->buffer`. -/
def buf_store (b : buf_t) (a : Nat) (bytes : List Nat) : Except Err buf_t :=
  if b.base ≤ a ∧ a + bytes.length ≤ b.base + b.buffer.length then
    .ok { b with
      buffer := b.buffer.take (a - b.base) ++ bytes ++
        b.buffer.drop (a - b.base + bytes.length) }
  else
    .error .out_of_bounds

/-- Load `n` bytes from address `a`; the load has to lie inside `b->buffer`. -/
def buf_load (b : buf_t) (a : Nat) (n : Nat) : Except Err (List Nat) :=
  if b.base ≤ a ∧ a + n ≤ b.base + b.buffer.length then
    .ok ((b.buffer.drop (a - b.base)).take n)
  else
    .error .out_of_bounds

/-- Source: `buf_write_u32`; the result of `buf_push` is dereferenced unchecked. -/
def buf_write_u32 (b : buf_t) (value : Nat) : Except Err buf_t :=
  match buf_push b 4 with
  | (none, _) => .error .null_deref
  | (some p, b1) => buf_store b1 p (le_bytes 4 value)

/-- Source: `buf_write_uintptr`. -/
def buf_write_uintptr (b : buf_t) (value : Nat) : Except Err buf_t :=
  match buf_push b 8 with
  | (none, _) => .error .null_deref
  | (some p, b1) => buf_store b1 p (le_bytes 8 value)

/-- Source: `buf_write`; `in_data` is the object `in_data` points to. -/
def buf_write (b : buf_t) (in_data : List Nat) (size : Nat) : Except Err buf_t :=
  match buf_push b size with
  | (none, _) => .error .null_deref
  | (some p, b1) =>
    if size ≤ in_data.length then buf_store b1 p (in_data.take size)
    else .error .out_of_bounds

/-- Source: `buf_read_u32`; the result of `buf_pop` is dereferenced unchecked. -/
def buf_read_u32 (b : buf_t) : Except Err (Nat × buf_t) :=
  match buf_pop b 4 with
  | (none, _) => .error .null_deref
  | (some p, b1) =>
    match buf_load b1 p 4 with
    | .ok bytes => .ok (le_value bytes, b1)
    | .error e => .error e

/-- Source: `buf_read`; the bytes copied to `out_data` are returned. -/
def buf_read (b : buf_t) (size : Nat) : Except Err (List Nat × buf_t) :=
  match buf_pop b size with
  | (none, _) => .error .null_deref
  | (some p, b1) =>
    match buf_load b1 p size with
    | .ok bytes => .ok (bytes, b1)
    | .error e => .error e

/-- One call of the wire-buffer interface. -/
inductive buf_call where
  | push (size : Nat)
  | pop (size : Nat)
  deriving DecidableEq, Repr

/-- Number of bytes a call asks for. -/
def buf_call.size : buf_call → Nat
  | buf_call.push n => n
  | buf_call.pop n => n

/-- Run a sequence of `buf_push` / `buf_pop` calls; the second component adds up
the sizes of the regions returned by the calls that succeeded. -/
def buf_run : buf_t → List buf_call → buf_t × Nat
  | b, [] => (b, 0)
  | b, buf_call.push n :: cs =>
    match buf_push b n with
    | (none, b1) => buf_run b1 cs
    | (some _, b1) => ((buf_run b1 cs).1, n + (buf_run b1 cs).2)
  | b, buf_call.pop n :: cs =>
    match buf_pop b n with
    | (none, b1) => buf_run b1 cs
    | (some _, b1) => ((buf_run b1 cs).1, n + (buf_run b1 cs).2)

/-- State invariant of a wire buffer: `0 <= ptr - buffer <= size <= max_size`, with
the storage inside the address space. -/
def buf_wf (b : buf_t) : Prop :=
  b.size ≤ b.max_size ∧ b.base ≤ b.ptr ∧ b.ptr ≤ b.base + b.size ∧
    b.base + b.max_size < WORD

/-! ### Transaction builder and reader (`transaction.c`) -/

/-- The `sizeof(trdata->data)`: `uint8_t data[0x10000]`. -/
def DATA_CAPACITY : Nat := 0x10000

/-- Number of entries of `binder_size_t offs[0x1000]`. -/
def OFFS_CAPACITY : Nat := 0x1000

/-- The `sizeof(struct flat_binder_object)` of the 64-bit binder ABI. -/
def SIZEOF_FLAT_BINDER_OBJECT : Nat := 24

/-- The `sizeof(struct binder_buffer_object)` of the 64-bit binder ABI. -/
def SIZEOF_BINDER_BUFFER_OBJECT : Nat := 40

/-- Source: `#define PAD_SIZE_UNSAFE(s) (((s) + 3) & ~3UL)` on `size_t`. -/
def PAD_SIZE_UNSAFE (s : Nat) : Nat :=
  ((s + 3) % WORD) &&& 0xFFFFFFFFFFFFFFFC

/-- The `translation_data_t` of `include/transaction.h`.  The fields `data_base` and
`offs_base` are the addresses of `data[0]` and `offs[0]`; `data_ptr` and `offs_ptr`
are addresses. -/
structure translation_data_t where
  data_base : Nat
  data : List Nat
  data_ptr : Nat
  data_avail : Nat
  offs_base : Nat
  offs : List Nat
  offs_ptr : Nat
  offs_avail : Nat
  buffers_size : Nat
  deriving DecidableEq, Repr

/-- Source: `trdata_init`. -/
def trdata_init (t : translation_data_t) : translation_data_t :=
  { t with
    data_ptr := t.data_base
    data_avail := DATA_CAPACITY
    offs_ptr := t.offs_base
    offs_avail := 8 * OFFS_CAPACITY / 8
    buffers_size := 0 }

/-- Store one `binder_size_t` at address `a`, which has to be the address of an
element of `offs`. -/
def offs_store (t : translation_data_t) (a : Nat) (v : Nat) : Except Err translation_data_t :=
  if t.offs_base ≤ a ∧ a + 8 ≤ t.offs_base + 8 * t.offs.length ∧ (a - t.offs_base) % 8 = 0 then
    .ok { t with offs := t.offs.set ((a - t.offs_base) / 8) v }
  else
    .error .out_of_bounds

/-- Store `bytes` at address `a`; the store has to lie inside `data`. -/
def data_store (t : translation_data_t) (a : Nat) (bytes : List Nat) :
    Except Err translation_data_t :=
  if t.data_base ≤ a ∧ a + bytes.length ≤ t.data_base + t.data.length then
    .ok { t with
      data := t.data.take (a - t.data_base) ++ bytes ++
        t.data.drop (a - t.data_base + bytes.length) }
  else
    .error .out_of_bounds

/-- Source: `trdata_alloc`. -/
def trdata_alloc (t : translation_data_t) (size : Nat) (obj : Bool) :
    Except Err (Option Nat × translation_data_t) :=
  let size := PAD_SIZE_UNSAFE size
  if size > t.data_avail then
    .ok (none, t)
  else
    let ptr := t.data_ptr
    let t1 := { t with
      data_ptr := (t.data_ptr + size) % WORD
      data_avail := size_sub t.data_avail size }
    if obj then
      match offs_store t1 t1.offs_ptr (size_sub ptr t1.data_base) with
      | .error e => .error e
      | .ok t2 =>
        .ok (some ptr, { t2 with
          offs_ptr := (t2.offs_ptr + 8) % WORD
          offs_avail := size_sub t2.offs_avail 1 })
    else
      .ok (some ptr, t1)

/-- A `translation_data_t` declared as `translation_data_t trdata = {0}`, with its two
arrays at the given addresses. -/
def trdata_zero (data_base offs_base : Nat) : translation_data_t :=
  { data_base := data_base
    data := List.replicate DATA_CAPACITY 0
    data_ptr := 0
    data_avail := 0
    offs_base := offs_base
    offs := List.replicate OFFS_CAPACITY 0
    offs_ptr := 0
    offs_avail := 0
    buffers_size := 0 }

/-- The call `trdata_alloc(trdata, 0, true)` made `k` times in a row. -/
def trdata_alloc_empty_objs : Nat → translation_data_t → Except Err translation_data_t
  | 0, t => .ok t
  | k + 1, t =>
    match trdata_alloc t 0 true with
    | .error e => .error e
    | .ok (_, t1) => trdata_alloc_empty_objs k t1

/-- Source: `trdata_alloc_fbo`. -/
def trdata_alloc_fbo (t : translation_data_t) : Except Err (Option Nat × translation_data_t) :=
  trdata_alloc t SIZEOF_FLAT_BINDER_OBJECT true

/-- Source: `trdata_alloc_bbo`. -/
def trdata_alloc_bbo (t : translation_data_t) (length : Nat) :
    Except Err (Option Nat × translation_data_t) :=
  match trdata_alloc t SIZEOF_BINDER_BUFFER_OBJECT true with
  | .error e => .error e
  | .ok (none, t1) => .ok (none, t1)
  | .ok (some bbo, t1) =>
    .ok (some bbo, { t1 with buffers_size := (t1.buffers_size + length) % WORD })

/-- Source: `trdata_put_u32`. -/
def trdata_put_u32 (t : translation_data_t) (n : Nat) : Except Err translation_data_t :=
  match trdata_alloc t 4 false with
  | .error e => .error e
  | .ok (none, t1) => .ok t1
  | .ok (some ptr, t1) => data_store t1 ptr (le_bytes 4 n)

/-- Source: `trdata_put_bytes`; `data` is the object the argument points to and
`len` the number of bytes `memcpy` copies from it. -/
def trdata_put_bytes (t : translation_data_t) (data : List Nat) (len : Nat) :
    Except Err translation_data_t :=
  match trdata_alloc t len false with
  | .error e => .error e
  | .ok (none, t1) => .ok t1
  | .ok (some ptr, t1) =>
    if len ≤ data.length then data_store t1 ptr (data.take len)
    else .error .out_of_bounds

/-- The `struct binder_transaction_data` of the 64-bit binder ABI (64 bytes, no
padding).  The field `target` is the 8-byte union of `handle` and `ptr`; `buffer` and
`offsets` are `data.ptr.buffer` and `data.ptr.offsets`. -/
structure binder_transaction_data where
  target : Nat
  cookie : Nat
  code : Nat
  flags : Nat
  sender_pid : Nat
  sender_euid : Nat
  data_size : Nat
  offsets_size : Nat
  buffer : Nat
  offsets : Nat
  deriving DecidableEq, Repr

/-- Object representation of a `struct binder_transaction_data`. -/
def transaction_data_bytes (tr : binder_transaction_data) : List Nat :=
  le_bytes 8 tr.target ++ le_bytes 8 tr.cookie ++ le_bytes 4 tr.code ++ le_bytes 4 tr.flags ++
    le_bytes 4 tr.sender_pid ++ le_bytes 4 tr.sender_euid ++ le_bytes 8 tr.data_size ++
    le_bytes 8 tr.offsets_size ++ le_bytes 8 tr.buffer ++ le_bytes 8 tr.offsets

/-- The `struct binder_transaction_data` read through a pointer to `bytes`. -/
def transaction_data_of_bytes (bytes : List Nat) : binder_transaction_data :=
  { target := le_value (bytes.take 8)
    cookie := le_value ((bytes.drop 8).take 8)
    code := le_value ((bytes.drop 16).take 4)
    flags := le_value ((bytes.drop 20).take 4)
    sender_pid := le_value ((bytes.drop 24).take 4)
    sender_euid := le_value ((bytes.drop 28).take 4)
    data_size := le_value ((bytes.drop 32).take 8)
    offsets_size := le_value ((bytes.drop 40).take 8)
    buffer := le_value ((bytes.drop 48).take 8)
    offsets := le_value ((bytes.drop 56).take 8) }

/-- The `translated_data_t` of `include/transaction.h`; `data` and `data_ptr` are
addresses in the memory mapped by the driver. -/
structure translated_data_t where
  data : Nat
  data_ptr : Nat
  data_avail : Nat
  target : Nat
  cookie : Nat
  code : Nat
  deriving DecidableEq, Repr

/-- Source: `txnin_init`. -/
def txnin_init (_txnin : translated_data_t) (tr : binder_transaction_data) : translated_data_t :=
  { data := tr.buffer
    data_ptr := tr.buffer
    data_avail := tr.data_size
    code := tr.code
    target := tr.target
    cookie := tr.cookie }

/-- Source: `txnin_pop`. -/
def txnin_pop (txnin : translated_data_t) (size : Nat) : Option Nat × translated_data_t :=
  let size := PAD_SIZE_UNSAFE size
  if size > txnin.data_avail then
    (none, txnin)
  else
    (some txnin.data_ptr, { txnin with
      data_ptr := (txnin.data_ptr + size) % WORD
      data_avail := size_sub txnin.data_avail size })

/-! ### Command exchange (`binder.c`) -/

/-- The `_IOC` of `asm-generic/ioctl.h`: direction, type, number and size packed
into a 32-bit command code. -/
def _IOC (dir type nr size : Nat) : Nat :=
  dir * 2 ^ 30 + size * 2 ^ 16 + type * 2 ^ 8 + nr

/-- The `_IOR` of `asm-generic/ioctl.h` (`_IOC_READ` is 2). -/
def _IOR (type nr size : Nat) : Nat := _IOC 2 type nr size

/-- The `_IOW` of `asm-generic/ioctl.h` (`_IOC_WRITE` is 1). -/
def _IOW (type nr size : Nat) : Nat := _IOC 1 type nr size

/-- The `_IOC_SIZE` of `asm-generic/ioctl.h`: `((nr) >> 16) & 0x3fff`. -/
def _IOC_SIZE (nr : Nat) : Nat := (nr >>> 16) &&& 0x3fff

/-- The `sizeof(struct binder_transaction_data)`. -/
def SIZEOF_TRANSACTION_DATA : Nat := 64

/-- The `sizeof(struct binder_transaction_data_sg)`. -/
def SIZEOF_TRANSACTION_DATA_SG : Nat := 72

/-- The `sizeof(struct binder_ptr_cookie)`. -/
def SIZEOF_PTR_COOKIE : Nat := 16

/-- Return codes of `linux/android/binder.h`; the character r is 0x72. -/
def BR_TRANSACTION : Nat := _IOR 0x72 2 SIZEOF_TRANSACTION_DATA
def BR_REPLY : Nat := _IOR 0x72 3 SIZEOF_TRANSACTION_DATA
def BR_INCREFS : Nat := _IOR 0x72 7 SIZEOF_PTR_COOKIE
def BR_ACQUIRE : Nat := _IOR 0x72 8 SIZEOF_PTR_COOKIE
def BR_RELEASE : Nat := _IOR 0x72 9 SIZEOF_PTR_COOKIE
def BR_DECREFS : Nat := _IOR 0x72 10 SIZEOF_PTR_COOKIE
def BR_NOOP : Nat := _IOC 0 0x72 12 0
def BR_DEAD_BINDER : Nat := _IOR 0x72 15 8

/-- Command codes of `linux/android/binder.h`; the character c is 0x63. -/
def BC_TRANSACTION : Nat := _IOW 0x63 0 SIZEOF_TRANSACTION_DATA
def BC_REPLY : Nat := _IOW 0x63 1 SIZEOF_TRANSACTION_DATA
def BC_INCREFS_DONE : Nat := _IOW 0x63 8 SIZEOF_PTR_COOKIE
def BC_ACQUIRE_DONE : Nat := _IOW 0x63 9 SIZEOF_PTR_COOKIE
def BC_DEAD_BINDER_DONE : Nat := _IOW 0x63 16 8
def BC_TRANSACTION_SG : Nat := _IOW 0x63 17 SIZEOF_TRANSACTION_DATA_SG
def BC_REPLY_SG : Nat := _IOW 0x63 18 SIZEOF_TRANSACTION_DATA_SG

/-- The `TF_ONE_WAY` transaction flag of `linux/android/binder.h`. -/
def TF_ONE_WAY : Nat := 0x01

/-- What the driver is handed by one `ioctl(fd, BINDER_WRITE_READ, &bwr)`: the sizes
of the `struct binder_write_read` and the `write_size` bytes found at `write_buffer`. -/
structure binder_write_read where
  write_size : Nat
  write_data : List Nat
  read_size : Nat
  deriving DecidableEq, Repr

/-- What one `ioctl(fd, BINDER_WRITE_READ, &bwr)` answers: the return value, the two
consumed counts it leaves in `bwr`, and the bytes it stored at `read_buffer`. -/
structure ioctl_reply where
  ret : Int
  write_consumed : Nat
  read_consumed : Nat
  read_data : List Nat
  deriving DecidableEq, Repr

/-- Addresses the run-time system hands out: the storage of the `buf_t` returned by
`buf_alloc` (`none` when `malloc` returns `NULL`), of the local `buf_t` of
`binder_recv_txn` and of `binder_skip_cmds`, and of the two arrays of the local
`translation_data_t` of `binder_send_raw_txn`. -/
structure addresses where
  heap_buf : Option Nat
  recv_buf : Nat
  ack_buf : Nat
  trdata_data : Nat
  trdata_offs : Nat
  deriving DecidableEq, Repr

/-- The `binder_ctx` as far as the exchange is concerned: the driver behind `ctx->fd`
(replies still to come, requests received so far) and the addresses of the run. -/
structure binder_ctx where
  script : List ioctl_reply
  log : List binder_write_read
  mem : addresses
  deriving DecidableEq, Repr

/-- A `buf_t` that has not been initialised yet, with its storage at address `a`. -/
def buf_at (a : Nat) : buf_t :=
  { base := a, buffer := [], ptr := 0, size := 0, max_size := 0 }

/-- Conversion of a 64-bit unsigned value to `int`. -/
def to_int (v : Nat) : Int :=
  ((v + 2 ^ 31) % 2 ^ 32 : Nat) - 2 ^ 31

/-- One `ioctl(ctx->fd, BINDER_WRITE_READ, &bwr)`. -/
def ioctl (ctx : binder_ctx) (bwr : binder_write_read) : Except Err (ioctl_reply × binder_ctx) :=
  match ctx.script with
  | [] => .error .blocked
  | r :: rest => .ok (r, { ctx with script := rest, log := ctx.log ++ [bwr] })

/-- Source: `binder_send`. -/
def binder_send (ctx : binder_ctx) (b : buf_t) : Except Err (Int × binder_ctx) :=
  match ioctl ctx { write_size := b.size, write_data := b.buffer.take b.size, read_size := 0 } with
  | .error e => .error e
  | .ok (r, ctx1) =>
    if r.ret < 0 then .ok (r.ret, ctx1)
    else .ok (to_int r.write_consumed, ctx1)

/-- Source: `binder_recv`.  The bytes the driver stored replace the start of
`b->buffer`. -/
def binder_recv (ctx : binder_ctx) (b : buf_t) : Except Err (Int × buf_t × binder_ctx) :=
  match ioctl ctx { write_size := 0, write_data := [], read_size := b.size } with
  | .error e => .error e
  | .ok (r, ctx1) =>
    let b1 := { b with
      buffer := (r.read_data ++ b.buffer.drop r.read_data.length).take b.buffer.length }
    if r.ret < 0 then .ok (r.ret, b1, ctx1)
    else .ok (to_int r.read_consumed, { b1 with size := r.read_consumed }, ctx1)

/-- Source: `binder_send_cmd` from `buf_init_write(b)` on, `b` being the `buf_t` that
`buf_alloc` returned; `data` is `none` for a `NULL` pointer. -/
def binder_send_cmd_on (ctx : binder_ctx) (b : buf_t) (cmd : Nat) (data : Option (List Nat))
    (data_size : Nat) : Except Err (Int × binder_ctx) :=
  match buf_write_u32 (buf_init_write b) cmd with
  | .error e => .error e
  | .ok b1 =>
    match
      (match data with
      | some d => if data_size > 0 then buf_write b1 d data_size else .ok b1
      | none => .ok b1) with
    | .error e => .error e
    | .ok b2 =>
      match binder_send ctx b2 with
      | .error e => .error e
      | .ok (ret, ctx1) => if ret < 0 then .ok (ret, ctx1) else .ok (0, ctx1)

/-- Source: `binder_send_cmd`; `buf_alloc` returns `NULL` when `ctx.mem.heap_buf` is
`none`. -/
def binder_send_cmd (ctx : binder_ctx) (cmd : Nat) (data : Option (List Nat)) (data_size : Nat) :
    Except Err (Int × binder_ctx) :=
  match ctx.mem.heap_buf with
  | none => .ok (-1, ctx)
  | some a => binder_send_cmd_on ctx (buf_at a) cmd data data_size

/-- The record `binder_send_txn` fills in before it picks the command: `tr = {0}`
with handle, code, flags, and the spans of the builder. -/
def binder_send_txn_record (handle : Int) (code flags : Nat) (trdata : translation_data_t) :
    binder_transaction_data :=
  { target := (handle % 2 ^ 32).toNat
    cookie := 0
    code := code
    flags := flags
    sender_pid := 0
    sender_euid := 0
    data_size := size_sub trdata.data_ptr trdata.data_base
    offsets_size := (size_sub trdata.offs_ptr trdata.offs_base / 8 * 8) % WORD
    buffer := trdata.data_base
    offsets := trdata.offs_base }

/-- Source: `binder_send_txn`. -/
def binder_send_txn (ctx : binder_ctx) (handle : Int) (code flags : Nat)
    (trdata : translation_data_t) (reply sg : Bool) : Except Err (Int × binder_ctx) :=
  let tr := binder_send_txn_record handle code flags trdata
  if sg then
    let tr_sg := transaction_data_bytes tr ++ le_bytes 8 trdata.buffers_size
    let cmd := if reply then BC_REPLY_SG else BC_TRANSACTION_SG
    binder_send_cmd ctx cmd (some tr_sg) SIZEOF_TRANSACTION_DATA_SG
  else
    let cmd := if reply then BC_REPLY else BC_TRANSACTION
    binder_send_cmd ctx cmd (some (transaction_data_bytes tr)) SIZEOF_TRANSACTION_DATA

/-- Source: `binder_send_raw_txn`; the local `trdata = {0}` lives at the addresses
`ctx.mem.trdata_data` and `ctx.mem.trdata_offs`, and `trdata_put_bytes` returns
nothing the caller could look at. -/
def binder_send_raw_txn (ctx : binder_ctx) (handle : Int) (code flags : Nat)
    (data : List Nat) (data_size : Nat) (reply sg : Bool) : Except Err (Int × binder_ctx) :=
  match trdata_put_bytes
      (trdata_init (trdata_zero ctx.mem.trdata_data ctx.mem.trdata_offs)) data data_size with
  | .error e => .error e
  | .ok trdata1 => binder_send_txn ctx handle code flags trdata1 reply sg

/-- Source: the body of the `while` loop of `binder_skip_cmds`: one command is
read and dispatched.  The result is `some r` when the body executes `return r` and
`none` when it runs to its end.  The local `cmd_data` has 2048 bytes. -/
def binder_skip_cmds_body (ctx : binder_ctx) (buf : buf_t) (txnin : translated_data_t) :
    Except Err (Option Int × binder_ctx × buf_t × translated_data_t) :=
  match buf_read_u32 buf with
  | .error e => .error e
  | .ok (cmd, buf1) =>
    match buf_read buf1 (_IOC_SIZE cmd) with
    | .error e => .error e
    | .ok (cmd_data, buf2) =>
      if 2048 < _IOC_SIZE cmd then .error .out_of_bounds
      else if cmd = BR_ACQUIRE ∨ cmd = BR_INCREFS then
        let a0 := buf_init_write (buf_at ctx.mem.ack_buf)
        match buf_write_u32 a0 (if cmd = BR_ACQUIRE then BC_ACQUIRE_DONE else BC_INCREFS_DONE) with
        | .error e => .error e
        | .ok a1 =>
          match buf_write_uintptr a1 (le_value (cmd_data.take 8)) with
          | .error e => .error e
          | .ok a2 =>
            match buf_write_uintptr a2 (le_value ((cmd_data.drop 8).take 8)) with
            | .error e => .error e
            | .ok a3 =>
              match binder_send ctx a3 with
              | .error e => .error e
              | .ok (_, ctx1) => .ok (none, ctx1, buf2, txnin)
      else if cmd = BR_DEAD_BINDER then
        let a0 := buf_init_write (buf_at ctx.mem.ack_buf)
        match buf_write_u32 a0 BC_DEAD_BINDER_DONE with
        | .error e => .error e
        | .ok a1 =>
          match buf_write_uintptr a1 (le_value (cmd_data.take 8)) with
          | .error e => .error e
          | .ok a2 =>
            match binder_send ctx a2 with
            | .error e => .error e
            | .ok (_, ctx1) => .ok (none, ctx1, buf2, txnin)
      else if cmd = BR_TRANSACTION ∨ cmd = BR_REPLY then
        .ok (some 1, ctx, buf2, txnin_init txnin (transaction_data_of_bytes cmd_data))
      else
        .ok (none, ctx, buf2, txnin)

/-- Source: `binder_skip_cmds`.  The first argument bounds the number of iterations
of the `while` loop. -/
def binder_skip_cmds : Nat → binder_ctx → buf_t → translated_data_t →
    Except Err (Int × binder_ctx × buf_t × translated_data_t)
  | 0, _, _, _ => .error .fuel
  | fuel + 1, ctx, buf, txnin =>
    if buf.ptr ≠ (buf.base + buf.size) % WORD then
      match binder_skip_cmds_body ctx buf txnin with
      | .error e => .error e
      | .ok (some r, ctx1, buf1, txnin1) => .ok (r, ctx1, buf1, txnin1)
      | .ok (none, ctx1, buf1, txnin1) => binder_skip_cmds fuel ctx1 buf1 txnin1
    else
      .ok (0, ctx, buf, txnin)

/-- Source: `binder_recv_txn`.  The first argument bounds the number of rounds of
the `while (1)` loop, the second the iterations of each scan.  The local
`read_consumed` is a `binder_size_t`, an unsigned 64-bit integer, to which the `int`
result of `binder_recv` is converted. -/
def binder_recv_txn : Nat → Nat → binder_ctx → translated_data_t →
    Except Err (Int × binder_ctx × translated_data_t)
  | 0, _, _, _ => .error .fuel
  | rounds + 1, scan, ctx, txnin =>
    let buf := buf_init_read (buf_at ctx.mem.recv_buf)
    match binder_recv ctx buf with
    | .error e => .error e
    | .ok (r, buf1, ctx1) =>
      let read_consumed : Nat := (r % (WORD : Int)).toNat
      if read_consumed < 0 then
        .ok (to_int read_consumed, ctx1, txnin)
      else
        match binder_skip_cmds scan ctx1 buf1 txnin with
        | .error e => .error e
        | .ok (found, ctx2, _, txnin1) =>
          if found ≠ 0 then .ok (0, ctx2, txnin1)
          else binder_recv_txn rounds scan ctx2 txnin1

/-! ### Vocabulary of the statements -/

/-- A buffer in write mode whose used bytes are `w`. -/
def buf_writing (b : buf_t) (w : List Nat) : Prop :=
  b.ptr = b.base + b.size ∧ b.size = w.length ∧ b.buffer.take b.size = w ∧
    b.buffer.length = BUF_CAPACITY ∧ b.max_size = BUF_CAPACITY ∧ b.base + BUF_CAPACITY < WORD

/-- A buffer in read mode whose unread bytes, from the cursor to `buffer + size`,
are `bytes`. -/
def buf_holds (b : buf_t) (bytes : List Nat) : Prop :=
  b.base ≤ b.ptr ∧ b.ptr + bytes.length = b.base + b.size ∧ b.size ≤ b.buffer.length ∧
    b.buffer.length = BUF_CAPACITY ∧ b.base + BUF_CAPACITY < WORD ∧
    (b.buffer.drop (b.ptr - b.base)).take bytes.length = bytes

/-- One record of a command stream: a 32-bit code and the payload that follows it. -/
structure record where
  cmd : Nat
  payload : List Nat
  deriving DecidableEq, Repr

/-- A record is well formed when its payload has the size its code declares. -/
def record.ok (r : record) : Prop :=
  r.cmd < 2 ^ 32 ∧ r.payload.length = _IOC_SIZE r.cmd ∧ ∀ x ∈ r.payload, x < 256

/-- The bytes of a record in a buffer. -/
def record.bytes (r : record) : List Nat :=
  le_bytes 4 r.cmd ++ r.payload

/-- The bytes of consecutive records. -/
def stream_bytes : List record → List Nat
  | [] => []
  | r :: rs => r.bytes ++ stream_bytes rs

/-- A transaction or reply record. -/
def record.is_transaction (r : record) : Prop :=
  r.cmd = BR_TRANSACTION ∨ r.cmd = BR_REPLY

instance (r : record) : Decidable r.ok := by
  unfold record.ok
  exact inferInstance

instance (r : record) : Decidable r.is_transaction := by
  unfold record.is_transaction
  exact inferInstance

/-- The acknowledgement a record asks for: the done-code followed by the payload of
the record (pointer and cookie, or the cookie alone). -/
def ack_of (r : record) : Option (List Nat) :=
  if r.cmd = BR_INCREFS then some (le_bytes 4 BC_INCREFS_DONE ++ r.payload)
  else if r.cmd = BR_ACQUIRE then some (le_bytes 4 BC_ACQUIRE_DONE ++ r.payload)
  else if r.cmd = BR_DEAD_BINDER then some (le_bytes 4 BC_DEAD_BINDER_DONE ++ r.payload)
  else none

/-- The acknowledgements a list of records asks for, in stream order. -/
def acks (rs : List record) : List (List Nat) :=
  rs.filterMap ack_of

/-- The exchange that writes the bytes `w` and reads nothing. -/
def write_request (w : List Nat) : binder_write_read :=
  { write_size := w.length, write_data := w, read_size := 0 }

/-- The exchange of `binder_recv` on a buffer initialised for reading. -/
def read_request : binder_write_read :=
  { write_size := 0, write_data := [], read_size := BUF_CAPACITY }

/-- The read buffer at address `a` after the driver delivered `bytes` into it. -/
def buf_received (a : Nat) (bytes : List Nat) : buf_t :=
  { base := a
    buffer := bytes ++ List.replicate (BUF_CAPACITY - bytes.length) 0
    ptr := a
    size := bytes.length
    max_size := BUF_CAPACITY }

/-- Addresses used in the examples. -/
def example_addresses : addresses :=
  { heap_buf := some 0x5000
    recv_buf := 0x7000
    ack_buf := 0x6000
    trdata_data := 0x100000
    trdata_offs := 0x110010 }

/-- A reader before `txnin_init`. -/
def txnin_zero : translated_data_t :=
  { data := 0, data_ptr := 0, data_avail := 0, target := 0, cookie := 0, code := 0 }

/-- A reply of the driver to a successful write of `n` bytes. -/
def reply_written (n : Nat) : ioctl_reply :=
  { ret := 0, write_consumed := n, read_consumed := 0, read_data := [] }

/-- A reply of the driver that delivers `bytes` into the read buffer. -/
def reply_read (bytes : List Nat) : ioctl_reply :=
  { ret := 0, write_consumed := 0, read_consumed := bytes.length, read_data := bytes }

/-- A reply of the driver to a failed `ioctl`: the call returns -1 and nothing is
stored. -/
def reply_failed : ioctl_reply :=
  { ret := -1, write_consumed := 0, read_consumed := 0, read_data := [] }

/-- The payload "hello". -/
def hello : List Nat := [104, 101, 108, 108, 111]

/-- A transaction record as the driver delivers it. -/
def example_transaction : binder_transaction_data :=
  { target := 7, cookie := 9, code := 3, flags := 1, sender_pid := 0, sender_euid := 0
    data_size := 8, offsets_size := 0, buffer := 0x7f0000, offsets := 0x7f0008 }

/-- The record `BR_INCREFS(ptr = 0x10, cookie = 0x20)`. -/
def example_increfs : record :=
  { cmd := BR_INCREFS, payload := le_bytes 8 0x10 ++ le_bytes 8 0x20 }

/-- The record `BR_DEAD_BINDER(cookie = 0x30)`. -/
def example_dead_binder : record :=
  { cmd := BR_DEAD_BINDER, payload := le_bytes 8 0x30 }

/-- The record `BR_TRANSACTION` carrying `example_transaction`. -/
def example_txn_record : record :=
  { cmd := BR_TRANSACTION, payload := transaction_data_bytes example_transaction }

/-! ### Put operations of the builder and pop operations of the reader (`transaction.c`) -/

/-- The `B_PACK_CHARS` of `linux/android/binder.h`:
`((c1) << 24) | ((c2) << 16) | ((c3) << 8) | (c4)`. -/
def B_PACK_CHARS (c1 c2 c3 c4 : Nat) : Nat :=
  (c1 <<< 24) ||| (c2 <<< 16) ||| (c3 <<< 8) ||| c4

/-- The `B_TYPE_LARGE` of `linux/android/binder.h`. -/
def B_TYPE_LARGE : Nat := 0x85

/-- Object types of `linux/android/binder.h`; the characters s, w, b, h, p, t and * are
0x73, 0x77, 0x62, 0x68, 0x70, 0x74 and 0x2a. -/
def BINDER_TYPE_BINDER : Nat := B_PACK_CHARS 0x73 0x62 0x2a B_TYPE_LARGE
def BINDER_TYPE_WEAK_BINDER : Nat := B_PACK_CHARS 0x77 0x62 0x2a B_TYPE_LARGE
def BINDER_TYPE_HANDLE : Nat := B_PACK_CHARS 0x73 0x68 0x2a B_TYPE_LARGE
def BINDER_TYPE_WEAK_HANDLE : Nat := B_PACK_CHARS 0x77 0x68 0x2a B_TYPE_LARGE
def BINDER_TYPE_PTR : Nat := B_PACK_CHARS 0x70 0x74 0x2a B_TYPE_LARGE

/-- The `BINDER_BUFFER_FLAG_HAS_PARENT` of `linux/android/binder.h`. -/
def BINDER_BUFFER_FLAG_HAS_PARENT : Nat := 0x01

/-- Assignments to members of the structure at address `p` of the data arena, in
program order: each pair is the offset of a member and the bytes stored into it. -/
def data_store_fields : translation_data_t → Nat → List (Nat × List Nat) →
    Except Err translation_data_t
  | t, _, [] => .ok t
  | t, p, (off, bytes) :: fs =>
    match data_store t (p + off) bytes with
    | .error e => .error e
    | .ok t1 => data_store_fields t1 p fs

/-- The `strlen` of the string stored in the object `s`: the number of characters
before the first NUL; `none` when the object holds no NUL. -/
def strlen : List Nat → Option Nat
  | [] => none
  | c :: cs =>
    if c = 0 then some 0
    else
      match strlen cs with
      | none => none
      | some n => some (n + 1)

/-- Source: the loops `for (i = 0; i < len; i++) ptr[i] = str[i];` of `trdata_put_str`
and `trdata_put_str16`, from index `i` on; `w` is the size of an element of `ptr`
(1 for `uint8_t`, 2 for `uint16_t`) and the list holds the values assigned,
`str[i] .. str[len - 1]` converted to the element type. -/
def trdata_store_chars (w : Nat) (ptr : Nat) : translation_data_t → Nat → List Nat →
    Except Err translation_data_t
  | t, _, [] => .ok t
  | t, i, c :: cs =>
    match data_store t (ptr + w * i) (le_bytes w c) with
    | .error e => .error e
    | .ok t1 => trdata_store_chars w ptr t1 (i + 1) cs

/-- Source: `trdata_put_str`; `str` is the object the argument points to. -/
def trdata_put_str (t : translation_data_t) (str : List Nat) : Except Err translation_data_t :=
  match strlen str with
  | none => .error .out_of_bounds
  | some len =>
    match trdata_alloc t ((len + 1) % WORD) false with
    | .error e => .error e
    | .ok (none, t1) => .ok t1
    | .ok (some ptr, t1) =>
      match trdata_store_chars 1 ptr t1 0 (str.take len) with
      | .error e => .error e
      | .ok t2 => data_store t2 (ptr + len) (le_bytes 1 0)

/-- Conversion of a plain `char` to `uint16_t`, for a character given by its byte.
Plain `char` is signed on x86-64, so a byte from 0x80 on is a negative value and
converts to `0xff00 + byte`. -/
def char_to_uint16 (c : Nat) : Nat :=
  if c % 256 < 128 then c % 256 else c % 256 + 0xff00

/-- Source: `trdata_put_str16`; `str` is the object the argument points to.  The
assignment `ptr[i] = str[i]` converts a plain `char` to `uint16_t`. -/
def trdata_put_str16 (t : translation_data_t) (str : List Nat) : Except Err translation_data_t :=
  match strlen str with
  | none => .error .out_of_bounds
  | some len =>
    match trdata_put_u32 t len with
    | .error e => .error e
    | .ok t0 =>
      match trdata_alloc t0 ((len + 1) % WORD * 2 % WORD) false with
      | .error e => .error e
      | .ok (none, t1) => .ok t1
      | .ok (some ptr, t1) =>
        match trdata_store_chars 2 ptr t1 0 ((str.take len).map char_to_uint16) with
        | .error e => .error e
        | .ok t2 => data_store t2 (ptr + 2 * len) (le_bytes 2 0)

/-- Source: `trdata_put_buffer`.  The members of `struct binder_buffer_object` are at
the offsets 0 (`hdr.type`), 4 (`flags`), 8 (`buffer`), 16 (`length`), 24 (`parent`) and
32 (`parent_offset`). -/
def trdata_put_buffer (t : translation_data_t) (buffer length parent parent_offset : Nat)
    (has_parent : Bool) : Except Err translation_data_t :=
  match trdata_alloc_bbo t length with
  | .error e => .error e
  | .ok (none, t1) => .ok t1
  | .ok (some bbo, t1) =>
    data_store_fields t1 bbo
      [(0, le_bytes 4 BINDER_TYPE_PTR),
        (4, le_bytes 4 (if has_parent then BINDER_BUFFER_FLAG_HAS_PARENT else 0)),
        (8, le_bytes 8 buffer),
        (16, le_bytes 8 length),
        (24, le_bytes 8 parent),
        (32, le_bytes 8 parent_offset)]

/-- Source: `trdata_put_binder`.  The members of `struct flat_binder_object` are at the
offsets 0 (`hdr.type`), 4 (`flags`), 8 (the union of `binder` and `handle`) and
16 (`cookie`). -/
def trdata_put_binder (t : translation_data_t) (ptr : Nat) (strong : Bool) :
    Except Err translation_data_t :=
  match trdata_alloc_fbo t with
  | .error e => .error e
  | .ok (none, t1) => .ok t1
  | .ok (some fbo, t1) =>
    data_store_fields t1 fbo
      [(0, le_bytes 4 (if strong then BINDER_TYPE_BINDER else BINDER_TYPE_WEAK_BINDER)),
        (4, le_bytes 4 0),
        (8, le_bytes 8 ptr),
        (16, le_bytes 8 0)]

/-- Source: `trdata_put_handle`; the member `handle` is a `__u32`, so the store into
it leaves the bytes 12 to 15 of the record as they were. -/
def trdata_put_handle (t : translation_data_t) (handle : Nat) (strong : Bool) :
    Except Err translation_data_t :=
  match trdata_alloc_fbo t with
  | .error e => .error e
  | .ok (none, t1) => .ok t1
  | .ok (some fbo, t1) =>
    data_store_fields t1 fbo
      [(0, le_bytes 4 (if strong then BINDER_TYPE_HANDLE else BINDER_TYPE_WEAK_HANDLE)),
        (4, le_bytes 4 0),
        (8, le_bytes 4 handle),
        (16, le_bytes 8 0)]

/-- Load `n` bytes at address `a` from the transaction buffer `mem` of a reader, the
memory that starts at `txnin->data`. -/
def txnin_load (txnin : translated_data_t) (mem : List Nat) (a n : Nat) : Except Err (List Nat) :=
  if txnin.data ≤ a ∧ a + n ≤ txnin.data + mem.length then
    .ok ((mem.drop (a - txnin.data)).take n)
  else
    .error .out_of_bounds

/-- Source: `txnin_pop_u32`; the result of `txnin_pop` is dereferenced unchecked. -/
def txnin_pop_u32 (mem : List Nat) (txnin : translated_data_t) :
    Except Err (Nat × translated_data_t) :=
  match txnin_pop txnin 4 with
  | (none, _) => .error .null_deref
  | (some p, txnin1) =>
    match txnin_load txnin mem p 4 with
    | .error e => .error e
    | .ok bytes => .ok (le_value bytes, txnin1)

/-- Source: `txnin_pop_handle`; the member `handle` is at offset 8 of the record. -/
def txnin_pop_handle (mem : List Nat) (txnin : translated_data_t) :
    Except Err (Nat × translated_data_t) :=
  match txnin_pop txnin SIZEOF_FLAT_BINDER_OBJECT with
  | (none, txnin1) => .ok (0, txnin1)
  | (some fbo, txnin1) =>
    match txnin_load txnin mem (fbo + 8) 4 with
    | .error e => .error e
    | .ok bytes => .ok (le_value bytes, txnin1)

/-- One call of a put operation of the builder. -/
inductive put_call where
  | u32 (n : Nat)
  | bytes (data : List Nat) (len : Nat)
  | str (str : List Nat)
  | str16 (str : List Nat)
  | buffer (buffer length parent parent_offset : Nat) (has_parent : Bool)
  | binder (ptr : Nat) (strong : Bool)
  | handle (handle : Nat) (strong : Bool)
  deriving DecidableEq, Repr

/-- Make one call. -/
def trdata_put (t : translation_data_t) : put_call → Except Err translation_data_t
  | put_call.u32 n => trdata_put_u32 t n
  | put_call.bytes data len => trdata_put_bytes t data len
  | put_call.str str => trdata_put_str t str
  | put_call.str16 str => trdata_put_str16 t str
  | put_call.buffer buffer length parent parent_offset has_parent =>
    trdata_put_buffer t buffer length parent parent_offset has_parent
  | put_call.binder ptr strong => trdata_put_binder t ptr strong
  | put_call.handle handle strong => trdata_put_handle t handle strong

/-- Make a sequence of calls on one builder. -/
def trdata_run : translation_data_t → List put_call → Except Err translation_data_t
  | t, [] => .ok t
  | t, c :: cs =>
    match trdata_put t c with
    | .error e => .error e
    | .ok t1 => trdata_run t1 cs

/-- Call `txnin_pop_u32` `n` times; the values are returned in the order of the
calls. -/
def txnin_pop_u32s (mem : List Nat) : Nat → translated_data_t →
    Except Err (List Nat × translated_data_t)
  | 0, txnin => .ok ([], txnin)
  | n + 1, txnin =>
    match txnin_pop_u32 mem txnin with
    | .error e => .error e
    | .ok (v, txnin1) =>
      match txnin_pop_u32s mem n txnin1 with
      | .error e => .error e
      | .ok (vs, txnin2) => .ok (v :: vs, txnin2)

/-- Make a sequence of `txnin_pop` calls with the given sizes. -/
def txnin_run : translated_data_t → List Nat → translated_data_t
  | txnin, [] => txnin
  | txnin, n :: ns => txnin_run (txnin_pop txnin n).2 ns

/-! ### Vocabulary of the statements about the builder and the reader -/

/-- The `n` bytes of `l` from index `o` on. -/
def region (l : List Nat) (o n : Nat) : List Nat := (l.drop o).take n

/-- The list `l` with `bytes` stored from index `k` on. -/
def overwrite (l : List Nat) (k : Nat) (bytes : List Nat) : List Nat :=
  l.take k ++ bytes ++ l.drop (k + bytes.length)

/-- The list `l` after the member stores `fs` into the structure at index `k`. -/
def overwrite_fields (l : List Nat) (k : Nat) : List (Nat × List Nat) → List Nat
  | [] => l
  | (off, b) :: fs => overwrite_fields (overwrite l (k + off) b) k fs

/-- Number of bytes used in the data arena, `data_ptr - data`. -/
def trdata_used (t : translation_data_t) : Nat := t.data_ptr - t.data_base

/-- Number of entries of the offsets table, `offs_ptr - offs`. -/
def trdata_count (t : translation_data_t) : Nat := (t.offs_ptr - t.offs_base) / 8

/-- The two arrays of a builder exist: they have their declared sizes and lie inside
the address space. -/
def trdata_arrays (t : translation_data_t) : Prop :=
  t.data.length = DATA_CAPACITY ∧ t.offs.length = OFFS_CAPACITY ∧
    t.data_base + DATA_CAPACITY < WORD ∧ t.offs_base + 8 * OFFS_CAPACITY < WORD

/-- State invariant of a builder that was initialised and then used through the put
operations: cursors and counters agree, the data cursor is 4-aligned, and each entry
of the offsets table accounts for at least 24 used bytes. -/
def trdata_wf (t : translation_data_t) : Prop :=
  trdata_arrays t ∧ t.data_base ≤ t.data_ptr ∧
    t.data_ptr + t.data_avail = t.data_base + DATA_CAPACITY ∧
    (t.data_ptr - t.data_base) % 4 = 0 ∧ t.offs_base ≤ t.offs_ptr ∧
    (t.offs_ptr - t.offs_base) % 8 = 0 ∧
    t.offs_ptr + 8 * t.offs_avail = t.offs_base + 8 * OFFS_CAPACITY ∧
    3 * (t.offs_ptr - t.offs_base) ≤ t.data_ptr - t.data_base ∧ t.buffers_size < WORD

/-- The arguments of a call are what the C function can be given: a source object of
`len` bytes, a string that is terminated, objects smaller than the address space. -/
def put_call.ok : put_call → Prop
  | put_call.bytes d len => len ≤ d.length ∧ len + 3 < WORD
  | put_call.str s =>
    match strlen s with
    | none => False
    | some len => len + 4 < WORD
  | put_call.str16 s =>
    match strlen s with
    | none => False
    | some len => 2 * (len + 1) + 3 < WORD
  | _ => True

/-- The type tag an object put asks for; `none` for a put of plain data. -/
def put_call.tag : put_call → Option Nat
  | put_call.binder _ strong => some (if strong then BINDER_TYPE_BINDER else BINDER_TYPE_WEAK_BINDER)
  | put_call.handle _ strong => some (if strong then BINDER_TYPE_HANDLE else BINDER_TYPE_WEAK_HANDLE)
  | put_call.buffer _ _ _ _ _ => some BINDER_TYPE_PTR
  | _ => none

/-- The object puts of a sequence of calls that succeeded, that is, allocated and so
moved the data cursor, in call order: for each the offset of the cursor before the
call and the type tag the call asked for. -/
def trdata_objects : translation_data_t → List put_call → List (Nat × Nat)
  | _, [] => []
  | t, c :: cs =>
    match trdata_put t c with
    | .error _ => []
    | .ok t1 =>
      (match c.tag with
        | none => []
        | some tag => if t1.data_ptr = t.data_ptr then [] else [(trdata_used t, tag)])
        ++ trdata_objects t1 cs

/-- The declared lengths of the buffer descriptors that a sequence of calls allocated
successfully, in call order. -/
def trdata_buffer_lengths : translation_data_t → List put_call → List Nat
  | _, [] => []
  | t, c :: cs =>
    match trdata_put t c with
    | .error _ => []
    | .ok t1 =>
      (match c with
        | put_call.buffer _ length _ _ _ => if t1.data_ptr = t.data_ptr then [] else [length]
        | _ => [])
        ++ trdata_buffer_lengths t1 cs

/-- One allocation of a put operation and the member stores into the allocated
region that follow it; `length` is what `trdata_alloc_bbo` adds to `buffers_size`. -/
structure alloc_store where
  size : Nat
  obj : Bool
  length : Option Nat
  fields : List (Nat × List Nat)

/-- The stores of the character loop from index `i` on, as member stores. -/
def chars_fields (w : Nat) : Nat → List Nat → List (Nat × List Nat)
  | _, [] => []
  | i, c :: cs => (w * i, le_bytes w c) :: chars_fields w (i + 1) cs

/-- The allocations a call makes, in program order. -/
def put_call.steps : put_call → List alloc_store
  | put_call.u32 n => [⟨4, false, none, [(0, le_bytes 4 n)]⟩]
  | put_call.bytes d len => [⟨len, false, none, [(0, d.take len)]⟩]
  | put_call.str s =>
    match strlen s with
    | none => []
    | some len =>
      [⟨len + 1, false, none, chars_fields 1 0 (s.take len) ++ [(len, le_bytes 1 0)]⟩]
  | put_call.str16 s =>
    match strlen s with
    | none => []
    | some len =>
      [⟨4, false, none, [(0, le_bytes 4 len)]⟩,
        ⟨2 * (len + 1), false, none,
          chars_fields 2 0 ((s.take len).map char_to_uint16) ++ [(2 * len, le_bytes 2 0)]⟩]
  | put_call.buffer b length parent parent_offset has_parent =>
    [⟨SIZEOF_BINDER_BUFFER_OBJECT, true, some length,
      [(0, le_bytes 4 BINDER_TYPE_PTR),
        (4, le_bytes 4 (if has_parent then BINDER_BUFFER_FLAG_HAS_PARENT else 0)),
        (8, le_bytes 8 b),
        (16, le_bytes 8 length),
        (24, le_bytes 8 parent),
        (32, le_bytes 8 parent_offset)]⟩]
  | put_call.binder ptr strong =>
    [⟨SIZEOF_FLAT_BINDER_OBJECT, true, none,
      [(0, le_bytes 4 (if strong then BINDER_TYPE_BINDER else BINDER_TYPE_WEAK_BINDER)),
        (4, le_bytes 4 0),
        (8, le_bytes 8 ptr),
        (16, le_bytes 8 0)]⟩]
  | put_call.handle h strong =>
    [⟨SIZEOF_FLAT_BINDER_OBJECT, true, none,
      [(0, le_bytes 4 (if strong then BINDER_TYPE_HANDLE else BINDER_TYPE_WEAK_HANDLE)),
        (4, le_bytes 4 0),
        (8, le_bytes 4 h),
        (16, le_bytes 8 0)]⟩]

/-- One allocation followed by its stores, the common shape of the put operations. -/
def trdata_step (t : translation_data_t) (a : alloc_store) : Except Err translation_data_t :=
  match trdata_alloc t a.size a.obj with
  | .error e => .error e
  | .ok (none, t1) => .ok t1
  | .ok (some p, t1) =>
    data_store_fields
      (match a.length with
        | none => t1
        | some l => { t1 with buffers_size := (t1.buffers_size + l) % WORD })
      p a.fields

/-- A sequence of allocations with their stores. -/
def trdata_steps : translation_data_t → List alloc_store → Except Err translation_data_t
  | t, [] => .ok t
  | t, a :: as =>
    match trdata_step t a with
    | .error e => .error e
    | .ok t1 => trdata_steps t1 as

/-- An allocation whose size does not wrap when padded, whose stores stay inside the
requested size, and which is at least a `flat_binder_object` when it is an object. -/
def alloc_store.ok (a : alloc_store) : Prop :=
  a.size + 3 < WORD ∧ (a.obj = true → 24 ≤ a.size) ∧ ∀ f ∈ a.fields, f.1 + f.2.length ≤ a.size

/-- The state of a builder after one allocation with its stores, on a builder in a
valid state: nothing happens when the padded size does not fit. -/
def alloc_store.effect (a : alloc_store) (t : translation_data_t) : translation_data_t :=
  if (a.size + 3) / 4 * 4 ≤ t.data_avail then
    { data_base := t.data_base
      data := overwrite_fields t.data (trdata_used t) a.fields
      data_ptr := t.data_ptr + (a.size + 3) / 4 * 4
      data_avail := t.data_avail - (a.size + 3) / 4 * 4
      offs_base := t.offs_base
      offs := if a.obj then t.offs.set (trdata_count t) (trdata_used t) else t.offs
      offs_ptr := if a.obj then t.offs_ptr + 8 else t.offs_ptr
      offs_avail := if a.obj then t.offs_avail - 1 else t.offs_avail
      buffers_size :=
        match a.length with
        | none => t.buffers_size
        | some l => (t.buffers_size + l) % WORD }
  else t

/-- The state after a sequence of allocations. -/
def effects : List alloc_store → translation_data_t → translation_data_t
  | [], t => t
  | a :: as, t => effects as (a.effect t)

/-- The builder `s` continues the builder `t`: same arrays, cursors not moved back,
and the used bytes and the entries of `t` still in place. -/
def trdata_extends (t s : translation_data_t) : Prop :=
  s.data_base = t.data_base ∧ s.offs_base = t.offs_base ∧ trdata_used t ≤ trdata_used s ∧
    trdata_count t ≤ trdata_count s ∧
    s.data.take (trdata_used t) = t.data.take (trdata_used t) ∧
    s.offs.take (trdata_count t) = t.offs.take (trdata_count t)

/-- The number of used bytes after a sequence of allocations that starts with `u` used
bytes: an allocation takes its padded size when that still fits the arena. -/
def used_after : Nat → List alloc_store → Nat
  | u, [] => u
  | u, a :: as =>
    used_after (if u + (a.size + 3) / 4 * 4 ≤ DATA_CAPACITY then u + (a.size + 3) / 4 * 4 else u) as

/-- The offsets and tags of the object puts that find room, computed from the sizes
of the calls alone, for a builder with `u` used bytes. -/
def expected_objects : Nat → List put_call → List (Nat × Nat)
  | _, [] => []
  | u, c :: cs =>
    (match c.tag with
      | none => []
      | some tag => if used_after u c.steps = u then [] else [(u, tag)])
      ++ expected_objects (used_after u c.steps) cs

/-- The four command codes of a transaction, by `reply` and `sg`. -/
def transaction_command : Bool → Bool → Nat
  | false, false => BC_TRANSACTION
  | true, false => BC_REPLY
  | false, true => BC_TRANSACTION_SG
  | true, true => BC_REPLY_SG

/-- The fields of a transaction record are values of their C types. -/
def binder_transaction_data.ok (tr : binder_transaction_data) : Prop :=
  tr.target < 2 ^ 64 ∧ tr.cookie < 2 ^ 64 ∧ tr.code < 2 ^ 32 ∧ tr.flags < 2 ^ 32 ∧
    tr.sender_pid < 2 ^ 32 ∧ tr.sender_euid < 2 ^ 32 ∧ tr.data_size < 2 ^ 64 ∧
    tr.offsets_size < 2 ^ 64 ∧ tr.buffer < 2 ^ 64 ∧ tr.offsets < 2 ^ 64

instance (tr : binder_transaction_data) : Decidable tr.ok := by
  unfold binder_transaction_data.ok
  exact inferInstance

/-- The record `BR_RELEASE(ptr = 0x10, cookie = 0x20)`. -/
def example_release : record :=
  { cmd := BR_RELEASE, payload := le_bytes 8 0x10 ++ le_bytes 8 0x20 }

/-- The record `BR_DECREFS(ptr = 0x10, cookie = 0x20)`. -/
def example_decrefs : record :=
  { cmd := BR_DECREFS, payload := le_bytes 8 0x10 ++ le_bytes 8 0x20 }

/-! ### Vocabulary of the statements about the scan, oversized commands and strings -/

/-- Number of times the `while` loop of `binder_skip_cmds` enters its body, for the
same bound on the iterations as `binder_skip_cmds`. -/
def binder_skip_cmds_iterations : Nat → binder_ctx → buf_t → translated_data_t → Nat
  | 0, _, _, _ => 0
  | fuel + 1, ctx, buf, txnin =>
    if buf.ptr ≠ (buf.base + buf.size) % WORD then
      match binder_skip_cmds_body ctx buf txnin with
      | .ok (none, ctx1, buf1, txnin1) => binder_skip_cmds_iterations fuel ctx1 buf1 txnin1 + 1
      | _ => 1
    else
      0

/-- The record `BR_NOOP`, whose declared payload size is 0. -/
def example_noop : record :=
  { cmd := BR_NOOP, payload := [] }

/-- A payload of 509 bytes, one more than a wire buffer takes after the command code. -/
def example_payload : List Nat := List.replicate 509 0x41

/-- A string of 32767 characters `a` with its terminator. -/
def example_long_string : List Nat := List.replicate 32767 0x61 ++ [0]

/-- State of a wire buffer during a scan: the cursor lies between `buffer` and
`buffer + size`, inside the storage. -/
def buf_scanning (b : buf_t) : Prop :=
  b.base ≤ b.ptr ∧ b.ptr ≤ b.base + b.size ∧ b.size ≤ b.buffer.length ∧
    b.base + b.buffer.length < WORD

/-- Number of unread bytes of a wire buffer, `buffer + size - ptr`. -/
def buf_unread (b : buf_t) : Nat := b.base + b.size - b.ptr

/-! ## Theorems -/

/-! ### Bytes -/

theorem WORD_eq : WORD = 2 ^ 64 := by
  unfold WORD
  norm_num

theorem size_sub_of_le {a b : Nat} (h : b ≤ a) : size_sub a b = a - b := by
  unfold size_sub
  rw [if_pos h]

theorem le_bytes_length (k v : Nat) : (le_bytes k v).length = k := by
  induction k generalizing v with
  | zero => rfl
  | succ k ih => simp [le_bytes, ih]

theorem le_value_le_bytes (k v : Nat) : le_value (le_bytes k v) = v % 256 ^ k := by
  induction k generalizing v with
  | zero => simp [le_bytes, le_value, Nat.mod_one]
  | succ k ih =>
    simp only [le_bytes, le_value, ih]
    rw [pow_succ, Nat.mul_comm (256 ^ k) 256, Nat.mod_mul]

theorem le_bytes_le_value (bytes : List Nat) (h : ∀ x ∈ bytes, x < 256) :
    le_bytes bytes.length (le_value bytes) = bytes := by
  induction bytes with
  | nil => rfl
  | cons x xs ih =>
    have hx : x < 256 := h x (List.mem_cons_self x xs)
    have hxs : ∀ y ∈ xs, y < 256 := fun y hy => h y (List.mem_cons_of_mem x hy)
    simp only [List.length_cons, le_value, le_bytes]
    have e1 : (x + 256 * le_value xs) % 256 = x := by omega
    have e2 : (x + 256 * le_value xs) / 256 = le_value xs := by omega
    rw [e1, e2, ih hxs]

/-! ### Wire buffer -/

theorem buf_init_write_wf (a : Nat) (h : a + BUF_CAPACITY < WORD) :
    buf_wf (buf_init_write (buf_at a)) := by
  simp only [buf_wf, buf_init_write, buf_init, buf_at]
  omega

theorem buf_init_read_wf (a : Nat) (h : a + BUF_CAPACITY < WORD) :
    buf_wf (buf_init_read (buf_at a)) := by
  simp only [buf_wf, buf_init_read, buf_init, buf_at]
  omega

theorem buf_push_of_wf (b : buf_t) (n : Nat) (h : buf_wf b) :
    buf_push b n =
      if b.max_size - b.size < n then (none, b)
      else (some b.ptr, { b with ptr := b.ptr + n, size := b.size + n }) := by
  obtain ⟨h1, h2, h3, h4⟩ := h
  unfold buf_push
  have e1 : size_sub b.max_size b.size = b.max_size - b.size := size_sub_of_le h1
  rw [e1]
  by_cases hn : b.max_size - b.size < n
  · simp [hn]
  · have e2 : (b.ptr + n) % WORD = b.ptr + n := Nat.mod_eq_of_lt (by omega)
    have e3 : (b.size + n) % WORD = b.size + n := Nat.mod_eq_of_lt (by omega)
    simp [hn, e2, e3]

theorem buf_pop_of_wf (b : buf_t) (n : Nat) (h : buf_wf b) (hn : b.ptr + n < WORD) :
    buf_pop b n =
      if b.base + b.size - b.ptr < n then (none, b)
      else (some b.ptr, { b with ptr := b.ptr + n }) := by
  obtain ⟨h1, h2, h3, h4⟩ := h
  unfold buf_pop
  have e1 : (b.base + b.size) % WORD = b.base + b.size := Nat.mod_eq_of_lt (by omega)
  have e2 : (b.ptr + n) % WORD = b.ptr + n := Nat.mod_eq_of_lt hn
  rw [e1, e2]
  by_cases hc : b.base + b.size - b.ptr < n
  · have : b.base + b.size < b.ptr + n := by omega
    simp [hc, this]
  · have : ¬ b.base + b.size < b.ptr + n := by omega
    simp [hc, this]

theorem buf_push_wf (b : buf_t) (n : Nat) (h : buf_wf b) : buf_wf (buf_push b n).2 := by
  rw [buf_push_of_wf b n h]
  obtain ⟨h1, h2, h3, h4⟩ := h
  by_cases hn : b.max_size - b.size < n
  · simp only [hn, if_true]; exact ⟨h1, h2, h3, h4⟩
  · simp only [hn, if_false, buf_wf]; omega

theorem buf_pop_wf (b : buf_t) (n : Nat) (h : buf_wf b) (hn : b.ptr + n < WORD) :
    buf_wf (buf_pop b n).2 := by
  rw [buf_pop_of_wf b n h hn]
  obtain ⟨h1, h2, h3, h4⟩ := h
  by_cases hc : b.base + b.size - b.ptr < n
  · simp only [hc, if_true]; exact ⟨h1, h2, h3, h4⟩
  · simp only [hc, if_false, buf_wf]; omega

/-- C5: on a buffer in a valid state `buf_push` fails exactly when
`max_size - size < n`; otherwise it returns the old cursor, advances the cursor and
`size` by `n`, and leaves `max_size` and the stored bytes as they were. -/
theorem buf_push_spec (b : buf_t) (n : Nat) (hwf : buf_wf b) :
    ((buf_push b n).1 = none ↔ b.max_size - b.size < n) ∧
    (¬ b.max_size - b.size < n →
      (buf_push b n).1 = some b.ptr ∧
      (buf_push b n).2.ptr = b.ptr + n ∧
      (buf_push b n).2.size = b.size + n ∧
      (buf_push b n).2.max_size = b.max_size ∧
      (buf_push b n).2.buffer = b.buffer ∧
      (buf_push b n).2.base = b.base) := by
  rw [buf_push_of_wf b n hwf]
  by_cases hn : b.max_size - b.size < n
  · simp [hn]
  · simp [hn]

/-- Witness for `buf_push_spec`: four bytes reserved in a buffer just initialised
for writing. -/
theorem buf_push_spec_witness :
    buf_wf (buf_init_write (buf_at 0x1000)) ∧
    (buf_push (buf_init_write (buf_at 0x1000)) 4).1 = some 0x1000 ∧
    (buf_push (buf_init_write (buf_at 0x1000)) 4).2.size = 4 :=
  have hwf : buf_wf (buf_init_write (buf_at 0x1000)) :=
    buf_init_write_wf 0x1000 (by norm_num [BUF_CAPACITY, WORD])
  have h := (buf_push_spec (buf_init_write (buf_at 0x1000)) 4 hwf).2
    (by simp only [buf_init_write, buf_init, buf_at, BUF_CAPACITY]; omega)
  ⟨hwf, h.1, h.2.2.1⟩

theorem buf_run_wf (cs : List buf_call) (b : buf_t) (h : buf_wf b)
    (hs : ∀ c ∈ cs, b.base + b.max_size + buf_call.size c < WORD) :
    buf_wf (buf_run b cs).1 ∧ (buf_run b cs).1.base = b.base ∧
      (buf_run b cs).1.max_size = b.max_size ∧
      (buf_run b cs).1.ptr = b.ptr + (buf_run b cs).2 := by
  induction cs generalizing b with
  | nil => exact ⟨h, rfl, rfl, rfl⟩
  | cons c cs ih =>
    have hc := hs c (List.mem_cons_self c cs)
    have hcs : ∀ d ∈ cs, b.base + b.max_size + buf_call.size d < WORD :=
      fun d hd => hs d (List.mem_cons_of_mem c hd)
    obtain ⟨h1, h2, h3, h4⟩ := h
    cases c with
    | push n =>
      simp only [buf_call.size] at hc
      have hw := buf_push_wf b n ⟨h1, h2, h3, h4⟩
      have he := buf_push_of_wf b n ⟨h1, h2, h3, h4⟩
      by_cases hn : b.max_size - b.size < n
      · simp only [hn, if_true] at he
        simp only [buf_run, he]
        exact ih b ⟨h1, h2, h3, h4⟩ hcs
      · simp only [hn, if_false] at he
        rw [he] at hw
        simp only [buf_run, he]
        obtain ⟨i1, i2, i3, i4⟩ := ih _ hw hcs
        refine ⟨i1, i2, i3, ?_⟩
        rw [i4]; simp only []; omega
    | pop n =>
      simp only [buf_call.size] at hc
      have hp : b.ptr + n < WORD := by omega
      have hw := buf_pop_wf b n ⟨h1, h2, h3, h4⟩ hp
      have he := buf_pop_of_wf b n ⟨h1, h2, h3, h4⟩ hp
      by_cases hn : b.base + b.size - b.ptr < n
      · simp only [hn, if_true] at he
        simp only [buf_run, he]
        exact ih b ⟨h1, h2, h3, h4⟩ hcs
      · simp only [hn, if_false] at he
        rw [he] at hw
        simp only [buf_run, he]
        obtain ⟨i1, i2, i3, i4⟩ := ih _ hw hcs
        refine ⟨i1, i2, i3, ?_⟩
        rw [i4]; simp only []; omega

/-- Away from the wrap of `b->ptr + size` the invariant of the wire buffer is kept
by every sequence of calls and the regions handed out add up to at most the
capacity. -/
theorem buf_run_bounded (cs : List buf_call) (b : buf_t) (h : buf_wf b)
    (hs : ∀ c ∈ cs, b.base + b.max_size + buf_call.size c < WORD) :
    buf_wf (buf_run b cs).1 ∧ (buf_run b cs).2 ≤ b.max_size := by
  obtain ⟨i1, i2, i3, i4⟩ := buf_run_wf cs b h hs
  refine ⟨i1, ?_⟩
  obtain ⟨h1, h2, h3, h4⟩ := h
  obtain ⟨j1, j2, j3, j4⟩ := i1
  omega

/-- C6: a buffer just initialised for reading has 512 unread bytes, yet
`buf_pop(b, SIZE_MAX)` does not fail: `b->ptr + size` wraps around, the call returns
the cursor and leaves it one byte in front of the storage. -/
theorem buf_pop_size_max :
    (buf_init_read (buf_at 0x1000)).base + (buf_init_read (buf_at 0x1000)).size
      - (buf_init_read (buf_at 0x1000)).ptr = 512 ∧
    512 < WORD - 1 ∧
    (buf_pop (buf_init_read (buf_at 0x1000)) (WORD - 1)).1 = some 0x1000 ∧
    (buf_pop (buf_init_read (buf_at 0x1000)) (WORD - 1)).2.ptr = 0xfff ∧
    (buf_pop (buf_init_read (buf_at 0x1000)) (WORD - 1)).2.ptr
      < (buf_pop (buf_init_read (buf_at 0x1000)) (WORD - 1)).2.base := by
  unfold buf_pop WORD
  decide

/-- C7: from `buf_init_read`, the one-call sequence `buf_pop(b, SIZE_MAX)` succeeds,
so the regions handed out add up to more than 512 and the cursor ends below the
base of the storage. -/
theorem buf_run_pop_size_max :
    (buf_run (buf_init_read (buf_at 0x1000)) [buf_call.pop (WORD - 1)]).2 = WORD - 1 ∧
    ¬ (buf_run (buf_init_read (buf_at 0x1000)) [buf_call.pop (WORD - 1)]).2 ≤ 512 ∧
    ¬ (buf_run (buf_init_read (buf_at 0x1000)) [buf_call.pop (WORD - 1)]).1.base
      ≤ (buf_run (buf_init_read (buf_at 0x1000)) [buf_call.pop (WORD - 1)]).1.ptr := by
  unfold buf_run buf_pop WORD
  decide

/-- C8: after four bytes were pushed into a write buffer no byte is unread, yet
`buf_pop(b, SIZE_MAX - 3)` does not fail and moves the cursor back to the base. -/
theorem buf_pop_rewinds :
    (buf_push (buf_init_write (buf_at 0x1000)) 4).2.ptr = 0x1004 ∧
    (buf_push (buf_init_write (buf_at 0x1000)) 4).2.base
      + (buf_push (buf_init_write (buf_at 0x1000)) 4).2.size
      - (buf_push (buf_init_write (buf_at 0x1000)) 4).2.ptr = 0 ∧
    (buf_pop (buf_push (buf_init_write (buf_at 0x1000)) 4).2 (WORD - 4)).1 = some 0x1004 ∧
    (buf_pop (buf_push (buf_init_write (buf_at 0x1000)) 4).2 (WORD - 4)).2.ptr = 0x1000 ∧
    (buf_pop (buf_push (buf_init_write (buf_at 0x1000)) 4).2 (WORD - 4)).2.ptr
      ≠ (buf_push (buf_init_write (buf_at 0x1000)) 4).2.ptr := by
  unfold buf_pop buf_push WORD
  decide

/-! ### Transaction builder -/

theorem PAD_SIZE_UNSAFE_eq (s : Nat) : PAD_SIZE_UNSAFE s = (s + 3) % WORD / 4 * 4 := by
  unfold PAD_SIZE_UNSAFE
  have hx : (s + 3) % WORD < 2 ^ 64 := by
    rw [← WORD_eq]
    exact Nat.mod_lt _ (by rw [WORD_eq]; norm_num)
  generalize (s + 3) % WORD = x at hx
  have hm : (0xFFFFFFFFFFFFFFFC : Nat) = (2 ^ 62 - 1) <<< 2 := by decide
  have hd : x / 4 * 4 = (x >>> 2) <<< 2 := by
    rw [Nat.shiftLeft_eq, Nat.shiftRight_eq_div_pow]
  rw [hm, hd]
  apply Nat.eq_of_testBit_eq
  intro i
  rw [Nat.testBit_land, Nat.testBit_shiftLeft, Nat.testBit_shiftLeft, Nat.testBit_shiftRight,
    Nat.testBit_two_pow_sub_one]
  by_cases h2 : 2 ≤ i
  · have e : 2 + (i - 2) = i := by omega
    rw [e]
    by_cases h64 : i - 2 < 62
    · simp [h2, h64]
    · have : x < 2 ^ i := lt_of_lt_of_le hx (Nat.pow_le_pow_right (by norm_num) (by omega))
      simp [h2, h64, Nat.testBit_lt_two_pow this]
  · simp [h2]

theorem PAD_SIZE_UNSAFE_of_lt (s : Nat) (h : s + 3 < WORD) :
    PAD_SIZE_UNSAFE s = (s + 3) / 4 * 4 := by
  rw [PAD_SIZE_UNSAFE_eq, Nat.mod_eq_of_lt h]

theorem trdata_alloc_plain (t : translation_data_t) (size : Nat)
    (h : PAD_SIZE_UNSAFE size ≤ t.data_avail) (hp : t.data_ptr + PAD_SIZE_UNSAFE size < WORD) :
    trdata_alloc t size false =
      .ok (some t.data_ptr, { t with
        data_ptr := t.data_ptr + PAD_SIZE_UNSAFE size
        data_avail := t.data_avail - PAD_SIZE_UNSAFE size }) := by
  unfold trdata_alloc
  have e1 : (t.data_ptr + PAD_SIZE_UNSAFE size) % WORD = t.data_ptr + PAD_SIZE_UNSAFE size :=
    Nat.mod_eq_of_lt hp
  have e2 : size_sub t.data_avail (PAD_SIZE_UNSAFE size)
      = t.data_avail - PAD_SIZE_UNSAFE size := size_sub_of_le h
  have e3 : ¬ PAD_SIZE_UNSAFE size > t.data_avail := by omega
  simp [e1, e2, e3]

/-- C9: on a fresh builder the call `trdata_alloc(trdata, SIZE_MAX, false)` does not
fail although no multiple of 4 that is at least `SIZE_MAX` fits the 65536 free
bytes: the padded size wraps to 0, and the call returns the cursor with the state
as it was. -/
theorem trdata_alloc_size_max :
    (¬ ∃ p, p % 4 = 0 ∧ WORD - 1 ≤ p ∧
      p ≤ (trdata_init (trdata_zero 0x100000 0x110010)).data_avail) ∧
    PAD_SIZE_UNSAFE (WORD - 1) = 0 ∧
    trdata_alloc (trdata_init (trdata_zero 0x100000 0x110010)) (WORD - 1) false
      = .ok (some 0x100000, trdata_init (trdata_zero 0x100000 0x110010)) := by
  have hp : PAD_SIZE_UNSAFE (WORD - 1) = 0 := by unfold PAD_SIZE_UNSAFE WORD; decide
  refine ⟨?_, hp, ?_⟩
  · rintro ⟨p, _, h1, h2⟩
    simp only [trdata_init, DATA_CAPACITY, WORD] at h1 h2
    omega
  · have h := trdata_alloc_plain (trdata_init (trdata_zero 0x100000 0x110010)) (WORD - 1)
      (by rw [hp]; exact Nat.zero_le _)
      (by rw [hp]; simp only [trdata_init, trdata_zero, WORD]; norm_num)
    rw [h, hp]
    rfl

theorem trdata_alloc_empty_obj (t : translation_data_t) (i : Nat)
    (hlen : t.offs.length = OFFS_CAPACITY) (hi : i < OFFS_CAPACITY)
    (hptr : t.offs_ptr = t.offs_base + 8 * i) (hb : t.offs_base + 8 * OFFS_CAPACITY < WORD)
    (hav : t.offs_avail = OFFS_CAPACITY - i)
    (hdp : t.data_ptr < WORD) :
    ∃ t1, trdata_alloc t 0 true = .ok (some t.data_ptr, t1) ∧
      t1.offs.length = OFFS_CAPACITY ∧ t1.offs_ptr = t.offs_base + 8 * (i + 1) ∧
      t1.offs_base = t.offs_base ∧ t1.offs_avail = OFFS_CAPACITY - (i + 1) ∧
      t1.data_base = t.data_base ∧ t1.data_ptr = t.data_ptr ∧ t1.data_avail = t.data_avail := by
  have hp : PAD_SIZE_UNSAFE 0 = 0 := by unfold PAD_SIZE_UNSAFE WORD; decide
  have e1 : (t.data_ptr + 0) % WORD = t.data_ptr := by rw [Nat.add_zero, Nat.mod_eq_of_lt hdp]
  have e2 : size_sub t.data_avail 0 = t.data_avail := size_sub_of_le (Nat.zero_le _)
  have e3 : (t.offs_base + 8 * i + 8) % WORD = t.offs_base + 8 * (i + 1) := by
    rw [Nat.mod_eq_of_lt (by omega)]; omega
  have e4 : size_sub (OFFS_CAPACITY - i) 1 = OFFS_CAPACITY - (i + 1) := by
    rw [size_sub_of_le (by omega)]
    omega
  have e5 : (t.offs_base + 8 * i - t.offs_base) % 8 = 0 := by omega
  have e6 : t.offs_base + 8 * i + 8 ≤ t.offs_base + 8 * OFFS_CAPACITY := by omega
  unfold trdata_alloc
  simp only [hp, gt_iff_lt, Nat.not_lt_zero, if_false, if_true, offs_store, hptr, hlen, e1, e2,
    e3, e4, e5, e6, hav, Nat.le_add_right, and_self]
  exact ⟨_, rfl, by simp [hlen], rfl, rfl, rfl, rfl, rfl, rfl⟩

theorem trdata_alloc_empty_objs_ok (k : Nat) (t : translation_data_t) (i : Nat)
    (hlen : t.offs.length = OFFS_CAPACITY) (hi : i + k ≤ OFFS_CAPACITY)
    (hptr : t.offs_ptr = t.offs_base + 8 * i) (hb : t.offs_base + 8 * OFFS_CAPACITY < WORD)
    (hav : t.offs_avail = OFFS_CAPACITY - i)
    (hdp : t.data_ptr < WORD) :
    ∃ s, trdata_alloc_empty_objs k t = .ok s ∧
      s.offs.length = OFFS_CAPACITY ∧ s.offs_ptr = t.offs_base + 8 * (i + k) ∧
      s.offs_base = t.offs_base ∧ s.offs_avail = OFFS_CAPACITY - (i + k) ∧
      s.data_base = t.data_base ∧ s.data_ptr = t.data_ptr ∧ s.data_avail = t.data_avail := by
  induction k generalizing t i with
  | zero => exact ⟨t, rfl, hlen, hptr, rfl, hav, rfl, rfl, rfl⟩
  | succ k ih =>
    obtain ⟨t1, h1, l1, p1, b1, a1, d1, q1, v1⟩ :=
      trdata_alloc_empty_obj t i hlen (by omega) hptr hb hav hdp
    obtain ⟨s, h2, l2, p2, b2, a2, d2, q2, v2⟩ :=
      ih t1 (i + 1) l1 (by omega) (by rw [p1, b1]) (by rw [b1]; exact hb) a1
        (by rw [q1]; exact hdp)
    refine ⟨s, ?_, l2, ?_, ?_, ?_, ?_, ?_, ?_⟩
    · simp only [trdata_alloc_empty_objs, h1, h2]
    · rw [p2, b1]; congr 2; omega
    · rw [b2, b1]
    · rw [a2]; congr 1; omega
    · rw [d2, d1]
    · rw [q2, q1]
    · rw [v2, v1]

theorem trdata_alloc_offs_full (s : translation_data_t) (size : Nat)
    (hlen : s.offs.length = OFFS_CAPACITY) (hptr : s.offs_ptr = s.offs_base + 8 * OFFS_CAPACITY)
    (hfit : PAD_SIZE_UNSAFE size ≤ s.data_avail) :
    trdata_alloc s size true = .error .out_of_bounds := by
  have e3 : ¬ PAD_SIZE_UNSAFE size > s.data_avail := by omega
  have e6 : ¬ s.offs_base + 8 * OFFS_CAPACITY + 8 ≤ s.offs_base + 8 * OFFS_CAPACITY := by omega
  unfold trdata_alloc
  simp only [e3, if_false, if_true, offs_store, hptr, hlen, e6, false_and, and_false]

/-- C10: 4096 calls `trdata_alloc(trdata, 0, true)` on a fresh builder succeed and
leave `offs_avail = 0`; the next `trdata_alloc(trdata, 0, true)`, `trdata_alloc_fbo`
and `trdata_alloc_bbo` do not return `NULL` but store an entry at `offs[4096]`,
behind the end of the table. -/
theorem trdata_alloc_offs_exhausted :
    ∃ s, trdata_alloc_empty_objs 4096 (trdata_init (trdata_zero 0x100000 0x110010)) = .ok s ∧
      s.offs_avail = 0 ∧ s.offs.length = 4096 ∧ s.offs_ptr = s.offs_base + 8 * 4096 ∧
      trdata_alloc s 0 true = .error .out_of_bounds ∧
      trdata_alloc_fbo s = .error .out_of_bounds ∧
      trdata_alloc_bbo s 0 = .error .out_of_bounds := by
  obtain ⟨s, h, l, p, b, a, d, q, v⟩ :=
    trdata_alloc_empty_objs_ok 4096 (trdata_init (trdata_zero 0x100000 0x110010)) 0
      (by simp [trdata_init, trdata_zero])
      (by norm_num [OFFS_CAPACITY])
      (by simp [trdata_init, trdata_zero])
      (by norm_num [trdata_init, trdata_zero, OFFS_CAPACITY, WORD])
      (by norm_num [trdata_init, OFFS_CAPACITY])
      (by norm_num [trdata_init, trdata_zero, WORD])
  have hav : s.data_avail = 0x10000 := by rw [v]; rfl
  have hptr : s.offs_ptr = s.offs_base + 8 * OFFS_CAPACITY := by
    rw [p, b]; rfl
  refine ⟨s, h, ?_, l, ?_, ?_, ?_, ?_⟩
  · rw [a]; rfl
  · rw [hptr]; rfl
  · exact trdata_alloc_offs_full s 0 l hptr (by rw [hav]; unfold PAD_SIZE_UNSAFE WORD; decide)
  · exact trdata_alloc_offs_full s SIZEOF_FLAT_BINDER_OBJECT l hptr (by rw [hav]; unfold PAD_SIZE_UNSAFE WORD; decide)
  · unfold trdata_alloc_bbo
    rw [trdata_alloc_offs_full s SIZEOF_BINDER_BUFFER_OBJECT l hptr (by rw [hav]; unfold PAD_SIZE_UNSAFE WORD; decide)]

/-! ### Writing and reading through the wire buffer -/

theorem take_of_take_append {α : Type} (X front rest : List α)
    (h : X.take (front.length + rest.length) = front ++ rest) : X.take front.length = front := by
  have := congrArg (List.take front.length) h
  simpa [List.take_take] using this

theorem take_drop_of_take_append {α : Type} (X front rest : List α)
    (h : X.take (front.length + rest.length) = front ++ rest) :
    (X.drop front.length).take rest.length = rest := by
  have := congrArg (List.drop front.length) h
  simpa [List.drop_take] using this

theorem take_store {α : Type} (l bytes : List α) (k : Nat) (hk : k ≤ l.length) :
    (l.take k ++ bytes ++ l.drop (k + bytes.length)).take (k + bytes.length)
      = l.take k ++ bytes := by
  have hl : (l.take k ++ bytes).length = k + bytes.length := by
    rw [List.length_append, List.length_take]; omega
  rw [← hl, List.take_left]

theorem length_store {α : Type} (l bytes : List α) (k : Nat)
    (hk : k + bytes.length ≤ l.length) :
    (l.take k ++ bytes ++ l.drop (k + bytes.length)).length = l.length := by
  simp only [List.length_append, List.length_take, List.length_drop]
  omega

theorem buf_init_write_writing (a : Nat) (h : a + BUF_CAPACITY < WORD) :
    buf_writing (buf_init_write (buf_at a)) [] := by
  unfold buf_writing
  refine ⟨rfl, rfl, ?_, ?_, rfl, h⟩
  · simp [buf_init_write, buf_init]
  · simp [buf_init_write, buf_init]

theorem buf_push_store (b : buf_t) (w bytes : List Nat) (h : buf_writing b w)
    (hfit : w.length + bytes.length ≤ BUF_CAPACITY) :
    ∃ b1, buf_push b bytes.length
        = (some b.ptr, { b with ptr := b.ptr + bytes.length, size := b.size + bytes.length }) ∧
      buf_store { b with ptr := b.ptr + bytes.length, size := b.size + bytes.length } b.ptr bytes
        = .ok b1 ∧
      buf_writing b1 (w ++ bytes) := by
  obtain ⟨h1, h2, h3, h4, h5, h6⟩ := h
  have hwf : buf_wf b := by
    refine ⟨?_, ?_, ?_, ?_⟩ <;> omega
  have hpush := buf_push_of_wf b bytes.length hwf
  have hn : ¬ b.max_size - b.size < bytes.length := by omega
  simp only [hn, if_false] at hpush
  have hc : b.base ≤ b.ptr ∧ b.ptr + bytes.length ≤ b.base + b.buffer.length := by omega
  have hk : b.ptr - b.base = b.size := by omega
  refine ⟨{ b with
      ptr := b.ptr + bytes.length
      size := b.size + bytes.length
      buffer := b.buffer.take b.size ++ bytes ++ b.buffer.drop (b.size + bytes.length) },
    hpush, ?_, ?_⟩
  · simp only [buf_store, hc, and_self, if_true, hk]
  · refine ⟨?_, ?_, ?_, ?_, h5, h6⟩
    · simp only []; omega
    · simp only [List.length_append]; omega
    · simp only []
      rw [take_store b.buffer bytes b.size (by omega), h3]
    · simp only []
      rw [length_store b.buffer bytes b.size (by omega)]
      exact h4

theorem buf_write_u32_writing (b : buf_t) (w : List Nat) (v : Nat) (h : buf_writing b w)
    (hfit : w.length + 4 ≤ BUF_CAPACITY) :
    ∃ b1, buf_write_u32 b v = .ok b1 ∧ buf_writing b1 (w ++ le_bytes 4 v) := by
  obtain ⟨b1, hp, hs, hw⟩ := buf_push_store b w (le_bytes 4 v) h (by rw [le_bytes_length]; exact hfit)
  rw [le_bytes_length] at hp hs
  exact ⟨b1, by simp only [buf_write_u32, hp, hs], hw⟩

theorem buf_write_uintptr_writing (b : buf_t) (w : List Nat) (v : Nat) (h : buf_writing b w)
    (hfit : w.length + 8 ≤ BUF_CAPACITY) :
    ∃ b1, buf_write_uintptr b v = .ok b1 ∧ buf_writing b1 (w ++ le_bytes 8 v) := by
  obtain ⟨b1, hp, hs, hw⟩ := buf_push_store b w (le_bytes 8 v) h (by rw [le_bytes_length]; exact hfit)
  rw [le_bytes_length] at hp hs
  exact ⟨b1, by simp only [buf_write_uintptr, hp, hs], hw⟩

theorem buf_write_writing (b : buf_t) (w d : List Nat) (n : Nat) (h : buf_writing b w)
    (hn : n ≤ d.length) (hfit : w.length + n ≤ BUF_CAPACITY) :
    ∃ b1, buf_write b d n = .ok b1 ∧ buf_writing b1 (w ++ d.take n) := by
  have hl : (d.take n).length = n := by rw [List.length_take]; omega
  obtain ⟨b1, hp, hs, hw⟩ := buf_push_store b w (d.take n) h (by rw [hl]; exact hfit)
  rw [hl] at hp hs
  exact ⟨b1, by simp only [buf_write, hp, hs, hn, if_true], hw⟩

theorem buf_pop_holds (b : buf_t) (front rest : List Nat) (h : buf_holds b (front ++ rest)) :
    buf_pop b front.length = (some b.ptr, { b with ptr := b.ptr + front.length }) ∧
      buf_load { b with ptr := b.ptr + front.length } b.ptr front.length = .ok front ∧
      buf_holds { b with ptr := b.ptr + front.length } rest := by
  obtain ⟨h1, h2, h3, h4, h5, h6⟩ := h
  rw [List.length_append] at h2 h6
  have e1 : (b.base + b.size) % WORD = b.base + b.size := Nat.mod_eq_of_lt (by omega)
  have e2 : (b.ptr + front.length) % WORD = b.ptr + front.length := Nat.mod_eq_of_lt (by omega)
  have e3 : ¬ b.base + b.size < b.ptr + front.length := by omega
  have hc : b.base ≤ b.ptr ∧ b.ptr + front.length ≤ b.base + b.buffer.length := by omega
  have hf := take_of_take_append _ front rest h6
  have hr := take_drop_of_take_append _ front rest h6
  rw [List.drop_drop] at hr
  have ek : b.ptr + front.length - b.base = b.ptr - b.base + front.length := by omega
  refine ⟨?_, ?_, ?_⟩
  · simp only [buf_pop, e1, e2, e3, if_false]
  · simp only [buf_load, hc, and_self, if_true, hf]
  · refine ⟨by simp only []; omega, by simp only []; omega, h3, h4, h5, ?_⟩
    simp only [ek]
    exact hr

theorem buf_read_u32_holds (b : buf_t) (v : Nat) (rest : List Nat)
    (h : buf_holds b (le_bytes 4 v ++ rest)) :
    buf_read_u32 b = .ok (v % 2 ^ 32, { b with ptr := b.ptr + 4 }) ∧
      buf_holds { b with ptr := b.ptr + 4 } rest := by
  obtain ⟨hp, hl, hh⟩ := buf_pop_holds b (le_bytes 4 v) rest h
  rw [le_bytes_length] at hp hl hh
  refine ⟨?_, hh⟩
  simp only [buf_read_u32, hp, hl, le_value_le_bytes]
  norm_num

theorem buf_read_holds (b : buf_t) (front rest : List Nat) (h : buf_holds b (front ++ rest)) :
    buf_read b front.length = .ok (front, { b with ptr := b.ptr + front.length }) ∧
      buf_holds { b with ptr := b.ptr + front.length } rest := by
  obtain ⟨hp, hl, hh⟩ := buf_pop_holds b front rest h
  exact ⟨by simp only [buf_read, hp, hl], hh⟩

/-! ### Command exchange -/

theorem binder_send_writing (ctx : binder_ctx) (b : buf_t) (w : List Nat) (r : ioctl_reply)
    (rest : List ioctl_reply) (hs : ctx.script = r :: rest) (hw : buf_writing b w) :
    ∃ v, binder_send ctx b
      = .ok (v, { ctx with script := rest, log := ctx.log ++ [write_request w] }) := by
  obtain ⟨_, h2, h3, _, _, _⟩ := hw
  by_cases hr : r.ret < 0
  · exact ⟨r.ret, by simp [binder_send, ioctl, hs, hr, write_request, h3, ← h2]⟩
  · exact ⟨to_int r.write_consumed, by simp [binder_send, ioctl, hs, hr, write_request, h3, ← h2]⟩

theorem ctx_eta (ctx : binder_ctx) :
    ({ ctx with script := ctx.script, log := ctx.log ++ [] } : binder_ctx) = ctx := by
  cases ctx
  simp

theorem record_read (buf : buf_t) (r : record) (tl : List Nat) (hok : r.ok)
    (hh : buf_holds buf (r.bytes ++ tl)) :
    buf.ptr ≠ (buf.base + buf.size) % WORD ∧
      buf_read_u32 buf = .ok (r.cmd, { buf with ptr := buf.ptr + 4 }) ∧
      buf_read { buf with ptr := buf.ptr + 4 } (_IOC_SIZE r.cmd)
        = .ok (r.payload, { buf with ptr := buf.ptr + 4 + r.payload.length }) ∧
      ¬ 2048 < _IOC_SIZE r.cmd ∧
      buf_holds { buf with ptr := buf.ptr + 4 + r.payload.length } tl ∧
      r.bytes.length = 4 + r.payload.length := by
  obtain ⟨hc, hl, hb⟩ := hok
  have hlen : r.bytes.length = 4 + r.payload.length := by
    simp only [record.bytes, List.length_append, le_bytes_length]
  have hh' : buf_holds buf (le_bytes 4 r.cmd ++ (r.payload ++ tl)) := by
    simpa only [record.bytes, List.append_assoc] using hh
  obtain ⟨h1, h2, h3, h4, h5, h6⟩ := hh
  rw [List.length_append, hlen] at h2
  obtain ⟨hu, hh1⟩ := buf_read_u32_holds buf r.cmd (r.payload ++ tl) hh'
  obtain ⟨hr, hh2⟩ := buf_read_holds _ r.payload tl hh1
  have hsz : BUF_CAPACITY = 512 := rfl
  refine ⟨?_, ?_, ?_, ?_, hh2, hlen⟩
  · rw [Nat.mod_eq_of_lt (by omega)]; omega
  · rw [hu, Nat.mod_eq_of_lt hc]
  · rw [← hl]; exact hr
  · rw [← hl]; omega

theorem ack_two_words (a : Nat) (code : Nat) (payload : List Nat) (ha : a + BUF_CAPACITY < WORD)
    (hl : payload.length = 16) (hb : ∀ x ∈ payload, x < 256) :
    ∃ a1 a2 a3, buf_write_u32 (buf_init_write (buf_at a)) code = .ok a1 ∧
      buf_write_uintptr a1 (le_value (payload.take 8)) = .ok a2 ∧
      buf_write_uintptr a2 (le_value ((payload.drop 8).take 8)) = .ok a3 ∧
      buf_writing a3 (le_bytes 4 code ++ payload) := by
  have hsz : BUF_CAPACITY = 512 := rfl
  obtain ⟨a1, e1, w1⟩ := buf_write_u32_writing _ [] code (buf_init_write_writing a ha)
    (by simp only [List.length_nil]; omega)
  obtain ⟨a2, e2, w2⟩ := buf_write_uintptr_writing a1 _ (le_value (payload.take 8)) w1
    (by simp only [List.nil_append, le_bytes_length]; omega)
  obtain ⟨a3, e3, w3⟩ := buf_write_uintptr_writing a2 _ (le_value ((payload.drop 8).take 8)) w2
    (by simp only [List.nil_append, List.length_append, le_bytes_length]; omega)
  refine ⟨a1, a2, a3, e1, e2, e3, ?_⟩
  have l1 : (payload.take 8).length = 8 := by rw [List.length_take]; omega
  have l2 : ((payload.drop 8).take 8).length = 8 := by
    rw [List.length_take, List.length_drop]; omega
  have b1 : ∀ x ∈ payload.take 8, x < 256 := fun x hx => hb x (List.mem_of_mem_take hx)
  have b2 : ∀ x ∈ (payload.drop 8).take 8, x < 256 :=
    fun x hx => hb x (List.mem_of_mem_drop (List.mem_of_mem_take hx))
  have r1 := le_bytes_le_value _ b1
  have r2 := le_bytes_le_value _ b2
  rw [l1] at r1
  rw [l2] at r2
  have hd : (payload.drop 8).take 8 = payload.drop 8 :=
    List.take_of_length_le (by rw [List.length_drop]; omega)
  rw [r1, r2, hd, List.nil_append, List.append_assoc, List.take_append_drop] at w3
  exact w3

theorem ack_one_word (a : Nat) (code : Nat) (payload : List Nat) (ha : a + BUF_CAPACITY < WORD)
    (hl : payload.length = 8) (hb : ∀ x ∈ payload, x < 256) :
    ∃ a1 a2, buf_write_u32 (buf_init_write (buf_at a)) code = .ok a1 ∧
      buf_write_uintptr a1 (le_value (payload.take 8)) = .ok a2 ∧
      buf_writing a2 (le_bytes 4 code ++ payload) := by
  have hsz : BUF_CAPACITY = 512 := rfl
  obtain ⟨a1, e1, w1⟩ := buf_write_u32_writing _ [] code (buf_init_write_writing a ha)
    (by simp only [List.length_nil]; omega)
  obtain ⟨a2, e2, w2⟩ := buf_write_uintptr_writing a1 _ (le_value (payload.take 8)) w1
    (by simp only [List.nil_append, le_bytes_length]; omega)
  refine ⟨a1, a2, e1, e2, ?_⟩
  have ht : payload.take 8 = payload := List.take_of_length_le (by omega)
  have r1 := le_bytes_le_value _ hb
  rw [hl] at r1
  rw [ht, r1, List.nil_append] at w2
  exact w2

theorem BR_codes :
    BR_ACQUIRE ≠ BR_INCREFS ∧ BR_DEAD_BINDER ≠ BR_ACQUIRE ∧ BR_DEAD_BINDER ≠ BR_INCREFS ∧
      BR_TRANSACTION ≠ BR_ACQUIRE ∧ BR_TRANSACTION ≠ BR_INCREFS ∧
      BR_TRANSACTION ≠ BR_DEAD_BINDER ∧ BR_REPLY ≠ BR_ACQUIRE ∧ BR_REPLY ≠ BR_INCREFS ∧
      BR_REPLY ≠ BR_DEAD_BINDER ∧ _IOC_SIZE BR_ACQUIRE = 16 ∧ _IOC_SIZE BR_INCREFS = 16 ∧
      _IOC_SIZE BR_DEAD_BINDER = 8 := by
  decide

theorem binder_skip_cmds_body_skip (ctx : binder_ctx) (buf : buf_t)
    (txnin : translated_data_t) (r : record) (tl : List Nat) (replies tail : List ioctl_reply)
    (hok : r.ok) (hnt : ¬ r.is_transaction) (hh : buf_holds buf (r.bytes ++ tl))
    (ha : ctx.mem.ack_buf + BUF_CAPACITY < WORD) (hs : ctx.script = replies ++ tail)
    (hl : replies.length = (acks [r]).length) :
    binder_skip_cmds_body ctx buf txnin
      = .ok (none,
          { ctx with script := tail, log := ctx.log ++ (acks [r]).map write_request },
          { buf with ptr := buf.ptr + 4 + r.payload.length }, txnin) := by
  obtain ⟨_, hu, hr, hcap, _, _⟩ := record_read buf r tl hok hh
  obtain ⟨c1, c2, c3, c4, c5, c6, c7, c8, c9, s1, s2, s3⟩ := BR_codes
  have hnt1 : r.cmd ≠ BR_TRANSACTION := fun h => hnt (Or.inl h)
  have hnt2 : r.cmd ≠ BR_REPLY := fun h => hnt (Or.inr h)
  have hone : ∀ w, (acks [r]) = [w] → ∃ r0, ctx.script = r0 :: tail := by
    intro w hw
    rw [hw] at hl
    cases replies with
    | nil => simp at hl
    | cons r0 rest0 =>
      have hrest : rest0 = [] := by simpa using hl
      rw [hrest] at hs
      exact ⟨r0, hs⟩
  unfold binder_skip_cmds_body
  rw [hu]
  dsimp only
  rw [hr]
  dsimp only
  rw [if_neg hcap]
  by_cases h1 : r.cmd = BR_ACQUIRE
  · have hlen : r.payload.length = 16 := by rw [hok.2.1, h1, s1]
    obtain ⟨a1, a2, a3, e1, e2, e3, w3⟩ :=
      ack_two_words ctx.mem.ack_buf BC_ACQUIRE_DONE r.payload ha hlen hok.2.2
    have hacks : acks [r] = [le_bytes 4 BC_ACQUIRE_DONE ++ r.payload] := by
      simp [acks, ack_of, h1, c1]
    obtain ⟨r0, hs0⟩ := hone _ hacks
    obtain ⟨v, hv⟩ := binder_send_writing ctx a3 _ r0 tail hs0 w3
    rw [if_pos (Or.inl h1), if_pos h1, e1]
    dsimp only
    rw [e2]
    dsimp only
    rw [e3]
    dsimp only
    rw [hv, hacks]
    rfl
  · by_cases h2 : r.cmd = BR_INCREFS
    · have hlen : r.payload.length = 16 := by rw [hok.2.1, h2, s2]
      obtain ⟨a1, a2, a3, e1, e2, e3, w3⟩ :=
        ack_two_words ctx.mem.ack_buf BC_INCREFS_DONE r.payload ha hlen hok.2.2
      have hacks : acks [r] = [le_bytes 4 BC_INCREFS_DONE ++ r.payload] := by
        simp [acks, ack_of, h2]
      obtain ⟨r0, hs0⟩ := hone _ hacks
      obtain ⟨v, hv⟩ := binder_send_writing ctx a3 _ r0 tail hs0 w3
      rw [if_pos (Or.inr h2), if_neg h1, e1]
      dsimp only
      rw [e2]
      dsimp only
      rw [e3]
      dsimp only
      rw [hv, hacks]
      rfl
    · have h12 : ¬ (r.cmd = BR_ACQUIRE ∨ r.cmd = BR_INCREFS) := fun h => h.elim h1 h2
      rw [if_neg h12]
      by_cases h3 : r.cmd = BR_DEAD_BINDER
      · have hlen : r.payload.length = 8 := by rw [hok.2.1, h3, s3]
        obtain ⟨a1, a2, e1, e2, w2⟩ :=
          ack_one_word ctx.mem.ack_buf BC_DEAD_BINDER_DONE r.payload ha hlen hok.2.2
        have hacks : acks [r] = [le_bytes 4 BC_DEAD_BINDER_DONE ++ r.payload] := by
          simp [acks, ack_of, h3, c2, c3]
        obtain ⟨r0, hs0⟩ := hone _ hacks
        obtain ⟨v, hv⟩ := binder_send_writing ctx a2 _ r0 tail hs0 w2
        rw [if_pos h3, e1]
        dsimp only
        rw [e2]
        dsimp only
        rw [hv, hacks]
        rfl
      · have hacks : acks [r] = [] := by
          simp [acks, ack_of, h1, h2, h3]
        rw [hacks] at hl
        have hrep : replies = [] := by simpa using hl
        rw [hrep, List.nil_append] at hs
        have h45 : ¬ (r.cmd = BR_TRANSACTION ∨ r.cmd = BR_REPLY) := fun h => h.elim hnt1 hnt2
        rw [if_neg h3, if_neg h45, hacks, ← hs, List.map_nil, ctx_eta]

theorem binder_skip_cmds_step (f : Nat) (ctx : binder_ctx) (buf : buf_t)
    (txnin : translated_data_t) (r : record) (tl : List Nat) (replies tail : List ioctl_reply)
    (hok : r.ok) (hnt : ¬ r.is_transaction) (hh : buf_holds buf (r.bytes ++ tl))
    (ha : ctx.mem.ack_buf + BUF_CAPACITY < WORD) (hs : ctx.script = replies ++ tail)
    (hl : replies.length = (acks [r]).length) :
    binder_skip_cmds (f + 1) ctx buf txnin
        = binder_skip_cmds f
            { ctx with script := tail, log := ctx.log ++ (acks [r]).map write_request }
            { buf with ptr := buf.ptr + 4 + r.payload.length } txnin ∧
      buf_holds { buf with ptr := buf.ptr + 4 + r.payload.length } tl := by
  obtain ⟨hne, _, _, _, hh2, _⟩ := record_read buf r tl hok hh
  refine ⟨?_, hh2⟩
  rw [binder_skip_cmds, if_pos hne,
    binder_skip_cmds_body_skip ctx buf txnin r tl replies tail hok hnt hh ha hs hl]

theorem acks_cons (r : record) (rs : List record) : acks (r :: rs) = acks [r] ++ acks rs := by
  simp only [acks]
  rw [← List.filterMap_append]
  rfl

theorem binder_skip_cmds_leading (pre : List record) :
    ∀ (f : Nat) (ctx : binder_ctx) (buf : buf_t) (txnin : translated_data_t) (tl : List Nat)
      (replies tail : List ioctl_reply),
      (∀ r ∈ pre, r.ok ∧ ¬ r.is_transaction) → buf_holds buf (stream_bytes pre ++ tl) →
      ctx.mem.ack_buf + BUF_CAPACITY < WORD → ctx.script = replies ++ tail →
      replies.length = (acks pre).length →
      binder_skip_cmds (pre.length + f) ctx buf txnin
          = binder_skip_cmds f
              { ctx with script := tail, log := ctx.log ++ (acks pre).map write_request }
              { buf with ptr := buf.ptr + (stream_bytes pre).length } txnin ∧
        buf_holds { buf with ptr := buf.ptr + (stream_bytes pre).length } tl := by
  induction pre with
  | nil =>
    intro f ctx buf txnin tl replies tail _ hh _ hs hl
    have hrep : replies = [] := by simpa [acks] using hl
    rw [hrep, List.nil_append] at hs
    have hb : ({ buf with ptr := buf.ptr + (stream_bytes []).length } : buf_t) = buf := by
      cases buf; simp [stream_bytes]
    have hc : ({ ctx with script := tail, log := ctx.log ++ (acks []).map write_request }
        : binder_ctx) = ctx := by
      rw [← hs]; cases ctx; simp [acks]
    rw [hb, hc]
    exact ⟨by simp, by simpa [stream_bytes] using hh⟩
  | cons r rs ih =>
    intro f ctx buf txnin tl replies tail hall hh ha hs hl
    have hr := hall r (List.mem_cons_self r rs)
    have hrs : ∀ x ∈ rs, x.ok ∧ ¬ x.is_transaction :=
      fun x hx => hall x (List.mem_cons_of_mem r hx)
    have hh' : buf_holds buf (r.bytes ++ (stream_bytes rs ++ tl)) := by
      simpa only [stream_bytes, List.append_assoc] using hh
    rw [acks_cons, List.length_append] at hl
    have hsplit : ctx.script
        = replies.take (acks [r]).length ++ (replies.drop (acks [r]).length ++ tail) := by
      rw [← List.append_assoc, List.take_append_drop]; exact hs
    have hl1 : (replies.take (acks [r]).length).length = (acks [r]).length := by
      rw [List.length_take]; omega
    have hl2 : (replies.drop (acks [r]).length).length = (acks rs).length := by
      rw [List.length_drop]; omega
    obtain ⟨e1, hh1⟩ := binder_skip_cmds_step (rs.length + f) ctx buf txnin r
      (stream_bytes rs ++ tl) _ _ hr.1 hr.2 hh' ha hsplit hl1
    obtain ⟨e2, hh2⟩ := ih f
      { ctx with
        script := replies.drop (acks [r]).length ++ tail
        log := ctx.log ++ (acks [r]).map write_request }
      _ txnin tl (replies.drop (acks [r]).length) tail hrs hh1 ha rfl hl2
    have hlen : r.bytes.length = 4 + r.payload.length := by
      simp only [record.bytes, List.length_append, le_bytes_length]
    have hf : (r :: rs).length + f = (rs.length + f) + 1 := by
      simp only [List.length_cons]; omega
    have hp : buf.ptr + 4 + r.payload.length + (stream_bytes rs).length
        = buf.ptr + (stream_bytes (r :: rs)).length := by
      simp only [stream_bytes, List.length_append, hlen]; omega
    simp only [hp] at e2 hh2
    refine ⟨?_, hh2⟩
    have hlog : ctx.log ++ (acks [r]).map write_request ++ (acks rs).map write_request
        = ctx.log ++ (acks (r :: rs)).map write_request := by
      rw [acks_cons r rs, List.map_append, List.append_assoc]
    rw [hf, e1, e2, hlog]

theorem binder_skip_cmds_found (f : Nat) (ctx : binder_ctx) (buf : buf_t)
    (txnin : translated_data_t) (r : record) (tl : List Nat)
    (hok : r.ok) (ht : r.is_transaction) (hh : buf_holds buf (r.bytes ++ tl)) :
    binder_skip_cmds (f + 1) ctx buf txnin
      = .ok (1, ctx, { buf with ptr := buf.ptr + 4 + r.payload.length },
          txnin_init txnin (transaction_data_of_bytes r.payload)) := by
  obtain ⟨hne, hu, hr, hcap, _, _⟩ := record_read buf r tl hok hh
  obtain ⟨c1, c2, c3, c4, c5, c6, c7, c8, c9, s1, s2, s3⟩ := BR_codes
  have h12 : ¬ (r.cmd = BR_ACQUIRE ∨ r.cmd = BR_INCREFS) := by
    rcases ht with h | h <;> rw [h] <;> intro h' <;> rcases h' with h' | h'
    · exact c4 h'
    · exact c5 h'
    · exact c7 h'
    · exact c8 h'
  have h3 : ¬ r.cmd = BR_DEAD_BINDER := by
    rcases ht with h | h <;> rw [h]
    · exact c6
    · exact c9
  have hb : binder_skip_cmds_body ctx buf txnin
      = .ok (some 1, ctx, { buf with ptr := buf.ptr + 4 + r.payload.length },
          txnin_init txnin (transaction_data_of_bytes r.payload)) := by
    unfold binder_skip_cmds_body
    rw [hu]
    dsimp only
    rw [hr]
    dsimp only
    have ht' : r.cmd = BR_TRANSACTION ∨ r.cmd = BR_REPLY := ht
    rw [if_neg hcap, if_neg h12, if_neg h3, if_pos ht']
  rw [binder_skip_cmds, if_pos hne, hb]

theorem binder_skip_cmds_end (f : Nat) (ctx : binder_ctx) (buf : buf_t)
    (txnin : translated_data_t) (hh : buf_holds buf []) :
    binder_skip_cmds (f + 1) ctx buf txnin = .ok (0, ctx, buf, txnin) := by
  obtain ⟨h1, h2, h3, h4, h5, h6⟩ := hh
  simp only [List.length_nil, Nat.add_zero] at h2
  have he : ¬ buf.ptr ≠ (buf.base + buf.size) % WORD := by
    rw [Nat.mod_eq_of_lt (by omega)]
    exact fun h => h h2
  rw [binder_skip_cmds, if_neg he]

theorem binder_skip_cmds_scan_found (pre : List record) (txn : record) (rest : List Nat)
    (replies tail : List ioctl_reply) (ctx : binder_ctx) (buf : buf_t)
    (txnin : translated_data_t) (fuel : Nat)
    (hpre : ∀ r ∈ pre, r.ok ∧ ¬ r.is_transaction) (htxn : txn.ok ∧ txn.is_transaction)
    (hbuf : buf_holds buf (stream_bytes pre ++ (txn.bytes ++ rest)))
    (hack : ctx.mem.ack_buf + BUF_CAPACITY < WORD)
    (hscript : ctx.script = replies ++ tail) (hreplies : replies.length = (acks pre).length)
    (hfuel : pre.length < fuel) :
    binder_skip_cmds fuel ctx buf txnin
      = .ok (1, { ctx with script := tail, log := ctx.log ++ (acks pre).map write_request },
          { buf with ptr := buf.ptr + (stream_bytes pre).length + 4 + txn.payload.length },
          txnin_init txnin (transaction_data_of_bytes txn.payload)) := by
  obtain ⟨f, hf⟩ : ∃ f, fuel = pre.length + (f + 1) := ⟨fuel - pre.length - 1, by omega⟩
  obtain ⟨e1, hh1⟩ := binder_skip_cmds_leading pre (f + 1) ctx buf txnin (txn.bytes ++ rest)
    replies tail hpre hbuf hack hscript hreplies
  rw [hf, e1, binder_skip_cmds_found f _ _ txnin txn rest htxn.1 htxn.2 hh1]

theorem binder_skip_cmds_scan_none (pre : List record)
    (replies tail : List ioctl_reply) (ctx : binder_ctx) (buf : buf_t)
    (txnin : translated_data_t) (fuel : Nat)
    (hpre : ∀ r ∈ pre, r.ok ∧ ¬ r.is_transaction)
    (hbuf : buf_holds buf (stream_bytes pre))
    (hack : ctx.mem.ack_buf + BUF_CAPACITY < WORD)
    (hscript : ctx.script = replies ++ tail) (hreplies : replies.length = (acks pre).length)
    (hfuel : pre.length < fuel) :
    binder_skip_cmds fuel ctx buf txnin
      = .ok (0, { ctx with script := tail, log := ctx.log ++ (acks pre).map write_request },
          { buf with ptr := buf.ptr + (stream_bytes pre).length }, txnin) := by
  obtain ⟨f, hf⟩ : ∃ f, fuel = pre.length + (f + 1) := ⟨fuel - pre.length - 1, by omega⟩
  obtain ⟨e1, hh1⟩ := binder_skip_cmds_leading pre (f + 1) ctx buf txnin []
    replies tail hpre (by rw [List.append_nil]; exact hbuf) hack hscript hreplies
  rw [hf, e1, binder_skip_cmds_end f _ _ txnin hh1]

theorem buf_received_holds (a : Nat) (bytes : List Nat) (hl : bytes.length ≤ BUF_CAPACITY)
    (ha : a + BUF_CAPACITY < WORD) : buf_holds (buf_received a bytes) bytes := by
  refine ⟨Nat.le_refl _, rfl, ?_, ?_, ha, ?_⟩
  · simp only [buf_received, List.length_append, List.length_replicate]; omega
  · simp only [buf_received, List.length_append, List.length_replicate]; omega
  · simp only [buf_received, Nat.sub_self, List.drop_zero]
    exact List.take_left _ _

/-- C3: when the unread bytes of the receive buffer are the well-formed records
`pre`, none of them a transaction, followed by a transaction or reply record, then
`binder_skip_cmds` returns 1 with the reader initialised from that record, and the
exchanges it made are exactly the acknowledgements of the `BR_INCREFS`,
`BR_ACQUIRE` and `BR_DEAD_BINDER` records of `pre`, one each and in stream order:
done-code, then the pointer and cookie (or the cookie) of the record.  Nothing is
sent for the transaction record. -/
theorem binder_skip_cmds_acks (pre : List record) (txn : record) (rest : List Nat)
    (replies tail : List ioctl_reply) (ctx : binder_ctx) (buf : buf_t)
    (txnin : translated_data_t) (fuel : Nat)
    (hpre : ∀ r ∈ pre, r.ok ∧ ¬ r.is_transaction) (htxn : txn.ok ∧ txn.is_transaction)
    (hbuf : buf_holds buf (stream_bytes pre ++ (txn.bytes ++ rest)))
    (hack : ctx.mem.ack_buf + BUF_CAPACITY < WORD)
    (hscript : ctx.script = replies ++ tail) (hreplies : replies.length = (acks pre).length)
    (hfuel : pre.length < fuel) :
    binder_skip_cmds fuel ctx buf txnin
      = .ok (1, { ctx with script := tail, log := ctx.log ++ (acks pre).map write_request },
          { buf with ptr := buf.ptr + (stream_bytes pre).length + 4 + txn.payload.length },
          txnin_init txnin (transaction_data_of_bytes txn.payload)) :=
  binder_skip_cmds_scan_found pre txn rest replies tail ctx buf txnin fuel hpre htxn hbuf hack
    hscript hreplies hfuel

/-- Witness for `binder_skip_cmds_acks`: `BR_INCREFS(ptr = 0x10, cookie = 0x20)`
followed by one transaction record causes the single exchange
`BC_INCREFS_DONE, 0x10, 0x20` and the transaction is returned. -/
theorem binder_skip_cmds_acks_witness :
    binder_skip_cmds 2 { script := [reply_written 20], log := [], mem := example_addresses }
        (buf_received 0x7000 (stream_bytes [example_increfs] ++ (example_txn_record.bytes ++ [])))
        txnin_zero
      = .ok (1,
          { script := [], log := [] ++ (acks [example_increfs]).map write_request,
            mem := example_addresses },
          { buf_received 0x7000
              (stream_bytes [example_increfs] ++ (example_txn_record.bytes ++ [])) with
            ptr := 0x7000 + (stream_bytes [example_increfs]).length + 4
              + example_txn_record.payload.length },
          txnin_init txnin_zero (transaction_data_of_bytes example_txn_record.payload)) ∧
    (acks [example_increfs]).map write_request
      = [write_request (le_bytes 4 BC_INCREFS_DONE ++ le_bytes 8 0x10 ++ le_bytes 8 0x20)] ∧
    transaction_data_of_bytes example_txn_record.payload = example_transaction :=
  ⟨binder_skip_cmds_acks [example_increfs] example_txn_record [] [reply_written 20] []
      { script := [reply_written 20], log := [], mem := example_addresses }
      (buf_received 0x7000 (stream_bytes [example_increfs] ++ (example_txn_record.bytes ++ [])))
      txnin_zero 2
      (by
        intro r hr
        rw [List.mem_singleton] at hr
        subst hr
        exact ⟨⟨by decide, by decide, by decide⟩, by decide⟩)
      ⟨⟨by decide, by decide, by decide⟩, by decide⟩
      (buf_received_holds _ _ (by decide) (by unfold WORD; decide))
      (by unfold WORD; decide) rfl (by decide) (by decide),
    by decide, by decide⟩

theorem buf_init_read_eq (a : Nat) :
    buf_init_read (buf_at a)
      = { base := a, buffer := List.replicate BUF_CAPACITY 0, ptr := a, size := BUF_CAPACITY,
          max_size := BUF_CAPACITY } := rfl

theorem binder_recv_read (ctx : binder_ctx) (a : Nat) (bytes : List Nat) (r : ioctl_reply)
    (rest : List ioctl_reply) (hs : ctx.script = r :: rest) (hr : 0 ≤ r.ret)
    (hd : r.read_data = bytes) (hc : r.read_consumed = bytes.length)
    (hl : bytes.length ≤ BUF_CAPACITY) :
    binder_recv ctx (buf_init_read (buf_at a))
      = .ok (to_int bytes.length, buf_received a bytes,
          { ctx with script := rest, log := ctx.log ++ [read_request] }) := by
  have hr' : ¬ r.ret < 0 := by omega
  have hb : List.take BUF_CAPACITY
      (bytes ++ List.drop bytes.length (List.replicate BUF_CAPACITY 0))
      = bytes ++ List.replicate (BUF_CAPACITY - bytes.length) 0 := by
    rw [List.drop_replicate]
    apply List.take_of_length_le
    rw [List.length_append, List.length_replicate]
    omega
  rw [buf_init_read_eq]
  unfold binder_recv ioctl
  rw [hs]
  dsimp only
  rw [if_neg hr', hd, hc, List.length_replicate, hb]
  rfl

theorem binder_recv_failed (ctx : binder_ctx) (a : Nat) (r : ioctl_reply)
    (rest : List ioctl_reply) (hs : ctx.script = r :: rest) (hr : r.ret < 0)
    (hd : r.read_data = []) :
    binder_recv ctx (buf_init_read (buf_at a))
      = .ok (r.ret, buf_init_read (buf_at a),
          { ctx with script := rest, log := ctx.log ++ [read_request] }) := by
  have hb : List.take BUF_CAPACITY (List.replicate BUF_CAPACITY 0)
      = List.replicate BUF_CAPACITY (0 : Nat) := by
    apply List.take_of_length_le
    rw [List.length_replicate]
  rw [buf_init_read_eq]
  unfold binder_recv ioctl
  rw [hs]
  dsimp only
  rw [if_pos hr, hd, List.length_replicate, List.length_nil, List.drop_zero, List.nil_append, hb]
  rfl

theorem buf_init_read_holds (a : Nat) (ha : a + BUF_CAPACITY < WORD) :
    buf_holds (buf_init_read (buf_at a)) (List.replicate BUF_CAPACITY 0) := by
  rw [buf_init_read_eq]
  refine ⟨Nat.le_refl _, ?_, ?_, ?_, ha, ?_⟩
  · dsimp only
    rw [List.length_replicate]
  · dsimp only
    rw [List.length_replicate]
  · dsimp only
    rw [List.length_replicate]
  · dsimp only
    rw [Nat.sub_self, List.drop_zero, List.length_replicate]
    apply List.take_of_length_le
    rw [List.length_replicate]

theorem binder_recv_txn_found (rounds scan : Nat) (ctx : binder_ctx) (txnin : translated_data_t)
    (pre : List record) (txn : record) (rest : List Nat) (r : ioctl_reply)
    (replies tail : List ioctl_reply)
    (hpre : ∀ x ∈ pre, x.ok ∧ ¬ x.is_transaction) (htxn : txn.ok ∧ txn.is_transaction)
    (hs : ctx.script = r :: (replies ++ tail)) (hr : 0 ≤ r.ret)
    (hd : r.read_data = stream_bytes pre ++ (txn.bytes ++ rest))
    (hc : r.read_consumed = (stream_bytes pre ++ (txn.bytes ++ rest)).length)
    (hl : (stream_bytes pre ++ (txn.bytes ++ rest)).length ≤ BUF_CAPACITY)
    (hrecv : ctx.mem.recv_buf + BUF_CAPACITY < WORD)
    (hack : ctx.mem.ack_buf + BUF_CAPACITY < WORD)
    (hreplies : replies.length = (acks pre).length) (hscan : pre.length < scan) :
    binder_recv_txn (rounds + 1) scan ctx txnin
      = .ok (0,
          { ctx with
            script := tail
            log := ctx.log ++ read_request :: (acks pre).map write_request },
          txnin_init txnin (transaction_data_of_bytes txn.payload)) := by
  have h1 := binder_recv_read ctx ctx.mem.recv_buf _ r (replies ++ tail) hs hr hd hc hl
  have h2 := binder_skip_cmds_scan_found pre txn rest replies tail
    { ctx with script := replies ++ tail, log := ctx.log ++ [read_request] }
    (buf_received ctx.mem.recv_buf (stream_bytes pre ++ (txn.bytes ++ rest))) txnin scan
    hpre htxn (buf_received_holds _ _ hl hrecv) hack rfl hreplies hscan
  rw [binder_recv_txn]
  dsimp only
  rw [h1]
  dsimp only
  rw [if_neg (Nat.not_lt_zero _), h2]
  dsimp only
  rw [if_pos (by decide), List.append_assoc]
  rfl

theorem zero_records (n : Nat) :
    (∀ x ∈ List.replicate n (⟨0, []⟩ : record), x.ok ∧ ¬ x.is_transaction) ∧
      stream_bytes (List.replicate n ⟨0, []⟩) = List.replicate (4 * n) 0 ∧
      acks (List.replicate n ⟨0, []⟩) = [] := by
  refine ⟨?_, ?_, ?_⟩
  · intro x hx
    rw [List.eq_of_mem_replicate hx]
    exact ⟨by decide, by decide⟩
  · induction n with
    | zero => rfl
    | succ n ih =>
      rw [List.replicate_succ, stream_bytes, ih]
      have e : 4 * (n + 1) = 4 + 4 * n := by omega
      rw [e, List.replicate_add]
      rfl
  · induction n with
    | zero => rfl
    | succ n ih =>
      rw [List.replicate_succ, acks_cons, ih]
      rfl

theorem binder_recv_txn_failed_round (rounds scan : Nat) (ctx : binder_ctx)
    (txnin : translated_data_t) (r : ioctl_reply) (rest : List ioctl_reply)
    (hs : ctx.script = r :: rest) (hr : r.ret < 0) (hd : r.read_data = [])
    (hrecv : ctx.mem.recv_buf + BUF_CAPACITY < WORD)
    (hack : ctx.mem.ack_buf + BUF_CAPACITY < WORD) (hscan : 128 < scan) :
    binder_recv_txn (rounds + 1) scan ctx txnin
      = binder_recv_txn rounds scan
          { ctx with script := rest, log := ctx.log ++ [read_request] } txnin := by
  obtain ⟨z1, z2, z3⟩ := zero_records 128
  have h1 := binder_recv_failed ctx ctx.mem.recv_buf r rest hs hr hd
  have hh : buf_holds (buf_init_read (buf_at ctx.mem.recv_buf))
      (stream_bytes (List.replicate 128 ⟨0, []⟩)) := by
    rw [z2]
    exact buf_init_read_holds _ hrecv
  have h2 := binder_skip_cmds_scan_none (List.replicate 128 ⟨0, []⟩) [] rest
    { ctx with script := rest, log := ctx.log ++ [read_request] }
    (buf_init_read (buf_at ctx.mem.recv_buf)) txnin scan z1 hh hack rfl
    (by rw [z3]; rfl) (by rw [List.length_replicate]; exact hscan)
  rw [z3] at h2
  rw [binder_recv_txn]
  dsimp only
  rw [h1]
  dsimp only
  rw [if_neg (Nat.not_lt_zero _), h2]
  dsimp only
  rw [if_neg (by decide), List.map_nil, List.append_nil]

theorem binder_recv_txn_ret_zero (rounds scan : Nat) :
    ∀ (ctx : binder_ctx) (txnin : translated_data_t) (ret : Int) (ctx1 : binder_ctx)
      (txnin1 : translated_data_t),
      binder_recv_txn rounds scan ctx txnin = .ok (ret, ctx1, txnin1) → ret = 0 := by
  induction rounds with
  | zero =>
    intro ctx txnin ret ctx1 txnin1 h
    rw [binder_recv_txn] at h
    cases h
  | succ rounds ih =>
    intro ctx txnin ret ctx1 txnin1 h
    rw [binder_recv_txn] at h
    dsimp only at h
    cases hrecv : binder_recv ctx (buf_init_read (buf_at ctx.mem.recv_buf)) with
    | error e =>
      rw [hrecv] at h
      cases h
    | ok v =>
      obtain ⟨r, buf1, c1⟩ := v
      rw [hrecv] at h
      dsimp only at h
      rw [if_neg (Nat.not_lt_zero _)] at h
      cases hskip : binder_skip_cmds scan c1 buf1 txnin with
      | error e =>
        rw [hskip] at h
        cases h
      | ok w =>
        obtain ⟨found, c2, b2, t2⟩ := w
        rw [hskip] at h
        dsimp only at h
        by_cases hf : found ≠ 0
        · rw [if_pos hf] at h
          injection h with h
          injection h with h _
          exact h.symm
        · rw [if_neg hf] at h
          exact ih c2 t2 ret ctx1 txnin1 h

/-- C1: the first receive exchange fails (`ioctl` returns -1 and stores nothing), yet
`binder_recv_txn` does not return: `read_consumed` is unsigned, so the test
`read_consumed < 0` never holds; the zero-filled buffer is scanned, a second exchange
is started, and the call returns 0 once that one delivers a transaction. -/
theorem binder_recv_txn_failed_recv :
    reply_failed.ret < 0 ∧
    binder_recv_txn 2 129
        { script := [reply_failed, reply_read example_txn_record.bytes], log := [],
          mem := example_addresses }
        txnin_zero
      = .ok (0, { script := [], log := [read_request, read_request], mem := example_addresses },
          txnin_init txnin_zero example_transaction) := by
  refine ⟨by decide, ?_⟩
  rw [binder_recv_txn_failed_round 1 129 _ txnin_zero reply_failed
    [reply_read example_txn_record.bytes] rfl (by decide) rfl (by unfold WORD; decide) (by unfold WORD; decide)
    (by decide)]
  rw [binder_recv_txn_found 0 129 _ txnin_zero [] example_txn_record []
    (reply_read example_txn_record.bytes) [] []
    (by intro x hx; cases hx) ⟨by decide, by decide⟩ rfl (by decide) (by decide) (by decide)
    (by decide) (by unfold WORD; decide) (by unfold WORD; decide) rfl (by decide)]
  have e : transaction_data_of_bytes example_txn_record.payload = example_transaction := by
    decide
  rw [e]
  rfl

/-- C4 (amended): whatever the acknowledgement exchanges return, failures included,
the scan goes on: when the receive exchange delivers the well-formed records `pre`,
none of them a transaction, followed by a transaction record, `binder_recv_txn`
sends every acknowledgement and returns 0 with the reader initialised from the
transaction. -/
theorem binder_recv_txn_ack_failure_ignored (rounds scan : Nat) (ctx : binder_ctx)
    (txnin : translated_data_t) (pre : List record) (txn : record) (rest : List Nat)
    (r : ioctl_reply) (replies tail : List ioctl_reply)
    (hpre : ∀ x ∈ pre, x.ok ∧ ¬ x.is_transaction) (htxn : txn.ok ∧ txn.is_transaction)
    (hs : ctx.script = r :: (replies ++ tail)) (hr : 0 ≤ r.ret)
    (hd : r.read_data = stream_bytes pre ++ (txn.bytes ++ rest))
    (hc : r.read_consumed = (stream_bytes pre ++ (txn.bytes ++ rest)).length)
    (hl : (stream_bytes pre ++ (txn.bytes ++ rest)).length ≤ BUF_CAPACITY)
    (hrecv : ctx.mem.recv_buf + BUF_CAPACITY < WORD)
    (hack : ctx.mem.ack_buf + BUF_CAPACITY < WORD)
    (hreplies : replies.length = (acks pre).length) (hscan : pre.length < scan) :
    binder_recv_txn (rounds + 1) scan ctx txnin
      = .ok (0,
          { ctx with
            script := tail
            log := ctx.log ++ read_request :: (acks pre).map write_request },
          txnin_init txnin (transaction_data_of_bytes txn.payload)) :=
  binder_recv_txn_found rounds scan ctx txnin pre txn rest r replies tail hpre htxn hs hr hd hc
    hl hrecv hack hreplies hscan

/-- Witness for `binder_recv_txn_ack_failure_ignored`: the acknowledgement of
`BR_INCREFS(0x10, 0x20)` fails, and the transaction behind it is still returned. -/
theorem binder_recv_txn_ack_failure_ignored_witness :
    reply_failed.ret < 0 ∧
    binder_recv_txn 1 2
        { script := reply_read (stream_bytes [example_increfs] ++ (example_txn_record.bytes ++ []))
            :: ([reply_failed] ++ []),
          log := [], mem := example_addresses }
        txnin_zero
      = .ok (0,
          { script := [],
            log := [] ++ read_request :: (acks [example_increfs]).map write_request,
            mem := example_addresses },
          txnin_init txnin_zero (transaction_data_of_bytes example_txn_record.payload)) :=
  ⟨by decide,
    binder_recv_txn_ack_failure_ignored 0 2
      { script := reply_read (stream_bytes [example_increfs] ++ (example_txn_record.bytes ++ []))
          :: ([reply_failed] ++ []),
        log := [], mem := example_addresses }
      txnin_zero [example_increfs] example_txn_record []
      (reply_read (stream_bytes [example_increfs] ++ (example_txn_record.bytes ++ [])))
      [reply_failed] []
      (by
        intro x hx
        rw [List.mem_singleton] at hx
        subst hx
        exact ⟨by decide, by decide⟩)
      ⟨by decide, by decide⟩ rfl (by decide) rfl rfl (by decide) (by unfold WORD; decide) (by unfold WORD; decide)
      (by decide) (by decide)⟩

/-- C4 (counterexample): the receive exchange delivers `BR_DEAD_BINDER(0x30)` and a
transaction; the exchange that sends `BC_DEAD_BINDER_DONE` fails with -1;
`binder_recv_txn` returns 0, not a negative error. -/
theorem binder_recv_txn_ack_failure_returns_zero :
    reply_failed.ret < 0 ∧
    binder_recv_txn 1 2
        { script := [reply_read (example_dead_binder.bytes ++ example_txn_record.bytes),
            reply_failed],
          log := [], mem := example_addresses }
        txnin_zero
      = .ok (0,
          { script := [],
            log := [read_request,
              write_request (le_bytes 4 BC_DEAD_BINDER_DONE ++ le_bytes 8 0x30)],
            mem := example_addresses },
          txnin_init txnin_zero example_transaction) ∧
    ¬ (0 : Int) < 0 := by
  refine ⟨by decide, ?_, by decide⟩
  rw [binder_recv_txn_found 0 2 _ txnin_zero [example_dead_binder] example_txn_record []
    (reply_read (example_dead_binder.bytes ++ example_txn_record.bytes)) [reply_failed] []
    (by
      intro x hx
      rw [List.mem_singleton] at hx
      subst hx
      exact ⟨by decide, by decide⟩)
    ⟨by decide, by decide⟩ rfl (by decide) (by decide) (by decide) (by decide) (by unfold WORD; decide)
    (by unfold WORD; decide) (by decide) (by decide)]
  have e : transaction_data_of_bytes example_txn_record.payload = example_transaction := by
    decide
  have a : (acks [example_dead_binder]).map write_request
      = [write_request (le_bytes 4 BC_DEAD_BINDER_DONE ++ le_bytes 8 0x30)] := by
    decide
  rw [e, a]
  rfl

/-! ### Sending a transaction -/

theorem binder_send_cmd_on_log (ctx : binder_ctx) (cmd : Nat) (d : List Nat) (n a : Nat)
    (r : ioctl_reply) (rest : List ioctl_reply)
    (ha : a + BUF_CAPACITY < WORD) (hn : 0 < n) (hd : n ≤ d.length)
    (hfit : 4 + n ≤ BUF_CAPACITY) (hs : ctx.script = r :: rest) :
    ∃ ret, binder_send_cmd_on ctx (buf_at a) cmd (some d) n
      = .ok (ret, { ctx with
          script := rest
          log := ctx.log ++ [write_request (le_bytes 4 cmd ++ d.take n)] }) := by
  obtain ⟨b1, e1, w1⟩ := buf_write_u32_writing _ [] cmd (buf_init_write_writing a ha)
    (by rw [List.length_nil]; omega)
  obtain ⟨b2, e2, w2⟩ := buf_write_writing b1 _ d n w1 hd
    (by rw [List.nil_append, le_bytes_length]; exact hfit)
  rw [List.nil_append] at w2
  obtain ⟨v, hv⟩ := binder_send_writing ctx b2 _ r rest hs w2
  have hn' : n > 0 := hn
  unfold binder_send_cmd_on
  rw [e1]
  dsimp only
  rw [if_pos hn', e2]
  dsimp only
  rw [hv]
  dsimp only
  by_cases hneg : v < 0
  · exact ⟨v, by rw [if_pos hneg]⟩
  · exact ⟨0, by rw [if_neg hneg]⟩

theorem binder_send_cmd_log (ctx : binder_ctx) (cmd : Nat) (d : List Nat) (n a : Nat)
    (r : ioctl_reply) (rest : List ioctl_reply) (hh : ctx.mem.heap_buf = some a)
    (ha : a + BUF_CAPACITY < WORD) (hn : 0 < n) (hd : n ≤ d.length)
    (hfit : 4 + n ≤ BUF_CAPACITY) (hs : ctx.script = r :: rest) :
    ∃ ret, binder_send_cmd ctx cmd (some d) n
      = .ok (ret, { ctx with
          script := rest
          log := ctx.log ++ [write_request (le_bytes 4 cmd ++ d.take n)] }) := by
  obtain ⟨ret, h⟩ := binder_send_cmd_on_log ctx cmd d n a r rest ha hn hd hfit hs
  refine ⟨ret, ?_⟩
  unfold binder_send_cmd
  rewrite [hh]
  dsimp only
  exact h

theorem transaction_data_bytes_length (tr : binder_transaction_data) :
    (transaction_data_bytes tr).length = SIZEOF_TRANSACTION_DATA := by
  simp only [transaction_data_bytes, List.length_append, le_bytes_length]
  rfl

theorem trdata_put_bytes_fresh (db ob : Nat) (data : List Nat)
    (hlen : data.length ≤ DATA_CAPACITY) (hdb : db + DATA_CAPACITY < WORD) :
    ∃ t1, trdata_put_bytes (trdata_init (trdata_zero db ob)) data data.length = .ok t1 ∧
      t1.data_ptr = db + (data.length + 3) / 4 * 4 ∧ t1.data_base = db ∧
      t1.offs_ptr = ob ∧ t1.offs_base = ob ∧ t1.buffers_size = 0 := by
  have hcap : DATA_CAPACITY = 0x10000 := rfl
  have hpad : PAD_SIZE_UNSAFE data.length = (data.length + 3) / 4 * 4 :=
    PAD_SIZE_UNSAFE_of_lt _ (by rw [WORD_eq]; omega)
  generalize ht : trdata_init (trdata_zero db ob) = t
  have havail : t.data_avail = DATA_CAPACITY := by rw [← ht]; rfl
  have hptr : t.data_ptr = db := by rw [← ht]; rfl
  have hbase : t.data_base = db := by rw [← ht]; rfl
  have hoptr : t.offs_ptr = ob := by rw [← ht]; rfl
  have hobase : t.offs_base = ob := by rw [← ht]; rfl
  have hbs : t.buffers_size = 0 := by rw [← ht]; rfl
  have hdl : t.data.length = DATA_CAPACITY := by
    rw [← ht]
    exact List.length_replicate _ _
  have halloc := trdata_alloc_plain t data.length
    (by rw [hpad, havail]; omega) (by rw [hpad, hptr]; omega)
  rw [hpad, hptr] at halloc
  have hl : (data.take data.length).length = data.length := by
    rw [List.length_take]; omega
  have hc : db ≤ db ∧ db + (data.take data.length).length ≤ db + t.data.length := by
    rw [hl, hdl]; omega
  unfold trdata_put_bytes
  rw [halloc]
  dsimp only
  rw [if_pos (Nat.le_refl _)]
  unfold data_store
  dsimp only
  rw [hbase, if_pos hc]
  exact ⟨_, rfl, rfl, rfl, hoptr, hobase, hbs⟩

theorem binder_send_raw_txn_log (ctx : binder_ctx) (handle : Int) (code flags : Nat)
    (data : List Nat) (a : Nat) (r : ioctl_reply) (rest : List ioctl_reply)
    (hlen : data.length ≤ DATA_CAPACITY) (hheap : ctx.mem.heap_buf = some a)
    (ha : a + BUF_CAPACITY < WORD) (hdata : ctx.mem.trdata_data + DATA_CAPACITY < WORD)
    (hs : ctx.script = r :: rest) :
    ∃ ret, binder_send_raw_txn ctx handle code flags data data.length false false
      = .ok (ret, { ctx with
          script := rest
          log := ctx.log ++ [write_request (le_bytes 4 BC_TRANSACTION ++
            transaction_data_bytes
              { target := (handle % 2 ^ 32).toNat
                cookie := 0
                code := code
                flags := flags
                sender_pid := 0
                sender_euid := 0
                data_size := (data.length + 3) / 4 * 4
                offsets_size := 0
                buffer := ctx.mem.trdata_data
                offsets := ctx.mem.trdata_offs })] }) := by
  obtain ⟨t1, hput, p1, p2, p3, p4, _⟩ :=
    trdata_put_bytes_fresh ctx.mem.trdata_data ctx.mem.trdata_offs data hlen hdata
  have e1 : size_sub t1.data_ptr t1.data_base = (data.length + 3) / 4 * 4 := by
    rw [p1, p2, size_sub_of_le (Nat.le_add_right _ _), Nat.add_sub_cancel_left]
  have e2 : (size_sub t1.offs_ptr t1.offs_base / 8 * 8) % WORD = 0 := by
    rw [p3, p4, size_sub_of_le (Nat.le_refl _), Nat.sub_self]
    rfl
  have hrec : binder_send_txn_record handle code flags t1
      = { target := (handle % 2 ^ 32).toNat
          cookie := 0
          code := code
          flags := flags
          sender_pid := 0
          sender_euid := 0
          data_size := (data.length + 3) / 4 * 4
          offsets_size := 0
          buffer := ctx.mem.trdata_data
          offsets := ctx.mem.trdata_offs } := by
    unfold binder_send_txn_record
    rw [e1, e2, p2, p4]
  obtain ⟨ret, hsend⟩ := binder_send_cmd_log ctx BC_TRANSACTION
    (transaction_data_bytes (binder_send_txn_record handle code flags t1))
    SIZEOF_TRANSACTION_DATA a r rest hheap ha (by decide)
    (by rw [transaction_data_bytes_length]) (by decide) hs
  rw [List.take_of_length_le (by rw [transaction_data_bytes_length]), hrec] at hsend
  refine ⟨ret, ?_⟩
  unfold binder_send_raw_txn
  rw [hput]
  dsimp only
  unfold binder_send_txn
  dsimp only
  rw [if_neg (by decide), if_neg (by decide), hrec]
  exact hsend

/-- C2 (amended): a payload of `n` bytes that fits the arena, sent with
`binder_send_raw_txn` as a transaction with `sg = false`, makes exactly one exchange,
whose write buffer is the command `BC_TRANSACTION` followed by a transaction record
with `data_size` equal to `n` rounded up to the next multiple of 4 and
`offsets_size = 0`. -/
theorem binder_send_raw_txn_data_size (ctx : binder_ctx) (handle : Int) (code flags : Nat)
    (data : List Nat) (a : Nat) (r : ioctl_reply) (rest : List ioctl_reply)
    (hlen : data.length ≤ DATA_CAPACITY) (hheap : ctx.mem.heap_buf = some a)
    (ha : a + BUF_CAPACITY < WORD) (hdata : ctx.mem.trdata_data + DATA_CAPACITY < WORD)
    (hs : ctx.script = r :: rest) :
    ∃ ret, binder_send_raw_txn ctx handle code flags data data.length false false
      = .ok (ret, { ctx with
          script := rest
          log := ctx.log ++ [write_request (le_bytes 4 BC_TRANSACTION ++
            transaction_data_bytes
              { target := (handle % 2 ^ 32).toNat
                cookie := 0
                code := code
                flags := flags
                sender_pid := 0
                sender_euid := 0
                data_size := (data.length + 3) / 4 * 4
                offsets_size := 0
                buffer := ctx.mem.trdata_data
                offsets := ctx.mem.trdata_offs })] }) :=
  binder_send_raw_txn_log ctx handle code flags data a r rest hlen hheap ha hdata hs

/-- Witness for `binder_send_raw_txn_data_size`: the one-way transaction with payload
"hello" is sent with `data_size = 8`. -/
theorem binder_send_raw_txn_data_size_witness :
    (hello.length + 3) / 4 * 4 = 8 ∧
    ∃ ret, binder_send_raw_txn
        { script := [reply_written 68], log := [], mem := example_addresses }
        0 0 TF_ONE_WAY hello hello.length false false
      = .ok (ret,
          { script := []
            log := [] ++ [write_request (le_bytes 4 BC_TRANSACTION ++
              transaction_data_bytes
                { target := ((0 : Int) % 2 ^ 32).toNat
                  cookie := 0
                  code := 0
                  flags := TF_ONE_WAY
                  sender_pid := 0
                  sender_euid := 0
                  data_size := (hello.length + 3) / 4 * 4
                  offsets_size := 0
                  buffer := example_addresses.trdata_data
                  offsets := example_addresses.trdata_offs })]
            mem := example_addresses }) :=
  ⟨by decide,
    binder_send_raw_txn_data_size
      { script := [reply_written 68], log := [], mem := example_addresses }
      0 0 TF_ONE_WAY hello 0x5000 (reply_written 68) [] (by decide) rfl
      (by unfold WORD; decide) (by unfold WORD; decide) rfl⟩

/-- C2 (counterexample): the 5-byte payload "hello" is sent in one command whose
transaction record has `data_size = 8`, not 5 (and `offsets_size = 0`). -/
theorem binder_send_raw_txn_hello_padded :
    ∃ ret ctx1,
      binder_send_raw_txn { script := [reply_written 68], log := [], mem := example_addresses }
          0 0 TF_ONE_WAY hello 5 false false = .ok (ret, ctx1) ∧
        ctx1.log.map
            (fun q => (transaction_data_of_bytes (q.write_data.drop 4)).data_size) = [8] ∧
        ctx1.log.map
            (fun q => (transaction_data_of_bytes (q.write_data.drop 4)).offsets_size) = [0] ∧
        (8 : Nat) ≠ 5 := by
  obtain ⟨ret, h⟩ := binder_send_raw_txn_log
    { script := [reply_written 68], log := [], mem := example_addresses }
    0 0 TF_ONE_WAY hello 0x5000 (reply_written 68) [] (by decide) rfl
    (by unfold WORD; decide) (by unfold WORD; decide) rfl
  exact ⟨ret, _, h, by decide, by decide, by decide⟩

/-! ### Bytes of the data arena -/

theorem region_getElem? (l : List Nat) (o n i : Nat) :
    (region l o n)[i]? = if i < n then l[o + i]? else none := by
  unfold region
  rw [List.getElem?_take]
  split
  · rw [List.getElem?_drop]
  · rfl

theorem overwrite_getElem? (l : List Nat) (k : Nat) (b : List Nat) (i : Nat) (h : k + b.length ≤ l.length) :
    (overwrite l k b)[i]? = if k ≤ i ∧ i < k + b.length then b[i - k]? else l[i]? := by
  unfold overwrite
  have hk : (l.take k).length = k := by rw [List.length_take]; omega
  by_cases h1 : i < k
  · rw [List.append_assoc, List.getElem?_append_left (by omega), List.getElem?_take, if_pos h1,
      if_neg (by omega)]
  · by_cases h2 : i < k + b.length
    · rw [List.getElem?_append_left (by rw [List.length_append]; omega),
        List.getElem?_append_right (by omega), hk, if_pos (by omega)]
    · rw [List.getElem?_append_right (by rw [List.length_append]; omega), List.length_append, hk,
        List.getElem?_drop, if_neg (by omega)]
      congr 1
      omega

theorem overwrite_length (l : List Nat) (k : Nat) (b : List Nat) (h : k + b.length ≤ l.length) :
    (overwrite l k b).length = l.length := by
  unfold overwrite
  simp only [List.length_append, List.length_take, List.length_drop]
  omega

theorem region_overwrite_self (l : List Nat) (k : Nat) (b : List Nat) (h : k + b.length ≤ l.length) :
    region (overwrite l k b) k b.length = b := by
  apply List.ext_getElem?
  intro i
  rw [region_getElem?, overwrite_getElem? l k b _ h]
  by_cases hi : i < b.length
  · rw [if_pos hi, if_pos (by omega)]
    congr 1
    omega
  · rw [if_neg hi, List.getElem?_eq_none (by omega)]

theorem region_overwrite_of_disjoint (l : List Nat) (k : Nat) (b : List Nat) (o n : Nat)
    (h : k + b.length ≤ l.length) (hd : o + n ≤ k ∨ k + b.length ≤ o) :
    region (overwrite l k b) o n = region l o n := by
  apply List.ext_getElem?
  intro i
  rw [region_getElem?, region_getElem?, overwrite_getElem? l k b _ h]
  by_cases hi : i < n
  · rw [if_pos hi, if_pos hi, if_neg (by omega)]
  · rw [if_neg hi, if_neg hi]

theorem take_eq_region (l : List Nat) (n : Nat) : l.take n = region l 0 n := rfl

theorem region_region (l : List Nat) (o n o1 n1 : Nat) (h : o1 + n1 ≤ n) :
    region (region l o n) o1 n1 = region l (o + o1) n1 := by
  apply List.ext_getElem?
  intro i
  rw [region_getElem?, region_getElem?, region_getElem?]
  by_cases hi : i < n1
  · rw [if_pos hi, if_pos hi, if_pos (by omega), Nat.add_assoc]
  · rw [if_neg hi, if_neg hi]

theorem region_length (l : List Nat) (o n : Nat) (h : o + n ≤ l.length) :
    (region l o n).length = n := by
  unfold region
  rw [List.length_take, List.length_drop]
  omega

theorem region_append (l : List Nat) (o n m : Nat) :
    region l o (n + m) = region l o n ++ region l (o + n) m := by
  unfold region
  rw [List.take_add, List.drop_drop]

theorem overwrite_overwrite_adjacent (l : List Nat) (k : Nat) (a b : List Nat)
    (h : k + a.length + b.length ≤ l.length) :
    overwrite (overwrite l k a) (k + a.length) b = overwrite l k (a ++ b) := by
  apply List.ext_getElem?
  intro i
  have h1 : k + a.length ≤ l.length := by omega
  rw [overwrite_getElem? _ _ _ _ (by rw [overwrite_length l k a h1]; omega), overwrite_getElem? l k a _ h1,
    overwrite_getElem? l k (a ++ b) _ (by rw [List.length_append]; omega), List.length_append]
  by_cases c1 : i < k
  · rw [if_neg (by omega), if_neg (by omega), if_neg (by omega)]
  · by_cases c2 : i < k + a.length
    · rw [if_neg (by omega), if_pos (by omega), if_pos (by omega),
        List.getElem?_append_left (by omega)]
    · by_cases c3 : i < k + a.length + b.length
      · rw [if_pos (by omega), if_pos (by omega), List.getElem?_append_right (by omega)]
        congr 1
        omega
      · rw [if_neg (by omega), if_neg (by omega), if_neg (by omega)]

theorem region_of_take_eq (l1 l2 : List Nat) (m o n : Nat) (h : l1.take m = l2.take m)
    (hb : o + n ≤ m) : region l1 o n = region l2 o n := by
  have e1 := region_region l1 0 m o n hb
  have e2 := region_region l2 0 m o n hb
  rw [Nat.zero_add] at e1 e2
  rw [← e1, ← e2, ← take_eq_region, ← take_eq_region, h]

theorem take_of_take_eq (l1 l2 : List Nat) (m n : Nat) (h : l1.take m = l2.take m)
    (hb : n ≤ m) : l1.take n = l2.take n := by
  rw [take_eq_region, take_eq_region]
  exact region_of_take_eq l1 l2 m 0 n h (by omega)

theorem take_overwrite (l : List Nat) (k : Nat) (b : List Nat) (j : Nat)
    (h : k + b.length ≤ l.length) (hj : j ≤ k) : (overwrite l k b).take j = l.take j := by
  rw [take_eq_region, take_eq_region]
  exact region_overwrite_of_disjoint l k b 0 j h (Or.inl (by omega))

theorem overwrite_fields_length (fs : List (Nat × List Nat)) :
    ∀ (l : List Nat) (k z : Nat), (∀ f ∈ fs, f.1 + f.2.length ≤ z) → k + z ≤ l.length →
      (overwrite_fields l k fs).length = l.length := by
  induction fs with
  | nil => intro l k z _ _; rfl
  | cons f fs ih =>
    intro l k z hf hz
    obtain ⟨off, b⟩ := f
    have h0 := hf (off, b) (List.mem_cons_self _ _)
    have hl : (overwrite l (k + off) b).length = l.length :=
      overwrite_length l (k + off) b (by simp only at h0; omega)
    rw [overwrite_fields, ih _ k z (fun f hfm => hf f (List.mem_cons_of_mem _ hfm)) (by omega), hl]

theorem region_overwrite_fields_of_disjoint (fs : List (Nat × List Nat)) :
    ∀ (l : List Nat) (k z o n : Nat), (∀ f ∈ fs, f.1 + f.2.length ≤ z) → k + z ≤ l.length →
      (o + n ≤ k ∨ k + z ≤ o) →
      region (overwrite_fields l k fs) o n = region l o n := by
  induction fs with
  | nil => intro l k z o n _ _ _; rfl
  | cons f fs ih =>
    intro l k z o n hf hz hd
    obtain ⟨off, b⟩ := f
    have h0 := hf (off, b) (List.mem_cons_self _ _)
    simp only at h0
    have hl : (overwrite l (k + off) b).length = l.length :=
      overwrite_length l (k + off) b (by omega)
    rw [overwrite_fields,
      ih _ k z o n (fun f hfm => hf f (List.mem_cons_of_mem _ hfm)) (by omega) hd,
      region_overwrite_of_disjoint l (k + off) b o n (by omega) (by omega)]

theorem take_overwrite_fields (fs : List (Nat × List Nat)) (l : List Nat) (k z j : Nat)
    (hf : ∀ f ∈ fs, f.1 + f.2.length ≤ z) (hz : k + z ≤ l.length) (hj : j ≤ k) :
    (overwrite_fields l k fs).take j = l.take j := by
  rw [take_eq_region, take_eq_region]
  exact region_overwrite_fields_of_disjoint fs l k z 0 j hf hz (Or.inl (by omega))

theorem region_overwrite_fields_head (off : Nat) (b : List Nat) (fs : List (Nat × List Nat))
    (l : List Nat) (k z : Nat) (h0 : off + b.length ≤ z)
    (hf : ∀ f ∈ fs, f.1 + f.2.length ≤ z) (hz : k + z ≤ l.length)
    (hd : ∀ f ∈ fs, off + b.length ≤ f.1) :
    region (overwrite_fields l k ((off, b) :: fs)) (k + off) b.length = b := by
  have hl : (overwrite l (k + off) b).length = l.length :=
    overwrite_length l (k + off) b (by omega)
  have key : ∀ (gs : List (Nat × List Nat)) (m : List Nat), m.length = l.length →
      (∀ f ∈ gs, f.1 + f.2.length ≤ z) → (∀ f ∈ gs, off + b.length ≤ f.1) →
      region (overwrite_fields m k gs) (k + off) b.length = region m (k + off) b.length := by
    intro gs
    induction gs with
    | nil => intro m _ _ _; rfl
    | cons g gs ih =>
      intro m hm hg hdg
      obtain ⟨o1, b1⟩ := g
      have g0 := hg (o1, b1) (List.mem_cons_self _ _)
      have d0 := hdg (o1, b1) (List.mem_cons_self _ _)
      simp only at g0 d0
      have hm1 : (overwrite m (k + o1) b1).length = l.length := by
        rw [overwrite_length m (k + o1) b1 (by omega), hm]
      rw [overwrite_fields,
        ih _ hm1 (fun f hfm => hg f (List.mem_cons_of_mem _ hfm))
          (fun f hfm => hdg f (List.mem_cons_of_mem _ hfm)),
        region_overwrite_of_disjoint m (k + o1) b1 _ _ (by omega) (Or.inl (by omega))]
  rw [overwrite_fields, key fs _ hl hf hd, region_overwrite_self l (k + off) b (by omega)]

/-! ### Stores into the data arena -/

theorem data_store_ok (t : translation_data_t) (a : Nat) (bytes : List Nat)
    (h1 : t.data_base ≤ a) (h2 : a + bytes.length ≤ t.data_base + t.data.length) :
    data_store t a bytes = .ok { t with data := overwrite t.data (a - t.data_base) bytes } := by
  unfold data_store overwrite
  rw [if_pos ⟨h1, h2⟩]

theorem data_store_fields_ok (fs : List (Nat × List Nat)) :
    ∀ (t : translation_data_t) (p z : Nat), t.data_base ≤ p →
      p + z ≤ t.data_base + t.data.length → (∀ f ∈ fs, f.1 + f.2.length ≤ z) →
      data_store_fields t p fs
        = .ok { t with data := overwrite_fields t.data (p - t.data_base) fs } := by
  induction fs with
  | nil => intro t p z _ _ _; rfl
  | cons f fs ih =>
    intro t p z hp hz hf
    obtain ⟨off, b⟩ := f
    have h0 := hf (off, b) (List.mem_cons_self _ _)
    simp only at h0
    have hl : (overwrite t.data (p - t.data_base + off) b).length = t.data.length :=
      overwrite_length _ _ b (by omega)
    have e : p + off - t.data_base = p - t.data_base + off := by omega
    rw [data_store_fields, data_store_ok t (p + off) b (by omega) (by omega), e]
    dsimp only
    rw [ih { t with data := overwrite t.data (p - t.data_base + off) b } p z hp
      (by dsimp only; rw [hl]; exact hz) (fun f hfm => hf f (List.mem_cons_of_mem _ hfm))]
    rfl

theorem data_store_fields_append (fs gs : List (Nat × List Nat)) :
    ∀ (t : translation_data_t) (p : Nat),
      data_store_fields t p (fs ++ gs)
        = match data_store_fields t p fs with
          | .error e => .error e
          | .ok t1 => data_store_fields t1 p gs := by
  induction fs with
  | nil => intro t p; rfl
  | cons f fs ih =>
    intro t p
    obtain ⟨off, b⟩ := f
    rw [List.cons_append, data_store_fields, data_store_fields]
    cases data_store t (p + off) b with
    | error e => rfl
    | ok t1 => exact ih t1 p

theorem trdata_store_chars_fields (w : Nat) (ptr : Nat) (cs : List Nat) :
    ∀ (t : translation_data_t) (i : Nat),
      trdata_store_chars w ptr t i cs = data_store_fields t ptr (chars_fields w i cs) := by
  induction cs with
  | nil => intro t i; rfl
  | cons c cs ih =>
    intro t i
    rw [trdata_store_chars, chars_fields, data_store_fields]
    cases data_store t (ptr + w * i) (le_bytes w c) with
    | error e => rfl
    | ok t1 => exact ih t1 (i + 1)

/-! ### One allocation with its stores -/

theorem trdata_alloc_full (t : translation_data_t) (size : Nat) (obj : Bool)
    (hs : size + 3 < WORD) (h : (size + 3) / 4 * 4 > t.data_avail) :
    trdata_alloc t size obj = .ok (none, t) := by
  unfold trdata_alloc
  rw [PAD_SIZE_UNSAFE_of_lt size hs]
  dsimp only
  rw [if_pos h]

theorem trdata_alloc_obj (t : translation_data_t) (size : Nat) (hwf : trdata_wf t)
    (hs : size + 3 < WORD) (h24 : 24 ≤ size) (hfit : (size + 3) / 4 * 4 ≤ t.data_avail) :
    trdata_alloc t size true =
      .ok (some t.data_ptr,
        { data_base := t.data_base
          data := t.data
          data_ptr := t.data_ptr + (size + 3) / 4 * 4
          data_avail := t.data_avail - (size + 3) / 4 * 4
          offs_base := t.offs_base
          offs := t.offs.set (trdata_count t) (trdata_used t)
          offs_ptr := t.offs_ptr + 8
          offs_avail := t.offs_avail - 1
          buffers_size := t.buffers_size }) := by
  obtain ⟨⟨a1, a2, a3, a4⟩, w1, w2, w3, w4, w5, w6, w7, w8⟩ := hwf
  have hD : DATA_CAPACITY = 0x10000 := rfl
  have hO : OFFS_CAPACITY = 0x1000 := rfl
  have hpad : 24 ≤ (size + 3) / 4 * 4 := by omega
  have e1 : (t.data_ptr + (size + 3) / 4 * 4) % WORD = t.data_ptr + (size + 3) / 4 * 4 :=
    Nat.mod_eq_of_lt (by omega)
  have e2 : size_sub t.data_avail ((size + 3) / 4 * 4) = t.data_avail - (size + 3) / 4 * 4 :=
    size_sub_of_le hfit
  have e3 : size_sub t.data_ptr t.data_base = trdata_used t := size_sub_of_le w1
  have e4 : (t.offs_ptr + 8) % WORD = t.offs_ptr + 8 := Nat.mod_eq_of_lt (by omega)
  have e5 : size_sub t.offs_avail 1 = t.offs_avail - 1 := size_sub_of_le (by omega)
  have e6 : ¬ (size + 3) / 4 * 4 > t.data_avail := by omega
  have e7 : t.offs_base ≤ t.offs_ptr ∧ t.offs_ptr + 8 ≤ t.offs_base + 8 * t.offs.length ∧
      (t.offs_ptr - t.offs_base) % 8 = 0 := ⟨w4, by omega, w5⟩
  unfold trdata_alloc offs_store
  rw [PAD_SIZE_UNSAFE_of_lt size hs]
  dsimp only
  rw [if_neg e6, if_pos rfl, if_pos e7, e1, e2, e3]
  dsimp only
  rw [e4, e5]
  rfl

theorem trdata_step_effect (t : translation_data_t) (a : alloc_store) (hwf : trdata_wf t)
    (ha : a.ok) : trdata_step t a = .ok (a.effect t) := by
  obtain ⟨size, obj, length, fields⟩ := a
  obtain ⟨h1, h2, h3⟩ := ha
  dsimp only at h1 h2 h3
  have hwf0 := hwf
  obtain ⟨⟨a1, a2, a3, a4⟩, w1, w2, w3, w4, w5, w6, w7, w8⟩ := hwf
  unfold trdata_step alloc_store.effect
  dsimp only
  by_cases hfit : (size + 3) / 4 * 4 ≤ t.data_avail
  · rw [if_pos hfit]
    have hz : t.data_ptr + size ≤ t.data_base + t.data.length := by omega
    cases obj with
    | false =>
      rw [trdata_alloc_plain t size (by rw [PAD_SIZE_UNSAFE_of_lt size h1]; exact hfit)
        (by rw [PAD_SIZE_UNSAFE_of_lt size h1]; omega), PAD_SIZE_UNSAFE_of_lt size h1]
      dsimp only
      cases length with
      | none =>
        dsimp only
        refine (data_store_fields_ok fields _ t.data_ptr size ?_ ?_ h3).trans ?_
        · exact w1
        · exact hz
        · rfl
      | some l =>
        dsimp only
        refine (data_store_fields_ok fields _ t.data_ptr size ?_ ?_ h3).trans ?_
        · exact w1
        · exact hz
        · rfl
    | true =>
      rw [trdata_alloc_obj t size hwf0 h1 (h2 rfl) hfit]
      dsimp only
      cases length with
      | none =>
        dsimp only
        refine (data_store_fields_ok fields _ t.data_ptr size ?_ ?_ h3).trans ?_
        · exact w1
        · exact hz
        · rfl
      | some l =>
        dsimp only
        refine (data_store_fields_ok fields _ t.data_ptr size ?_ ?_ h3).trans ?_
        · exact w1
        · exact hz
        · rfl
  · rw [if_neg hfit, trdata_alloc_full t size obj h1 (by omega)]

theorem effect_wf (t : translation_data_t) (a : alloc_store) (hwf : trdata_wf t) (ha : a.ok) :
    trdata_wf (a.effect t) := by
  obtain ⟨h1, h2, h3⟩ := ha
  have hwf0 := hwf
  obtain ⟨⟨a1, a2, a3, a4⟩, w1, w2, w3, w4, w5, w6, w7, w8⟩ := hwf
  have hD : DATA_CAPACITY = 0x10000 := rfl
  have hO : OFFS_CAPACITY = 0x1000 := rfl
  have hW : WORD = 0x10000000000000000 := rfl
  unfold alloc_store.effect
  by_cases hfit : (a.size + 3) / 4 * 4 ≤ t.data_avail
  · rw [if_pos hfit]
    have hlen : (overwrite_fields t.data (trdata_used t) a.fields).length = t.data.length :=
      overwrite_fields_length a.fields t.data (trdata_used t) a.size h3
        (by unfold trdata_used; omega)
    have hbs : (match a.length with
        | none => t.buffers_size
        | some l => (t.buffers_size + l) % WORD) < WORD := by
      cases a.length with
      | none => exact w8
      | some l => exact Nat.mod_lt _ (by rw [hW]; norm_num)
    cases hobj : a.obj with
    | false =>
      refine ⟨⟨?_, ?_, a3, a4⟩, ?_, ?_, ?_, ?_, ?_, ?_, ?_, hbs⟩
      · dsimp only; rw [hlen]; exact a1
      · dsimp only; simp only [Bool.false_eq_true, if_false]; exact a2
      · dsimp only; omega
      · dsimp only; omega
      · dsimp only; omega
      · dsimp only; simp only [Bool.false_eq_true, if_false]; exact w4
      · dsimp only; simp only [Bool.false_eq_true, if_false]; exact w5
      · dsimp only; simp only [Bool.false_eq_true, if_false]; exact w6
      · dsimp only; simp only [Bool.false_eq_true, if_false]; omega
    | true =>
      have h24 := h2 hobj
      refine ⟨⟨?_, ?_, a3, a4⟩, ?_, ?_, ?_, ?_, ?_, ?_, ?_, hbs⟩
      · dsimp only; rw [hlen]; exact a1
      · dsimp only; simp only [if_true, List.length_set]; exact a2
      · dsimp only; omega
      · dsimp only; omega
      · dsimp only; omega
      · dsimp only; simp only [if_true]; omega
      · dsimp only; simp only [if_true]; omega
      · dsimp only; simp only [if_true]; omega
      · dsimp only; simp only [if_true]; omega
  · rw [if_neg hfit]
    exact hwf0

/-! ### The put operations as allocations with stores -/

theorem trdata_steps_single (t : translation_data_t) (a : alloc_store) :
    trdata_steps t [a] = trdata_step t a := by
  rw [trdata_steps]
  cases trdata_step t a with
  | error e => rfl
  | ok t1 => rfl

theorem data_store_fields_single (t : translation_data_t) (p : Nat) (b : List Nat) :
    data_store_fields t p [(0, b)] = data_store t p b := by
  rw [data_store_fields, Nat.add_zero]
  cases data_store t p b with
  | error e => rfl
  | ok t1 => rfl

theorem trdata_put_u32_step (t : translation_data_t) (n : Nat) :
    trdata_put_u32 t n = trdata_step t ⟨4, false, none, [(0, le_bytes 4 n)]⟩ := by
  unfold trdata_put_u32 trdata_step
  dsimp only
  cases trdata_alloc t 4 false with
  | error e => rfl
  | ok r =>
    obtain ⟨p, t1⟩ := r
    cases p with
    | none => rfl
    | some p =>
      dsimp only
      rw [data_store_fields_single]

theorem strlen_append (s rest : List Nat) (h : ∀ c ∈ s, c ≠ 0) :
    strlen (s ++ 0 :: rest) = some s.length := by
  induction s with
  | nil => rfl
  | cons c cs ih =>
    have hc : c ≠ 0 := h c (List.mem_cons_self _ _)
    rw [List.cons_append, strlen, if_neg hc,
      ih (fun x hx => h x (List.mem_cons_of_mem _ hx))]
    rfl

theorem trdata_put_steps (t : translation_data_t) (c : put_call) (hc : c.ok) :
    trdata_put t c = trdata_steps t c.steps := by
  cases c with
  | u32 n =>
    rw [trdata_put, put_call.steps]
    rw [trdata_steps_single, trdata_put_u32_step]
  | bytes data len =>
    rw [put_call.ok] at hc
    obtain ⟨h1, _⟩ := hc
    rw [trdata_put, put_call.steps]
    rw [trdata_steps_single]
    unfold trdata_put_bytes trdata_step
    dsimp only
    cases trdata_alloc t len false with
    | error e => rfl
    | ok r =>
      obtain ⟨p, t1⟩ := r
      cases p with
      | none => rfl
      | some p =>
        dsimp only
        rw [data_store_fields_single, if_pos h1]
  | str s =>
    rw [put_call.ok] at hc
    rw [trdata_put, put_call.steps]
    unfold trdata_put_str
    cases hlen : strlen s with
    | none => rw [hlen] at hc; exact hc.elim
    | some len =>
      rw [hlen] at hc
      dsimp only at hc ⊢
      have e : (len + 1) % WORD = len + 1 := Nat.mod_eq_of_lt (by omega)
      rw [trdata_steps_single, e]
      unfold trdata_step
      dsimp only
      cases trdata_alloc t (len + 1) false with
      | error e => rfl
      | ok r =>
        obtain ⟨p, t1⟩ := r
        cases p with
        | none => rfl
        | some p =>
          dsimp only
          rw [data_store_fields_append, trdata_store_chars_fields]
          cases data_store_fields t1 p (chars_fields 1 0 (List.take len s)) with
          | error e => rfl
          | ok t2 =>
            dsimp only
            rw [data_store_fields]
            cases data_store t2 (p + len) (le_bytes 1 0) with
            | error e => rfl
            | ok t3 => rfl
  | str16 s =>
    rw [put_call.ok] at hc
    rw [trdata_put, put_call.steps]
    unfold trdata_put_str16
    cases hlen : strlen s with
    | none => rw [hlen] at hc; exact hc.elim
    | some len =>
      rw [hlen] at hc
      dsimp only at hc ⊢
      have e0 : (len + 1) % WORD = len + 1 := Nat.mod_eq_of_lt (by omega)
      have e : (len + 1) % WORD * 2 % WORD = 2 * (len + 1) := by
        rw [e0, Nat.mod_eq_of_lt (by omega)]
        omega
      rw [trdata_steps, trdata_put_u32_step, e]
      cases trdata_step t ⟨4, false, none, [(0, le_bytes 4 len)]⟩ with
      | error e => rfl
      | ok t0 =>
        dsimp only
        rw [trdata_steps_single]
        unfold trdata_step
        dsimp only
        cases trdata_alloc t0 (2 * (len + 1)) false with
        | error e => rfl
        | ok r =>
          obtain ⟨p, t1⟩ := r
          cases p with
          | none => rfl
          | some p =>
            dsimp only
            rw [data_store_fields_append, trdata_store_chars_fields]
            cases data_store_fields t1 p
                (chars_fields 2 0 ((List.take len s).map char_to_uint16)) with
            | error e => rfl
            | ok t2 =>
              dsimp only
              rw [data_store_fields]
              cases data_store t2 (p + 2 * len) (le_bytes 2 0) with
              | error e => rfl
              | ok t3 => rfl
  | buffer b length parent parent_offset has_parent =>
    rw [trdata_put, put_call.steps]
    rw [trdata_steps_single]
    unfold trdata_put_buffer trdata_alloc_bbo trdata_step
    dsimp only
    cases trdata_alloc t SIZEOF_BINDER_BUFFER_OBJECT true with
    | error e => rfl
    | ok r =>
      obtain ⟨p, t1⟩ := r
      cases p with
      | none => rfl
      | some p => rfl
  | binder ptr strong =>
    rw [trdata_put, put_call.steps]
    rw [trdata_steps_single]
    unfold trdata_put_binder trdata_alloc_fbo trdata_step
    cases trdata_alloc t SIZEOF_FLAT_BINDER_OBJECT true with
    | error e => rfl
    | ok r =>
      obtain ⟨p, t1⟩ := r
      cases p with
      | none => rfl
      | some p => rfl
  | handle h strong =>
    rw [trdata_put, put_call.steps]
    rw [trdata_steps_single]
    unfold trdata_put_handle trdata_alloc_fbo trdata_step
    cases trdata_alloc t SIZEOF_FLAT_BINDER_OBJECT true with
    | error e => rfl
    | ok r =>
      obtain ⟨p, t1⟩ := r
      cases p with
      | none => rfl
      | some p => rfl

/-! ### Sequences of put operations -/

theorem chars_fields_within (w : Nat) (cs : List Nat) :
    ∀ (i : Nat), ∀ f ∈ chars_fields w i cs, f.1 + f.2.length ≤ w * (i + cs.length) := by
  induction cs with
  | nil => intro i f hf; cases hf
  | cons c cs ih =>
    intro i f hf
    rw [chars_fields, List.mem_cons] at hf
    rcases hf with hf | hf
    · rw [hf]
      dsimp only
      rw [le_bytes_length, List.length_cons, Nat.mul_add, Nat.mul_add, Nat.mul_one]
      omega
    · have h := ih (i + 1) f hf
      rw [List.length_cons]
      have e : i + 1 + cs.length = i + (cs.length + 1) := by omega
      rw [← e]
      exact h

theorem alloc_store_ok_mk (size : Nat) (obj : Bool) (length : Option Nat)
    (fields : List (Nat × List Nat)) (h1 : size + 3 < WORD) (h2 : obj = true → 24 ≤ size)
    (h3 : ∀ f ∈ fields, f.1 + f.2.length ≤ size) :
    (alloc_store.mk size obj length fields).ok :=
  ⟨h1, h2, h3⟩

theorem put_call_steps_ok (c : put_call) (hc : c.ok) : ∀ a ∈ c.steps, a.ok := by
  have hW : WORD = 0x10000000000000000 := rfl
  cases c with
  | u32 n =>
    intro a ha
    rw [put_call.steps, List.mem_singleton] at ha
    rw [ha]
    refine alloc_store_ok_mk _ _ _ _ (by rw [hW]; norm_num) (fun h => by cases h) ?_
    intro f hf
    rw [List.mem_singleton] at hf
    rw [hf]
    dsimp only
    rw [le_bytes_length]
  | bytes data len =>
    rw [put_call.ok] at hc
    intro a ha
    rw [put_call.steps, List.mem_singleton] at ha
    rw [ha]
    refine alloc_store_ok_mk _ _ _ _ hc.2 (fun h => by cases h) ?_
    intro f hf
    rw [List.mem_singleton] at hf
    rw [hf]
    dsimp only
    rw [List.length_take]
    omega
  | str s =>
    rw [put_call.ok] at hc
    intro a ha
    rw [put_call.steps] at ha
    cases hlen : strlen s with
    | none => rw [hlen] at hc; exact hc.elim
    | some len =>
      rw [hlen] at hc ha
      dsimp only at hc ha
      rw [List.mem_singleton] at ha
      rw [ha]
      refine alloc_store_ok_mk _ _ _ _ (by omega) (fun h => by cases h) ?_
      intro f hf
      dsimp only at hf ⊢
      rw [List.mem_append, List.mem_singleton] at hf
      rcases hf with hf | hf
      · have h := chars_fields_within 1 (s.take len) 0 f hf
        rw [List.length_take] at h
        omega
      · rw [hf]
        dsimp only
        rw [le_bytes_length]
  | str16 s =>
    rw [put_call.ok] at hc
    intro a ha
    rw [put_call.steps] at ha
    cases hlen : strlen s with
    | none => rw [hlen] at hc; exact hc.elim
    | some len =>
      rw [hlen] at hc ha
      dsimp only at hc ha
      rw [List.mem_cons, List.mem_singleton] at ha
      rcases ha with ha | ha
      · rw [ha]
        refine alloc_store_ok_mk _ _ _ _ (by rw [hW]; norm_num) (fun h => by cases h) ?_
        intro f hf
        rw [List.mem_singleton] at hf
        rw [hf]
        dsimp only
        rw [le_bytes_length]
      · rw [ha]
        refine alloc_store_ok_mk _ _ _ _ (by omega) (fun h => by cases h) ?_
        intro f hf
        dsimp only at hf ⊢
        rw [List.mem_append, List.mem_singleton] at hf
        rcases hf with hf | hf
        · have h := chars_fields_within 2 ((s.take len).map char_to_uint16) 0 f hf
          rw [List.length_map, List.length_take] at h
          omega
        · rw [hf]
          dsimp only
          rw [le_bytes_length]
          omega
  | buffer b length parent parent_offset has_parent =>
    intro a ha
    rw [put_call.steps, List.mem_singleton] at ha
    rw [ha]
    refine alloc_store_ok_mk _ _ _ _ (by rw [hW]; decide) (fun _ => by decide) ?_
    intro f hf
    simp only [List.mem_cons, List.mem_singleton, List.not_mem_nil, or_false] at hf
    rcases hf with hf | hf | hf | hf | hf | hf <;> rw [hf] <;> dsimp only <;>
      rw [le_bytes_length] <;> decide
  | binder ptr strong =>
    intro a ha
    rw [put_call.steps, List.mem_singleton] at ha
    rw [ha]
    refine alloc_store_ok_mk _ _ _ _ (by rw [hW]; decide) (fun _ => by decide) ?_
    intro f hf
    simp only [List.mem_cons, List.mem_singleton, List.not_mem_nil, or_false] at hf
    rcases hf with hf | hf | hf | hf <;> rw [hf] <;> dsimp only <;>
      rw [le_bytes_length] <;> decide
  | handle h strong =>
    intro a ha
    rw [put_call.steps, List.mem_singleton] at ha
    rw [ha]
    refine alloc_store_ok_mk _ _ _ _ (by rw [hW]; decide) (fun _ => by decide) ?_
    intro f hf
    simp only [List.mem_cons, List.mem_singleton, List.not_mem_nil, or_false] at hf
    rcases hf with hf | hf | hf | hf <;> rw [hf] <;> dsimp only <;>
      rw [le_bytes_length] <;> decide

theorem trdata_steps_effects (as : List alloc_store) :
    ∀ (t : translation_data_t), trdata_wf t → (∀ a ∈ as, a.ok) →
      trdata_steps t as = .ok (effects as t) ∧ trdata_wf (effects as t) := by
  induction as with
  | nil => intro t hwf _; exact ⟨rfl, hwf⟩
  | cons a as ih =>
    intro t hwf ha
    have h0 := ha a (List.mem_cons_self _ _)
    obtain ⟨e, hw⟩ := ih (a.effect t) (effect_wf t a hwf h0)
      (fun x hx => ha x (List.mem_cons_of_mem _ hx))
    refine ⟨?_, hw⟩
    rw [trdata_steps, trdata_step_effect t a hwf h0]
    exact e

theorem trdata_put_effects (t : translation_data_t) (c : put_call) (hwf : trdata_wf t)
    (hc : c.ok) : trdata_put t c = .ok (effects c.steps t) ∧ trdata_wf (effects c.steps t) := by
  rw [trdata_put_steps t c hc]
  exact trdata_steps_effects c.steps t hwf (put_call_steps_ok c hc)

theorem effects_append (as bs : List alloc_store) :
    ∀ t, effects (as ++ bs) t = effects bs (effects as t) := by
  induction as with
  | nil => intro t; rfl
  | cons a as ih => intro t; exact ih (a.effect t)

theorem trdata_run_effects (calls : List put_call) :
    ∀ (t : translation_data_t), trdata_wf t → (∀ c ∈ calls, c.ok) →
      trdata_run t calls = .ok (effects (calls.flatMap put_call.steps) t) ∧
        trdata_wf (effects (calls.flatMap put_call.steps) t) := by
  induction calls with
  | nil => intro t hwf _; exact ⟨rfl, hwf⟩
  | cons c cs ih =>
    intro t hwf hc
    obtain ⟨e0, w0⟩ := trdata_put_effects t c hwf (hc c (List.mem_cons_self _ _))
    obtain ⟨e, hw⟩ := ih _ w0 (fun x hx => hc x (List.mem_cons_of_mem _ hx))
    rw [List.flatMap_cons, effects_append]
    refine ⟨?_, hw⟩
    rw [trdata_run, e0]
    exact e

theorem trdata_init_wf (t : translation_data_t) (h : trdata_arrays t) :
    trdata_wf (trdata_init t) := by
  obtain ⟨a1, a2, a3, a4⟩ := h
  have hD : DATA_CAPACITY = 0x10000 := rfl
  have hO : OFFS_CAPACITY = 0x1000 := rfl
  have hW : WORD = 0x10000000000000000 := rfl
  refine ⟨⟨a1, a2, a3, a4⟩, Nat.le_refl _, rfl, ?_, Nat.le_refl _, ?_, ?_, ?_, ?_⟩
  · simp only [trdata_init, Nat.sub_self, Nat.zero_mod]
  · simp only [trdata_init, Nat.sub_self, Nat.zero_mod]
  · simp only [trdata_init]
    omega
  · simp only [trdata_init, Nat.sub_self, Nat.mul_zero, Nat.le_refl]
  · simp only [trdata_init]
    omega

theorem take_set_self (l : List Nat) (k v : Nat) : (l.set k v).take k = l.take k := by
  apply List.ext_getElem?
  intro i
  rw [List.getElem?_take, List.getElem?_take]
  split
  · rw [List.getElem?_set_ne (by omega)]
  · rfl

theorem region_set_self (l : List Nat) (k v : Nat) (h : k < l.length) :
    region (l.set k v) k 1 = [v] := by
  apply List.ext_getElem?
  intro i
  rw [region_getElem?]
  by_cases hi : i < 1
  · have e : i = 0 := by omega
    rw [if_pos hi, e, Nat.add_zero, List.getElem?_set_self h]
    rfl
  · rw [if_neg hi, List.getElem?_eq_none (by simp only [List.length_singleton]; omega)]

theorem trdata_extends_refl (t : translation_data_t) : trdata_extends t t :=
  ⟨rfl, rfl, Nat.le_refl _, Nat.le_refl _, rfl, rfl⟩

theorem trdata_extends_trans (t s u : translation_data_t) (h1 : trdata_extends t s)
    (h2 : trdata_extends s u) : trdata_extends t u := by
  obtain ⟨a1, a2, a3, a4, a5, a6⟩ := h1
  obtain ⟨b1, b2, b3, b4, b5, b6⟩ := h2
  refine ⟨by rw [b1, a1], by rw [b2, a2], by omega, by omega, ?_, ?_⟩
  · rw [take_of_take_eq u.data s.data _ _ b5 a3, a5]
  · rw [take_of_take_eq u.offs s.offs _ _ b6 a4, a6]

theorem effect_extends (t : translation_data_t) (a : alloc_store) (hwf : trdata_wf t)
    (ha : a.ok) : trdata_extends t (a.effect t) := by
  obtain ⟨h1, h2, h3⟩ := ha
  obtain ⟨⟨a1, a2, a3, a4⟩, w1, w2, w3, w4, w5, w6, w7, w8⟩ := hwf
  unfold alloc_store.effect
  by_cases hfit : (a.size + 3) / 4 * 4 ≤ t.data_avail
  · rw [if_pos hfit]
    refine ⟨rfl, rfl, ?_, ?_, ?_, ?_⟩
    · unfold trdata_used
      dsimp only
      omega
    · unfold trdata_count
      dsimp only
      split
      · omega
      · omega
    · dsimp only
      exact take_overwrite_fields a.fields t.data (trdata_used t) a.size _ h3
        (by unfold trdata_used; omega) (Nat.le_refl _)
    · dsimp only
      split
      · exact take_set_self _ _ _
      · rfl
  · rw [if_neg hfit]
    exact trdata_extends_refl t

theorem effects_extends (as : List alloc_store) :
    ∀ (t : translation_data_t), trdata_wf t → (∀ a ∈ as, a.ok) →
      trdata_extends t (effects as t) := by
  induction as with
  | nil => intro t _ _; exact trdata_extends_refl t
  | cons a as ih =>
    intro t hwf ha
    have h0 := ha a (List.mem_cons_self _ _)
    exact trdata_extends_trans t (a.effect t) _ (effect_extends t a hwf h0)
      (ih (a.effect t) (effect_wf t a hwf h0) (fun x hx => ha x (List.mem_cons_of_mem _ hx)))

/-! ### The offsets table -/

theorem put_call_plain_steps (c : put_call) (h : c.tag = none) :
    ∀ a ∈ c.steps, a.obj = false ∧ a.length = none := by
  cases c with
  | u32 n =>
    intro a ha
    rw [put_call.steps, List.mem_singleton] at ha
    rw [ha]
    exact ⟨rfl, rfl⟩
  | bytes data len =>
    intro a ha
    rw [put_call.steps, List.mem_singleton] at ha
    rw [ha]
    exact ⟨rfl, rfl⟩
  | str s =>
    intro a ha
    rw [put_call.steps] at ha
    cases hlen : strlen s with
    | none => rw [hlen] at ha; cases ha
    | some len =>
      rw [hlen] at ha
      dsimp only at ha
      rw [List.mem_singleton] at ha
      rw [ha]
      exact ⟨rfl, rfl⟩
  | str16 s =>
    intro a ha
    rw [put_call.steps] at ha
    cases hlen : strlen s with
    | none => rw [hlen] at ha; cases ha
    | some len =>
      rw [hlen] at ha
      dsimp only at ha
      rw [List.mem_cons, List.mem_singleton] at ha
      rcases ha with ha | ha <;> rw [ha] <;> exact ⟨rfl, rfl⟩
  | buffer b length parent parent_offset has_parent => rw [put_call.tag] at h; cases h
  | binder ptr strong => rw [put_call.tag] at h; cases h
  | handle hd strong => rw [put_call.tag] at h; cases h

theorem put_call_object_steps (c : put_call) (tag : Nat) (h : c.tag = some tag) :
    ∃ a rest, c.steps = [a] ∧ a.obj = true ∧ a.fields = (0, le_bytes 4 tag) :: rest ∧
      (∀ f ∈ rest, 4 ≤ f.1) ∧ tag < 2 ^ 32 := by
  cases c with
  | u32 n =>
    have h0 : (none : Option Nat) = some tag := h
    cases h0
  | bytes data len =>
    have h0 : (none : Option Nat) = some tag := h
    cases h0
  | str s =>
    have h0 : (none : Option Nat) = some tag := h
    cases h0
  | str16 s =>
    have h0 : (none : Option Nat) = some tag := h
    cases h0
  | buffer b length parent parent_offset has_parent =>
    rw [put_call.tag] at h
    injection h with h
    rw [← h, put_call.steps]
    refine ⟨_, _, rfl, rfl, rfl, ?_, by decide⟩
    intro f hf
    simp only [List.mem_cons, List.mem_singleton, List.not_mem_nil, or_false] at hf
    rcases hf with hf | hf | hf | hf | hf <;> rw [hf] <;> dsimp only <;> omega
  | binder ptr strong =>
    rw [put_call.tag] at h
    injection h with h
    rw [← h, put_call.steps]
    refine ⟨_, _, rfl, rfl, rfl, ?_, by cases strong <;> decide⟩
    intro f hf
    simp only [List.mem_cons, List.mem_singleton, List.not_mem_nil, or_false] at hf
    rcases hf with hf | hf | hf <;> rw [hf] <;> dsimp only <;> omega
  | handle hd strong =>
    rw [put_call.tag] at h
    injection h with h
    rw [← h, put_call.steps]
    refine ⟨_, _, rfl, rfl, rfl, ?_, by cases strong <;> decide⟩
    intro f hf
    simp only [List.mem_cons, List.mem_singleton, List.not_mem_nil, or_false] at hf
    rcases hf with hf | hf | hf <;> rw [hf] <;> dsimp only <;> omega

theorem effects_plain (as : List alloc_store) :
    ∀ (t : translation_data_t), (∀ a ∈ as, a.obj = false ∧ a.length = none) →
      (effects as t).offs_ptr = t.offs_ptr ∧ (effects as t).offs_base = t.offs_base ∧
        (effects as t).offs = t.offs ∧ (effects as t).offs_avail = t.offs_avail ∧
        (effects as t).buffers_size = t.buffers_size := by
  induction as with
  | nil => intro t _; exact ⟨rfl, rfl, rfl, rfl, rfl⟩
  | cons a as ih =>
    intro t h
    obtain ⟨ho, hl⟩ := h a (List.mem_cons_self _ _)
    obtain ⟨i1, i2, i3, i4, i5⟩ := ih (a.effect t) (fun x hx => h x (List.mem_cons_of_mem _ hx))
    have e : (a.effect t).offs_ptr = t.offs_ptr ∧ (a.effect t).offs_base = t.offs_base ∧
        (a.effect t).offs = t.offs ∧ (a.effect t).offs_avail = t.offs_avail ∧
        (a.effect t).buffers_size = t.buffers_size := by
      unfold alloc_store.effect
      split
      · dsimp only
        rw [ho, hl]
        exact ⟨rfl, rfl, rfl, rfl, rfl⟩
      · exact ⟨rfl, rfl, rfl, rfl, rfl⟩
    rw [effects, i1, i2, i3, i4, i5]
    exact e

theorem effect_object (t : translation_data_t) (a : alloc_store) (b : List Nat)
    (rest : List (Nat × List Nat)) (hwf : trdata_wf t) (ha : a.ok) (hobj : a.obj = true)
    (hf : a.fields = (0, b) :: rest) (hb : b.length = 4) (hr : ∀ f ∈ rest, 4 ≤ f.1) :
    (a.effect t).data_ptr = t.data_ptr ∧ a.effect t = t ∨
      (a.effect t).data_ptr ≠ t.data_ptr ∧ trdata_used t + 24 ≤ trdata_used (a.effect t) ∧
        trdata_count (a.effect t) = trdata_count t + 1 ∧
        region (a.effect t).offs (trdata_count t) 1 = [trdata_used t] ∧
        region (a.effect t).data (trdata_used t) 4 = b := by
  obtain ⟨h1, h2, h3⟩ := ha
  have h24 := h2 hobj
  obtain ⟨⟨a1, a2, a3, a4⟩, w1, w2, w3, w4, w5, w6, w7, w8⟩ := hwf
  have hD : DATA_CAPACITY = 0x10000 := rfl
  have hO : OFFS_CAPACITY = 0x1000 := rfl
  unfold alloc_store.effect
  by_cases hfit : (a.size + 3) / 4 * 4 ≤ t.data_avail
  · right
    rw [if_pos hfit]
    refine ⟨?_, ?_, ?_, ?_, ?_⟩
    · dsimp only
      omega
    · unfold trdata_used
      dsimp only
      omega
    · unfold trdata_count
      dsimp only
      rw [hobj, if_pos rfl]
      omega
    · dsimp only
      rw [hobj, if_pos rfl]
      apply region_set_self
      unfold trdata_count
      omega
    · dsimp only
      rw [hf]
      have hh := region_overwrite_fields_head 0 b rest t.data (trdata_used t) a.size
        (by rw [hb]; omega)
        (fun f hfm => h3 f (by rw [hf]; exact List.mem_cons_of_mem _ hfm))
        (by unfold trdata_used; omega)
        (fun f hfm => by rw [hb]; have := hr f hfm; omega)
      rw [Nat.add_zero, hb] at hh
      exact hh
  · left
    rw [if_neg hfit]
    exact ⟨rfl, rfl⟩

theorem trdata_run_objects (calls : List put_call) :
    ∀ (t : translation_data_t), trdata_wf t → (∀ c ∈ calls, c.ok) →
      ∃ s, trdata_run t calls = .ok s ∧ trdata_wf s ∧ trdata_extends t s ∧
        trdata_count s = trdata_count t + (trdata_objects t calls).length ∧
        region s.offs (trdata_count t) (trdata_objects t calls).length
          = (trdata_objects t calls).map Prod.fst ∧
        ∀ e ∈ trdata_objects t calls,
          trdata_used t ≤ e.1 ∧ e.1 % 4 = 0 ∧ e.1 + 24 ≤ trdata_used s ∧
            region s.data e.1 4 = le_bytes 4 e.2 ∧ e.2 < 2 ^ 32 ∧
            ∃ c ∈ calls, c.tag = some e.2 := by
  induction calls with
  | nil =>
    intro t hwf _
    exact ⟨t, rfl, hwf, trdata_extends_refl t, rfl, rfl, fun e he => by cases he⟩
  | cons c cs ih =>
    intro t hwf hc
    have hc0 := hc c (List.mem_cons_self _ _)
    obtain ⟨e0, w0⟩ := trdata_put_effects t c hwf hc0
    have x0 := effects_extends c.steps t hwf (put_call_steps_ok c hc0)
    generalize effects c.steps t = t1 at e0 w0 x0
    obtain ⟨s, r1, ws, xs, cnt, reg, pts⟩ :=
      ih t1 w0 (fun x hx => hc x (List.mem_cons_of_mem _ hx))
    have hrun : trdata_run t (c :: cs) = .ok s := by
      rw [trdata_run, e0]
      exact r1
    have hx := trdata_extends_trans t t1 s x0 xs
    obtain ⟨p1, p2, p3, p4, p5, p6⟩ := x0
    obtain ⟨q1, q2, q3, q4, q5, q6⟩ := xs
    have hobjs : trdata_objects t (c :: cs)
        = (match c.tag with
            | none => []
            | some tag => if t1.data_ptr = t.data_ptr then [] else [(trdata_used t, tag)])
          ++ trdata_objects t1 cs := by
      rw [trdata_objects, e0]
    have tail_ok : ∀ e ∈ trdata_objects t1 cs,
        trdata_used t ≤ e.1 ∧ e.1 % 4 = 0 ∧ e.1 + 24 ≤ trdata_used s ∧
          region s.data e.1 4 = le_bytes 4 e.2 ∧ e.2 < 2 ^ 32 ∧
          ∃ c' ∈ c :: cs, c'.tag = some e.2 := by
      intro e he
      obtain ⟨u1, u2, u3, u4, u5, c', hc', ht'⟩ := pts e he
      exact ⟨by omega, u2, u3, u4, u5, c', List.mem_cons_of_mem _ hc', ht'⟩
    cases htag : c.tag with
    | none =>
      rw [htag] at hobjs
      dsimp only at hobjs
      rw [List.nil_append] at hobjs
      obtain ⟨o1, o2, _, _, _⟩ := effects_plain c.steps t (put_call_plain_steps c htag)
      have hcount : trdata_count t1 = trdata_count t := by
        have e1 := trdata_put_effects t c hwf hc0
        rw [e0] at e1
        injection e1.1 with e1
        unfold trdata_count
        rw [e1, o1, o2]
      rw [hobjs]
      rw [hcount] at cnt reg
      exact ⟨s, hrun, ws, hx, cnt, reg, tail_ok⟩
    | some tag =>
      rw [htag] at hobjs
      dsimp only at hobjs
      obtain ⟨a, rest, hsteps, hobj, hfields, hrest, htaglt⟩ := put_call_object_steps c tag htag
      have haok : a.ok := put_call_steps_ok c hc0 a (by rw [hsteps]; exact List.mem_singleton_self a)
      have e1 := trdata_put_effects t c hwf hc0
      rw [e0, hsteps] at e1
      injection e1.1 with e1
      have e1' : t1 = a.effect t := e1
      rcases effect_object t a (le_bytes 4 tag) rest hwf haok hobj hfields (le_bytes_length 4 tag)
        hrest with ⟨f1, f2⟩ | ⟨g1, g2, g3, g4, g5⟩
      · rw [← e1'] at f1 f2
        rw [if_pos f1, List.nil_append] at hobjs
        rw [hobjs]
        have hcount : trdata_count t1 = trdata_count t := by rw [f2]
        rw [hcount] at cnt reg
        exact ⟨s, hrun, ws, hx, cnt, reg, tail_ok⟩
      · rw [← e1'] at g1 g2 g3 g4 g5
        rw [if_neg g1] at hobjs
        rw [hobjs]
        refine ⟨s, hrun, ws, hx, ?_, ?_, ?_⟩
        · rw [cnt, g3, List.length_append, List.length_singleton]
          omega
        · rw [List.length_append, List.length_singleton, region_append, List.map_append,
            List.map_singleton]
          rw [g3] at reg
          rw [reg, region_of_take_eq s.offs t1.offs (trdata_count t1) (trdata_count t) 1 q6
            (by omega), g4]
        · intro e he
          rw [List.mem_append, List.mem_singleton] at he
          rcases he with he | he
          · rw [he]
            dsimp only
            obtain ⟨_, _, _, w3, _⟩ := hwf
            refine ⟨Nat.le_refl _, w3, by omega, ?_, htaglt, c, List.mem_cons_self _ _, htag⟩
            rw [region_of_take_eq s.data t1.data (trdata_used t1) (trdata_used t) 4 q5
              (by omega), g5]
          · exact tail_ok e he

theorem trdata_zero_arrays (db ob : Nat) (h1 : db + DATA_CAPACITY < WORD)
    (h2 : ob + 8 * OFFS_CAPACITY < WORD) : trdata_arrays (trdata_zero db ob) :=
  ⟨List.length_replicate _ _, List.length_replicate _ _, h1, h2⟩

theorem trdata_init_fresh (t : translation_data_t) :
    trdata_used (trdata_init t) = 0 ∧ trdata_count (trdata_init t) = 0 := by
  unfold trdata_used trdata_count trdata_init
  dsimp only
  rw [Nat.sub_self, Nat.sub_self]
  exact ⟨rfl, rfl⟩

theorem effects_used (as : List alloc_store) :
    ∀ (t : translation_data_t), trdata_wf t → (∀ a ∈ as, a.ok) →
      trdata_used (effects as t) = used_after (trdata_used t) as := by
  induction as with
  | nil => intro t _ _; rfl
  | cons a as ih =>
    intro t hwf ha
    have h0 := ha a (List.mem_cons_self _ _)
    have hstep : trdata_used (a.effect t)
        = if trdata_used t + (a.size + 3) / 4 * 4 ≤ DATA_CAPACITY then
            trdata_used t + (a.size + 3) / 4 * 4
          else trdata_used t := by
      obtain ⟨_, w1, w2, _⟩ := hwf
      unfold alloc_store.effect trdata_used
      by_cases hfit : (a.size + 3) / 4 * 4 ≤ t.data_avail
      · have hcond : t.data_ptr - t.data_base + (a.size + 3) / 4 * 4 ≤ DATA_CAPACITY := by
          omega
        rw [if_pos hfit]
        dsimp only
        rw [if_pos hcond]
        omega
      · have hcond : ¬ t.data_ptr - t.data_base + (a.size + 3) / 4 * 4 ≤ DATA_CAPACITY := by
          omega
        rw [if_neg hfit, if_neg hcond]
    rw [effects, used_after, ih (a.effect t) (effect_wf t a hwf h0)
      (fun x hx => ha x (List.mem_cons_of_mem _ hx)), hstep]

theorem trdata_objects_expected (calls : List put_call) :
    ∀ (t : translation_data_t), trdata_wf t → (∀ c ∈ calls, c.ok) →
      trdata_objects t calls = expected_objects (trdata_used t) calls := by
  induction calls with
  | nil => intro t _ _; rfl
  | cons c cs ih =>
    intro t hwf hc
    have hc0 := hc c (List.mem_cons_self _ _)
    obtain ⟨e0, w0⟩ := trdata_put_effects t c hwf hc0
    have hu := effects_used c.steps t hwf (put_call_steps_ok c hc0)
    have hx := effects_extends c.steps t hwf (put_call_steps_ok c hc0)
    have hptr : (effects c.steps t).data_ptr = t.data_ptr
        ↔ used_after (trdata_used t) c.steps = trdata_used t := by
      rw [← hu]
      obtain ⟨_, v1, _⟩ := hwf
      obtain ⟨_, u1, _⟩ := w0
      have hb := hx.1
      unfold trdata_used
      rw [hb] at u1 ⊢
      omega
    rw [trdata_objects, e0, expected_objects]
    dsimp only
    rw [ih _ w0 (fun x hx => hc x (List.mem_cons_of_mem _ hx)), hu]
    cases c.tag with
    | none => rfl
    | some tag =>
      dsimp only
      by_cases h : (effects c.steps t).data_ptr = t.data_ptr
      · rw [if_pos h, if_pos (hptr.mp h)]
      · rw [if_neg h, if_neg (fun h2 => h (hptr.mpr h2))]

/-- C11: on a builder that was just initialised, after any sequence of put operations
the offsets table holds exactly the offsets of the object puts that succeeded, in
call order; each entry is a multiple of 4, the record it points to lies inside the
used part of the data arena, and the first word of that record is the type tag the
call asked for.  Which puts succeed is a matter of sizes alone: a put succeeds when
its padded size still fits the arena.  The five type tags are pairwise distinct. -/
theorem trdata_offsets_table (t0 : translation_data_t) (calls : List put_call)
    (harrays : trdata_arrays t0) (hcalls : ∀ c ∈ calls, c.ok) :
    ∃ s, trdata_run (trdata_init t0) calls = .ok s ∧
      s.offs.take (trdata_count s) = (trdata_objects (trdata_init t0) calls).map Prod.fst ∧
      (∀ e ∈ trdata_objects (trdata_init t0) calls,
        e.1 % 4 = 0 ∧ e.1 + 24 ≤ trdata_used s ∧ trdata_used s ≤ DATA_CAPACITY ∧
          le_value (region s.data e.1 4) = e.2) ∧
      trdata_objects (trdata_init t0) calls = expected_objects 0 calls ∧
      [BINDER_TYPE_BINDER, BINDER_TYPE_WEAK_BINDER, BINDER_TYPE_HANDLE, BINDER_TYPE_WEAK_HANDLE,
        BINDER_TYPE_PTR].Nodup := by
  obtain ⟨s, hrun, hwf, _, cnt, reg, pts⟩ :=
    trdata_run_objects calls (trdata_init t0) (trdata_init_wf t0 harrays) hcalls
  obtain ⟨u0, c0⟩ := trdata_init_fresh t0
  have hexp := trdata_objects_expected calls (trdata_init t0) (trdata_init_wf t0 harrays) hcalls
  rw [u0] at hexp
  rw [c0, Nat.zero_add] at cnt
  rw [c0, ← take_eq_region, ← cnt] at reg
  refine ⟨s, hrun, reg, ?_, hexp, by decide⟩
  intro e he
  obtain ⟨_, p2, p3, p4, p5, _⟩ := pts e he
  obtain ⟨_, w1, w2, _⟩ := hwf
  refine ⟨p2, p3, ?_, ?_⟩
  · unfold trdata_used
    omega
  · rw [p4, le_value_le_bytes]
    exact Nat.mod_eq_of_lt p5

/-- Witness for `trdata_offsets_table`: a local reference, a plain word and a weak
handle put into a fresh builder give the entries 0 and 28. -/
theorem trdata_offsets_table_witness :
    (∃ s, trdata_run (trdata_init (trdata_zero 0x100000 0x110010))
        [put_call.binder 0xdead true, put_call.u32 7, put_call.handle 5 false] = .ok s ∧
      s.offs.take (trdata_count s)
        = (trdata_objects (trdata_init (trdata_zero 0x100000 0x110010))
            [put_call.binder 0xdead true, put_call.u32 7, put_call.handle 5 false]).map Prod.fst ∧
      (∀ e ∈ trdata_objects (trdata_init (trdata_zero 0x100000 0x110010))
          [put_call.binder 0xdead true, put_call.u32 7, put_call.handle 5 false],
        e.1 % 4 = 0 ∧ e.1 + 24 ≤ trdata_used s ∧ trdata_used s ≤ DATA_CAPACITY ∧
          le_value (region s.data e.1 4) = e.2) ∧
      trdata_objects (trdata_init (trdata_zero 0x100000 0x110010))
          [put_call.binder 0xdead true, put_call.u32 7, put_call.handle 5 false]
        = expected_objects 0
            [put_call.binder 0xdead true, put_call.u32 7, put_call.handle 5 false] ∧
      [BINDER_TYPE_BINDER, BINDER_TYPE_WEAK_BINDER, BINDER_TYPE_HANDLE, BINDER_TYPE_WEAK_HANDLE,
        BINDER_TYPE_PTR].Nodup) ∧
    expected_objects 0 [put_call.binder 0xdead true, put_call.u32 7, put_call.handle 5 false]
      = [(0, BINDER_TYPE_BINDER), (28, BINDER_TYPE_WEAK_HANDLE)] :=
  ⟨trdata_offsets_table (trdata_zero 0x100000 0x110010)
      [put_call.binder 0xdead true, put_call.u32 7, put_call.handle 5 false]
      (trdata_zero_arrays 0x100000 0x110010 (by unfold WORD; decide) (by unfold WORD; decide))
      (by
        intro c hc
        simp only [List.mem_cons, List.mem_singleton, List.not_mem_nil, or_false] at hc
        rcases hc with hc | hc | hc <;> rw [hc] <;> trivial),
    by decide⟩

/-! ### Exhaustion of the data arena -/

theorem trdata_run_append (pre post : List put_call) :
    ∀ (t : translation_data_t),
      trdata_run t (pre ++ post)
        = match trdata_run t pre with
          | .error e => .error e
          | .ok t1 => trdata_run t1 post := by
  induction pre with
  | nil => intro t; rfl
  | cons c cs ih =>
    intro t
    rw [List.cons_append, trdata_run, trdata_run]
    cases trdata_put t c with
    | error e => rfl
    | ok t1 => exact ih t1

theorem effect_plain_bytes (t : translation_data_t) (size : Nat) (b : List Nat)
    (hwf : trdata_wf t) (hb : b.length ≤ size) :
    ((size + 3) / 4 * 4 > t.data_avail →
        alloc_store.effect ⟨size, false, none, [(0, b)]⟩ t = t) ∧
      ((size + 3) / 4 * 4 ≤ t.data_avail →
        region (alloc_store.effect ⟨size, false, none, [(0, b)]⟩ t).data (trdata_used t) b.length
            = b ∧
          (alloc_store.effect ⟨size, false, none, [(0, b)]⟩ t).data_ptr
            = t.data_ptr + (size + 3) / 4 * 4 ∧
          (alloc_store.effect ⟨size, false, none, [(0, b)]⟩ t).data_avail
            = t.data_avail - (size + 3) / 4 * 4 ∧
          (alloc_store.effect ⟨size, false, none, [(0, b)]⟩ t).offs = t.offs ∧
          (alloc_store.effect ⟨size, false, none, [(0, b)]⟩ t).offs_ptr = t.offs_ptr ∧
          (alloc_store.effect ⟨size, false, none, [(0, b)]⟩ t).offs_avail = t.offs_avail) := by
  obtain ⟨⟨a1, a2, a3, a4⟩, w1, w2, w3, w4, w5, w6, w7, w8⟩ := hwf
  unfold alloc_store.effect
  dsimp only
  refine ⟨?_, ?_⟩
  · intro h
    rw [if_neg (by omega)]
  · intro h
    rw [if_pos h]
    refine ⟨?_, rfl, rfl, rfl, rfl, rfl⟩
    dsimp only
    have hh := region_overwrite_fields_head 0 b [] t.data (trdata_used t) size
      (by omega) (fun f hf => by cases hf) (by unfold trdata_used; omega)
      (fun f hf => by cases hf)
    rw [Nat.add_zero] at hh
    exact hh

/-- C14: in any sequence of put operations on a builder that was just initialised, a
`trdata_put_bytes` whose padded length exceeds the remaining capacity returns with the
builder exactly as it was; one that fits stores its bytes at the cursor, and these
bytes are still there after every later call, failing or not, because no call changes
a byte below the cursor it started from. -/
theorem trdata_put_bytes_frame (t0 : translation_data_t) (pre post : List put_call)
    (data : List Nat) (len : Nat) (harrays : trdata_arrays t0) (hpre : ∀ c ∈ pre, c.ok)
    (hpost : ∀ c ∈ post, c.ok) (hlen : len ≤ data.length) (hsmall : len + 3 < WORD) :
    ∃ s1 s2 s3, trdata_run (trdata_init t0) pre = .ok s1 ∧
      trdata_put_bytes s1 data len = .ok s2 ∧ trdata_run s2 post = .ok s3 ∧
      trdata_run (trdata_init t0) (pre ++ put_call.bytes data len :: post) = .ok s3 ∧
      ((len + 3) / 4 * 4 > s1.data_avail → s2 = s1) ∧
      ((len + 3) / 4 * 4 ≤ s1.data_avail →
        s2.data_ptr = s1.data_ptr + (len + 3) / 4 * 4 ∧
          region s2.data (trdata_used s1) len = data.take len ∧
          region s3.data (trdata_used s1) len = data.take len) ∧
      s2.data.take (trdata_used s1) = s1.data.take (trdata_used s1) ∧
      s3.data.take (trdata_used s2) = s2.data.take (trdata_used s2) := by
  have hc : (put_call.bytes data len).ok := ⟨hlen, hsmall⟩
  have hl : (data.take len).length = len := by rw [List.length_take]; omega
  obtain ⟨r1, w1⟩ := trdata_run_effects pre (trdata_init t0) (trdata_init_wf t0 harrays) hpre
  generalize effects (pre.flatMap put_call.steps) (trdata_init t0) = s1 at r1 w1
  obtain ⟨r2, w2⟩ := trdata_put_effects s1 (put_call.bytes data len) w1 hc
  have x2 := effects_extends _ s1 w1 (put_call_steps_ok _ hc)
  obtain ⟨f1, f2⟩ := effect_plain_bytes s1 len (data.take len) w1 (by omega)
  rw [hl] at f2
  have hs2 : effects (put_call.bytes data len).steps s1
      = alloc_store.effect ⟨len, false, none, [(0, data.take len)]⟩ s1 := rfl
  rw [hs2] at r2 w2 x2
  generalize alloc_store.effect ⟨len, false, none, [(0, data.take len)]⟩ s1 = s2
    at r2 w2 x2 f1 f2
  obtain ⟨r3, w3⟩ := trdata_run_effects post s2 w2 hpost
  have x3 := effects_extends _ s2 w2
    (fun a ha => by
      rw [List.mem_flatMap] at ha
      obtain ⟨c, hcm, hac⟩ := ha
      exact put_call_steps_ok c (hpost c hcm) a hac)
  generalize effects (post.flatMap put_call.steps) s2 = s3 at r3 w3 x3
  have r2' : trdata_put_bytes s1 data len = .ok s2 := r2
  refine ⟨s1, s2, s3, r1, r2', r3, ?_, f1, ?_, x2.2.2.2.2.1, x3.2.2.2.2.1⟩
  · rw [trdata_run_append, r1]
    dsimp only
    rw [trdata_run, r2]
    exact r3
  · intro hfit
    obtain ⟨g1, g2, _⟩ := f2 hfit
    refine ⟨g2, g1, ?_⟩
    rw [region_of_take_eq s3.data s2.data (trdata_used s2) (trdata_used s1) len
      x3.2.2.2.2.1 (by
        obtain ⟨_, v1, _⟩ := w1
        have hb := x2.1
        unfold trdata_used
        rw [g2, hb]
        omega), g1]

/-- Witness for `trdata_put_bytes_frame`: "hello" is put, then a block that is larger
than the arena, then "hello" again. -/
theorem trdata_put_bytes_frame_witness :
    ∃ s1 s2 s3, trdata_run (trdata_init (trdata_zero 0x100000 0x110010)) [] = .ok s1 ∧
      trdata_put_bytes s1 hello 5 = .ok s2 ∧
      trdata_run s2 [put_call.bytes (List.replicate 0x10004 1) 0x10004, put_call.bytes hello 5]
        = .ok s3 ∧
      trdata_run (trdata_init (trdata_zero 0x100000 0x110010))
        ([] ++ put_call.bytes hello 5 ::
          [put_call.bytes (List.replicate 0x10004 1) 0x10004, put_call.bytes hello 5]) = .ok s3 ∧
      ((5 + 3) / 4 * 4 > s1.data_avail → s2 = s1) ∧
      ((5 + 3) / 4 * 4 ≤ s1.data_avail →
        s2.data_ptr = s1.data_ptr + (5 + 3) / 4 * 4 ∧
          region s2.data (trdata_used s1) 5 = hello.take 5 ∧
          region s3.data (trdata_used s1) 5 = hello.take 5) ∧
      s2.data.take (trdata_used s1) = s1.data.take (trdata_used s1) ∧
      s3.data.take (trdata_used s2) = s2.data.take (trdata_used s2) :=
  trdata_put_bytes_frame (trdata_zero 0x100000 0x110010) []
    [put_call.bytes (List.replicate 0x10004 1) 0x10004, put_call.bytes hello 5] hello 5
    (trdata_zero_arrays _ _ (by unfold WORD; decide) (by unfold WORD; decide))
    (fun c hc => by cases hc)
    (by
      intro c hc
      simp only [List.mem_cons, List.mem_singleton, List.not_mem_nil, or_false] at hc
      rcases hc with hc | hc <;> rw [hc]
      · exact ⟨by rw [List.length_replicate], by unfold WORD; decide⟩
      · exact ⟨by decide, by unfold WORD; decide⟩)
    (by decide) (by unfold WORD; decide)

/-! ### Round trip between builder and reader -/

theorem txnin_pop_u32_region (mem : List Nat) (r : translated_data_t) (v : Nat)
    (h4 : 4 ≤ r.data_avail) (hp : r.data_ptr + 4 < WORD) (hb : r.data ≤ r.data_ptr)
    (hm : r.data_ptr + 4 ≤ r.data + mem.length)
    (hreg : region mem (r.data_ptr - r.data) 4 = le_bytes 4 v) (hv : v < 2 ^ 32) :
    txnin_pop_u32 mem r
      = .ok (v, { r with data_ptr := r.data_ptr + 4, data_avail := r.data_avail - 4 }) := by
  have hpad : PAD_SIZE_UNSAFE 4 = 4 := by unfold PAD_SIZE_UNSAFE WORD; decide
  have e1 : (r.data_ptr + 4) % WORD = r.data_ptr + 4 := Nat.mod_eq_of_lt hp
  have e2 : size_sub r.data_avail 4 = r.data_avail - 4 := size_sub_of_le h4
  have e3 : ¬ 4 > r.data_avail := by omega
  have hpop : txnin_pop r 4
      = (some r.data_ptr, { r with data_ptr := r.data_ptr + 4, data_avail := r.data_avail - 4 }) := by
    unfold txnin_pop
    rw [hpad]
    dsimp only
    rw [if_neg e3, e1, e2]
  have hload : txnin_load r mem r.data_ptr 4 = .ok (le_bytes 4 v) := by
    unfold txnin_load
    rw [if_pos ⟨hb, hm⟩]
    exact congrArg Except.ok hreg
  unfold txnin_pop_u32
  rw [hpop]
  dsimp only
  rw [hload]
  dsimp only
  rw [le_value_le_bytes]
  have e4 : v % 256 ^ 4 = v := Nat.mod_eq_of_lt hv
  rw [e4]

theorem txnin_pop_u32s_region (mem : List Nat) (vs : List Nat) :
    ∀ (r : translated_data_t), 4 * vs.length ≤ r.data_avail →
      r.data_ptr + 4 * vs.length < WORD → r.data ≤ r.data_ptr →
      r.data_ptr + 4 * vs.length ≤ r.data + mem.length →
      region mem (r.data_ptr - r.data) (4 * vs.length) = vs.flatMap (le_bytes 4) →
      (∀ v ∈ vs, v < 2 ^ 32) →
      txnin_pop_u32s mem vs.length r
        = .ok (vs, { r with
            data_ptr := r.data_ptr + 4 * vs.length
            data_avail := r.data_avail - 4 * vs.length }) := by
  induction vs with
  | nil =>
    intro r _ _ _ _ _ _
    rfl
  | cons v vs ih =>
    intro r h4 hp hb hm hreg hv
    rw [List.length_cons] at h4 hp hm hreg
    have hsplit : 4 * (vs.length + 1) = 4 + 4 * vs.length := by omega
    rw [hsplit, region_append, List.flatMap_cons] at hreg
    have hl1 : (region mem (r.data_ptr - r.data) 4).length = 4 :=
      region_length _ _ _ (by omega)
    have hhead : region mem (r.data_ptr - r.data) 4 = le_bytes 4 v := by
      have := congrArg (List.take 4) hreg
      rw [List.take_left' hl1, List.take_left' (le_bytes_length 4 v)] at this
      exact this
    have htail : region mem (r.data_ptr - r.data + 4) (4 * vs.length)
        = vs.flatMap (le_bytes 4) := by
      have := congrArg (List.drop 4) hreg
      rw [List.drop_left' hl1, List.drop_left' (le_bytes_length 4 v)] at this
      exact this
    have h1 := txnin_pop_u32_region mem r v (by omega) (by omega) hb (by omega) hhead
      (hv v (List.mem_cons_self _ _))
    have h2 := ih { r with data_ptr := r.data_ptr + 4, data_avail := r.data_avail - 4 }
      (by dsimp only; omega) (by dsimp only; omega) (by dsimp only; omega)
      (by dsimp only; omega)
      (by
        dsimp only
        have e : r.data_ptr + 4 - r.data = r.data_ptr - r.data + 4 := by omega
        rw [e]
        exact htail)
      (fun x hx => hv x (List.mem_cons_of_mem _ hx))
    rw [List.length_cons, txnin_pop_u32s, h1]
    dsimp only
    rw [h2]
    dsimp only
    have e5 : r.data_ptr + 4 + 4 * vs.length = r.data_ptr + 4 * (vs.length + 1) := by omega
    have e6 : r.data_avail - 4 - 4 * vs.length = r.data_avail - 4 * (vs.length + 1) := by omega
    rw [e5, e6]

theorem trdata_run_u32s (vs : List Nat) :
    ∀ (t : translation_data_t), trdata_wf t → 4 * vs.length ≤ t.data_avail →
      ∃ s, trdata_run t (vs.map put_call.u32) = .ok s ∧ trdata_wf s ∧ trdata_extends t s ∧
        s.data_ptr = t.data_ptr + 4 * vs.length ∧
        region s.data (trdata_used t) (4 * vs.length) = vs.flatMap (le_bytes 4) := by
  induction vs with
  | nil =>
    intro t hwf _
    exact ⟨t, rfl, hwf, trdata_extends_refl t, rfl, rfl⟩
  | cons v vs ih =>
    intro t hwf hfit
    rw [List.length_cons] at hfit
    have hc : (put_call.u32 v).ok := trivial
    obtain ⟨r1, w1⟩ := trdata_put_effects t (put_call.u32 v) hwf hc
    have x1 := effects_extends _ t hwf (put_call_steps_ok _ hc)
    obtain ⟨_, f2⟩ := effect_plain_bytes t 4 (le_bytes 4 v) hwf
      (by rw [le_bytes_length])
    have hs1 : effects (put_call.u32 v).steps t
        = alloc_store.effect ⟨4, false, none, [(0, le_bytes 4 v)]⟩ t := rfl
    rw [hs1] at r1 w1 x1
    obtain ⟨g1, g2, g3, _⟩ := f2 (by omega)
    rw [le_bytes_length] at g1
    have g2' : (alloc_store.effect ⟨4, false, none, [(0, le_bytes 4 v)]⟩ t).data_ptr
        = t.data_ptr + 4 := g2
    have g3' : (alloc_store.effect ⟨4, false, none, [(0, le_bytes 4 v)]⟩ t).data_avail
        = t.data_avail - 4 := g3
    generalize alloc_store.effect ⟨4, false, none, [(0, le_bytes 4 v)]⟩ t = t1
      at r1 w1 x1 g1 g2' g3'
    obtain ⟨s, r2, w2, x2, p2, q2⟩ := ih t1 w1 (by omega)
    have hbase := x1.1
    obtain ⟨_, v1, _⟩ := hwf
    have hu : trdata_used t1 = trdata_used t + 4 := by
      unfold trdata_used
      rw [g2', hbase]
      omega
    refine ⟨s, ?_, w2, trdata_extends_trans t t1 s x1 x2, ?_, ?_⟩
    · rw [List.map_cons, trdata_run, r1]
      exact r2
    · rw [p2, g2', List.length_cons]
      omega
    · have hsplit : 4 * (v :: vs).length = 4 + 4 * vs.length := by
        rw [List.length_cons]; omega
      rw [hsplit, region_append, List.flatMap_cons, ← hu, q2,
        region_of_take_eq s.data t1.data (trdata_used t1) (trdata_used t) 4 x2.2.2.2.2.1
          (by omega), g1]

/-- C12: a value put with `trdata_put_u32` is what `txnin_pop_u32` returns from a
reader bound to the data of the builder and positioned at the offset of the put; and a
list of values put into a builder that was just initialised comes back, in order,
from a reader initialised over the used span of the builder, which is then left with
no byte remaining. -/
theorem trdata_put_u32_round_trip (t : translation_data_t) (v : Nat) (r : translated_data_t)
    (t0 : translation_data_t) (vs : List Nat) (txnin : translated_data_t) (handle : Int)
    (code flags : Nat)
    (hwf : trdata_wf t) (hfree : 4 ≤ t.data_avail) (hv : v < 2 ^ 32)
    (hdata : r.data = t.data_base) (hptr : r.data_ptr = t.data_ptr) (havail : 4 ≤ r.data_avail)
    (harrays : trdata_arrays t0) (hvs : ∀ x ∈ vs, x < 2 ^ 32)
    (hfit : 4 * vs.length ≤ DATA_CAPACITY) :
    (∃ s, trdata_put_u32 t v = .ok s ∧
      txnin_pop_u32 s.data r
        = .ok (v, { r with data_ptr := r.data_ptr + 4, data_avail := r.data_avail - 4 })) ∧
    ∃ s r1, trdata_run (trdata_init t0) (vs.map put_call.u32) = .ok s ∧
      txnin_pop_u32s s.data vs.length
          (txnin_init txnin (binder_send_txn_record handle code flags s)) = .ok (vs, r1) ∧
      r1.data_avail = 0 := by
  have hD : DATA_CAPACITY = 0x10000 := rfl
  refine ⟨?_, ?_⟩
  · obtain ⟨s, r1, w1, x1, p1, q1⟩ := trdata_run_u32s [v] t hwf (by rw [List.length_singleton]; omega)
    obtain ⟨⟨a1, a2, a3, a4⟩, v1, v2, _⟩ := hwf
    obtain ⟨⟨b1, _, _, _⟩, _⟩ := w1
    have hput : trdata_put_u32 t v = .ok s := by
      rw [List.map_singleton, trdata_run] at r1
      have e : trdata_put t (put_call.u32 v) = trdata_put_u32 t v := rfl
      rw [e] at r1
      cases hh : trdata_put_u32 t v with
      | error e => rw [hh] at r1; cases r1
      | ok s' =>
        rw [hh] at r1
        exact congrArg Except.ok (Except.ok.inj r1)
    refine ⟨s, hput, ?_⟩
    apply txnin_pop_u32_region s.data r v havail (by omega) (by omega) (by omega) _ hv
    have hq : region s.data (trdata_used t) 4 = le_bytes 4 v := by
      simpa using q1
    rw [hptr, hdata]
    exact hq
  · have hwf0 := trdata_init_wf t0 harrays
    obtain ⟨s, r1, w1, x1, p1, q1⟩ := trdata_run_u32s vs (trdata_init t0) hwf0
      (by
        have : (trdata_init t0).data_avail = DATA_CAPACITY := rfl
        rw [this]
        exact hfit)
    obtain ⟨u0, _⟩ := trdata_init_fresh t0
    rw [u0] at q1
    have hbase : s.data_base = t0.data_base := x1.1
    have hptr0 : (trdata_init t0).data_ptr = t0.data_base := rfl
    rw [hptr0] at p1
    obtain ⟨⟨b1, _, b3, _⟩, _⟩ := w1
    have hsize : size_sub s.data_ptr s.data_base = 4 * vs.length := by
      rw [size_sub_of_le (by omega), p1, hbase]
      omega
    have hinit : txnin_init txnin (binder_send_txn_record handle code flags s)
        = { data := s.data_base, data_ptr := s.data_base, data_avail := 4 * vs.length,
            code := code, target := (handle % 2 ^ 32).toNat, cookie := 0 } := by
      unfold txnin_init binder_send_txn_record
      dsimp only
      rw [hsize]
    have hpops := txnin_pop_u32s_region s.data vs
      { data := s.data_base, data_ptr := s.data_base, data_avail := 4 * vs.length,
        code := code, target := (handle % 2 ^ 32).toNat, cookie := 0 }
      (Nat.le_refl _) (by dsimp only; omega) (Nat.le_refl _) (by dsimp only; omega)
      (by dsimp only; rw [Nat.sub_self]; exact q1) hvs
    refine ⟨s,
      { data := s.data_base, data_ptr := s.data_base + 4 * vs.length,
        data_avail := 4 * vs.length - 4 * vs.length, code := code,
        target := (handle % 2 ^ 32).toNat, cookie := 0 }, r1, ?_, Nat.sub_self _⟩
    rw [hinit]
    exact hpops

/-- Witness for `trdata_put_u32_round_trip`: the values 0, 0xFFFFFFFF and 77. -/
theorem trdata_put_u32_round_trip_witness :
    (∃ s, trdata_put_u32 (trdata_init (trdata_zero 0x100000 0x110010)) 0xFFFFFFFF = .ok s ∧
      txnin_pop_u32 s.data
          { data := 0x100000, data_ptr := 0x100000, data_avail := 4, target := 0, cookie := 0,
            code := 0 }
        = .ok (0xFFFFFFFF,
            { data := 0x100000, data_ptr := 0x100000 + 4, data_avail := 4 - 4, target := 0,
              cookie := 0, code := 0 })) ∧
    ∃ s r1, trdata_run (trdata_init (trdata_zero 0x100000 0x110010))
        ([0, 0xFFFFFFFF, 77].map put_call.u32) = .ok s ∧
      txnin_pop_u32s s.data [0, 0xFFFFFFFF, 77].length
          (txnin_init txnin_zero (binder_send_txn_record 0 0 0 s))
        = .ok ([0, 0xFFFFFFFF, 77], r1) ∧
      r1.data_avail = 0 :=
  trdata_put_u32_round_trip (trdata_init (trdata_zero 0x100000 0x110010)) 0xFFFFFFFF
    { data := 0x100000, data_ptr := 0x100000, data_avail := 4, target := 0, cookie := 0,
      code := 0 }
    (trdata_zero 0x100000 0x110010) [0, 0xFFFFFFFF, 77] txnin_zero 0 0 0
    (trdata_init_wf _
      (trdata_zero_arrays _ _ (by unfold WORD; decide) (by unfold WORD; decide)))
    (by decide) (by decide) rfl rfl (by decide)
    (trdata_zero_arrays _ _ (by unfold WORD; decide) (by unfold WORD; decide))
    (by decide) (by decide)

/-! ### Strings -/

theorem overwrite_fields_append (fs gs : List (Nat × List Nat)) :
    ∀ (l : List Nat) (k : Nat),
      overwrite_fields l k (fs ++ gs) = overwrite_fields (overwrite_fields l k fs) k gs := by
  induction fs with
  | nil => intro l k; rfl
  | cons f fs ih =>
    intro l k
    obtain ⟨off, b⟩ := f
    rw [List.cons_append, overwrite_fields, overwrite_fields]
    exact ih _ k

theorem overwrite_adjacent (l : List Nat) (k j : Nat) (a b : List Nat) (hj : j = k + a.length)
    (h : k + a.length + b.length ≤ l.length) :
    overwrite (overwrite l k a) j b = overwrite l k (a ++ b) := by
  rw [hj]
  exact overwrite_overwrite_adjacent l k a b h

theorem overwrite_nil (l : List Nat) (k : Nat) : overwrite l k [] = l := by
  unfold overwrite
  rw [List.append_nil, List.length_nil, Nat.add_zero, List.take_append_drop]

theorem le_bytes_one (c : Nat) (h : c < 256) : le_bytes 1 c = [c] := by
  have e : c % 256 = c := Nat.mod_eq_of_lt h
  rw [le_bytes, le_bytes, e]

theorem overwrite_fields_chars (cs : List Nat) :
    ∀ (l : List Nat) (k i : Nat), (∀ c ∈ cs, c < 256) → k + i + cs.length ≤ l.length →
      overwrite_fields l k (chars_fields 1 i cs) = overwrite l (k + i) cs := by
  induction cs with
  | nil =>
    intro l k i _ _
    rw [overwrite_nil]
    rfl
  | cons c cs ih =>
    intro l k i hc hl
    rw [List.length_cons] at hl
    have hc0 := hc c (List.mem_cons_self _ _)
    have hlen : (overwrite l (k + i) [c]).length = l.length :=
      overwrite_length l (k + i) [c] (by rw [List.length_singleton]; omega)
    rw [chars_fields, overwrite_fields, Nat.one_mul, le_bytes_one c hc0,
      ih _ k (i + 1) (fun x hx => hc x (List.mem_cons_of_mem _ hx)) (by rw [hlen]; omega),
      overwrite_adjacent l (k + i) (k + (i + 1)) [c] cs (by rw [List.length_singleton]; omega)
        (by rw [List.length_singleton]; omega)]
    rfl

/-- C13: for a string `s` of non-NUL characters whose padded encoding fits, followed
in memory by its terminator, `trdata_put_str` stores the characters of `s` and one NUL
at the cursor, advances the cursor by the smallest multiple of 4 that is at least
`len(s) + 1`, takes that many bytes from `data_avail`, and leaves the offsets table
as it was. -/
theorem trdata_put_str_spec (t : translation_data_t) (s rest : List Nat) (hwf : trdata_wf t)
    (hchars : ∀ c ∈ s, c ≠ 0 ∧ c < 256)
    (hfit : (s.length + 1 + 3) / 4 * 4 ≤ t.data_avail) :
    ∃ t1, trdata_put_str t (s ++ 0 :: rest) = .ok t1 ∧
      region t1.data (trdata_used t) (s.length + 1) = s ++ [0] ∧
      t1.data.take (trdata_used t) = t.data.take (trdata_used t) ∧
      t1.data_ptr = t.data_ptr + (s.length + 1 + 3) / 4 * 4 ∧
      t1.data_avail = t.data_avail - (s.length + 1 + 3) / 4 * 4 ∧
      t1.offs = t.offs ∧ t1.offs_ptr = t.offs_ptr ∧ t1.offs_avail = t.offs_avail ∧
      ((s.length + 1 + 3) / 4 * 4) % 4 = 0 ∧ s.length + 1 ≤ (s.length + 1 + 3) / 4 * 4 ∧
      ∀ q, q % 4 = 0 → s.length + 1 ≤ q → (s.length + 1 + 3) / 4 * 4 ≤ q := by
  have hD : DATA_CAPACITY = 0x10000 := rfl
  have hW : WORD = 0x10000000000000000 := rfl
  have hwf0 := hwf
  obtain ⟨⟨a1, a2, a3, a4⟩, w1, w2, w3, w4, w5, w6, w7, w8⟩ := hwf
  have hstrlen := strlen_append s rest (fun c hc => (hchars c hc).1)
  have hok : (put_call.str (s ++ 0 :: rest)).ok := by
    rw [put_call.ok, hstrlen]
    dsimp only
    omega
  have hsteps : (put_call.str (s ++ 0 :: rest)).steps
      = [⟨s.length + 1, false, none, chars_fields 1 0 s ++ [(s.length, le_bytes 1 0)]⟩] := by
    rw [put_call.steps, hstrlen]
    dsimp only
    rw [List.take_left]
  obtain ⟨r1, _⟩ := trdata_put_effects t _ hwf0 hok
  have x1 := effects_extends _ t hwf0 (put_call_steps_ok _ hok)
  rw [hsteps] at r1 x1
  have hput : trdata_put t (put_call.str (s ++ 0 :: rest)) = trdata_put_str t (s ++ 0 :: rest) :=
    rfl
  rw [hput] at r1
  have heff : effects [⟨s.length + 1, false, none,
        chars_fields 1 0 s ++ [(s.length, le_bytes 1 0)]⟩] t
      = { data_base := t.data_base
          data := overwrite t.data (trdata_used t) (s ++ [0])
          data_ptr := t.data_ptr + (s.length + 1 + 3) / 4 * 4
          data_avail := t.data_avail - (s.length + 1 + 3) / 4 * 4
          offs_base := t.offs_base
          offs := t.offs
          offs_ptr := t.offs_ptr
          offs_avail := t.offs_avail
          buffers_size := t.buffers_size } := by
    have hlen : (overwrite t.data (trdata_used t + 0) s).length = t.data.length :=
      overwrite_length _ _ s (by unfold trdata_used; omega)
    rw [effects, effects]
    unfold alloc_store.effect
    dsimp only
    rw [if_pos hfit, overwrite_fields_append,
      overwrite_fields_chars s t.data (trdata_used t) 0 (fun c hc => (hchars c hc).2)
        (by unfold trdata_used; omega),
      overwrite_fields, overwrite_fields, le_bytes_one 0 (by norm_num),
      overwrite_adjacent t.data (trdata_used t + 0) (trdata_used t + s.length) s [0]
        (by omega) (by rw [List.length_singleton]; unfold trdata_used; omega)]
    rfl
  rw [heff] at r1 x1
  refine ⟨_, r1, ?_, x1.2.2.2.2.1, rfl, rfl, rfl, rfl, rfl, by omega, by omega, ?_⟩
  · dsimp only
    have h := region_overwrite_self t.data (trdata_used t) (s ++ [0])
      (by rw [List.length_append, List.length_singleton]; unfold trdata_used; omega)
    rw [List.length_append, List.length_singleton] at h
    exact h
  · intro q hq1 hq2
    omega

/-- Witness for `trdata_put_str_spec`: the strings "ab" and "" each advance the
cursor of a fresh builder by 4. -/
theorem trdata_put_str_spec_witness :
    (([97, 98] : List Nat).length + 1 + 3) / 4 * 4 = 4 ∧
    (([] : List Nat).length + 1 + 3) / 4 * 4 = 4 ∧
    (∃ t1, trdata_put_str (trdata_init (trdata_zero 0x100000 0x110010)) ([97, 98] ++ 0 :: [])
        = .ok t1 ∧
      region t1.data (trdata_used (trdata_init (trdata_zero 0x100000 0x110010)))
        (([97, 98] : List Nat).length + 1) = [97, 98] ++ [0] ∧
      t1.data_ptr = (trdata_init (trdata_zero 0x100000 0x110010)).data_ptr
        + (([97, 98] : List Nat).length + 1 + 3) / 4 * 4) ∧
    ∃ t1, trdata_put_str (trdata_init (trdata_zero 0x100000 0x110010)) ([] ++ 0 :: [])
        = .ok t1 ∧
      region t1.data (trdata_used (trdata_init (trdata_zero 0x100000 0x110010)))
        (([] : List Nat).length + 1) = [] ++ [0] ∧
      t1.data_ptr = (trdata_init (trdata_zero 0x100000 0x110010)).data_ptr
        + (([] : List Nat).length + 1 + 3) / 4 * 4 := by
  have hwf := trdata_init_wf _
    (trdata_zero_arrays 0x100000 0x110010 (by unfold WORD; decide) (by unfold WORD; decide))
  obtain ⟨t1, h1, h2, _, h3, _⟩ :=
    trdata_put_str_spec (trdata_init (trdata_zero 0x100000 0x110010)) [97, 98] [] hwf
      (by decide) (by decide)
  obtain ⟨t2, g1, g2, _, g3, _⟩ :=
    trdata_put_str_spec (trdata_init (trdata_zero 0x100000 0x110010)) [] [] hwf
      (by decide) (by decide)
  exact ⟨by decide, by decide, ⟨t1, h1, h2, h3⟩, ⟨t2, g1, g2, g3⟩⟩

/-! ### Reader -/

theorem PAD_SIZE_UNSAFE_lt (s : Nat) : PAD_SIZE_UNSAFE s < WORD := by
  rw [PAD_SIZE_UNSAFE_eq]
  have h : (s + 3) % WORD < WORD := Nat.mod_lt _ (by unfold WORD; decide)
  omega

theorem txnin_pop_of_lt (r : translated_data_t) (size : Nat) (hs : size + 3 < WORD)
    (hp : r.data_ptr + r.data_avail < WORD) :
    txnin_pop r size =
      if (size + 3) / 4 * 4 > r.data_avail then (none, r)
      else (some r.data_ptr, { r with
        data_ptr := r.data_ptr + (size + 3) / 4 * 4
        data_avail := r.data_avail - (size + 3) / 4 * 4 }) := by
  unfold txnin_pop
  rw [PAD_SIZE_UNSAFE_of_lt size hs]
  dsimp only
  by_cases h : (size + 3) / 4 * 4 > r.data_avail
  · rw [if_pos h, if_pos h]
  · have e1 : (r.data_ptr + (size + 3) / 4 * 4) % WORD = r.data_ptr + (size + 3) / 4 * 4 :=
      Nat.mod_eq_of_lt (by omega)
    have e2 : size_sub r.data_avail ((size + 3) / 4 * 4) = r.data_avail - (size + 3) / 4 * 4 :=
      size_sub_of_le (by omega)
    rw [if_neg h, if_neg h, e1, e2]

theorem txnin_pop_inv (r : translated_data_t) (size n : Nat) (h1 : r.data ≤ r.data_ptr)
    (h2 : r.data_ptr - r.data + r.data_avail = n) (h3 : r.data + n < WORD) :
    r.data = (txnin_pop r size).2.data ∧ (txnin_pop r size).2.data ≤ (txnin_pop r size).2.data_ptr ∧
      (txnin_pop r size).2.data_ptr - (txnin_pop r size).2.data
        + (txnin_pop r size).2.data_avail = n := by
  unfold txnin_pop
  dsimp only
  by_cases h : PAD_SIZE_UNSAFE size > r.data_avail
  · rw [if_pos h]
    exact ⟨rfl, h1, h2⟩
  · have e1 : (r.data_ptr + PAD_SIZE_UNSAFE size) % WORD = r.data_ptr + PAD_SIZE_UNSAFE size :=
      Nat.mod_eq_of_lt (by omega)
    have e2 : size_sub r.data_avail (PAD_SIZE_UNSAFE size)
        = r.data_avail - PAD_SIZE_UNSAFE size := size_sub_of_le (by omega)
    rw [if_neg h, e1, e2]
    dsimp only
    refine ⟨rfl, by omega, by omega⟩

theorem txnin_run_inv (sizes : List Nat) :
    ∀ (r : translated_data_t) (n : Nat), r.data ≤ r.data_ptr →
      r.data_ptr - r.data + r.data_avail = n → r.data + n < WORD →
      (txnin_run r sizes).data ≤ (txnin_run r sizes).data_ptr ∧
        (txnin_run r sizes).data_ptr - (txnin_run r sizes).data
          + (txnin_run r sizes).data_avail = n := by
  induction sizes with
  | nil => intro r n h1 h2 _; exact ⟨h1, h2⟩
  | cons size sizes ih =>
    intro r n h1 h2 h3
    obtain ⟨e, g1, g2⟩ := txnin_pop_inv r size n h1 h2 h3
    rw [txnin_run]
    exact ih _ n g1 g2 (by rw [← e]; exact h3)

/-- C15: a reader with 8 bytes remaining is asked for `SIZE_MAX` bytes.  No multiple
of 4 that is at least `SIZE_MAX` is within the 8 remaining bytes, yet `txnin_pop`
does not return `NULL`: the padded size wraps to 0 and the call returns the cursor
with the reader as it was. -/
theorem txnin_pop_size_max :
    (¬ ∃ p, p % 4 = 0 ∧ WORD - 1 ≤ p ∧ p ≤ 8) ∧
    PAD_SIZE_UNSAFE (WORD - 1) = 0 ∧
    txnin_pop
        { data := 0x7f0000, data_ptr := 0x7f0000, data_avail := 8, target := 0, cookie := 0,
          code := 0 }
        (WORD - 1)
      = (some 0x7f0000,
          { data := 0x7f0000, data_ptr := 0x7f0000, data_avail := 8, target := 0, cookie := 0,
            code := 0 }) := by
  refine ⟨?_, ?_, ?_⟩
  · rintro ⟨p, _, h1, h2⟩
    unfold WORD at h1
    omega
  · unfold PAD_SIZE_UNSAFE WORD
    decide
  · unfold txnin_pop PAD_SIZE_UNSAFE size_sub WORD
    decide

/-- C16: a reader with fewer bytes remaining than a `struct flat_binder_object` has:
the `txnin_pop` inside `txnin_pop_handle` returns `NULL`, `txnin_pop_handle` returns 0,
its failure value, and the reader is unchanged, cursor and `data_avail` included. -/
theorem txnin_pop_handle_underrun (mem : List Nat) (txnin : translated_data_t)
    (h : txnin.data_avail < SIZEOF_FLAT_BINDER_OBJECT) :
    txnin_pop txnin SIZEOF_FLAT_BINDER_OBJECT = (none, txnin) ∧
      txnin_pop_handle mem txnin = .ok (0, txnin) := by
  have hp : PAD_SIZE_UNSAFE SIZEOF_FLAT_BINDER_OBJECT = 24 := by
    unfold PAD_SIZE_UNSAFE SIZEOF_FLAT_BINDER_OBJECT WORD
    decide
  have h24 : SIZEOF_FLAT_BINDER_OBJECT = 24 := rfl
  have hpop : txnin_pop txnin SIZEOF_FLAT_BINDER_OBJECT = (none, txnin) := by
    unfold txnin_pop
    rw [hp]
    dsimp only
    rw [if_pos (by omega)]
  refine ⟨hpop, ?_⟩
  unfold txnin_pop_handle
  rw [hpop]

/-- Witness for `txnin_pop_handle_underrun`: a reader initialised with
`data_avail = 4`. -/
theorem txnin_pop_handle_underrun_witness :
    txnin_pop
        { data := 0x7f0000, data_ptr := 0x7f0000, data_avail := 4, target := 0, cookie := 0,
          code := 0 }
        SIZEOF_FLAT_BINDER_OBJECT
      = (none,
          { data := 0x7f0000, data_ptr := 0x7f0000, data_avail := 4, target := 0, cookie := 0,
            code := 0 }) ∧
    txnin_pop_handle [1, 0, 0, 0]
        { data := 0x7f0000, data_ptr := 0x7f0000, data_avail := 4, target := 0, cookie := 0,
          code := 0 }
      = .ok (0,
          { data := 0x7f0000, data_ptr := 0x7f0000, data_avail := 4, target := 0, cookie := 0,
            code := 0 }) :=
  txnin_pop_handle_underrun [1, 0, 0, 0]
    { data := 0x7f0000, data_ptr := 0x7f0000, data_avail := 4, target := 0, cookie := 0,
      code := 0 }
    (by decide)

/-! ### The command of a transaction -/

/-- C17: `binder_send_txn` makes one exchange, whose write buffer is one command: the
code selected by `reply` and `sg`, then the transaction record with the given handle,
code and flags, `data_size` the number of used bytes of the data arena,
`offsets_size` 8 times the number of entries of the offsets table, and the addresses
of the two arrays, and, exactly when `sg` is set, `buffers_size` behind the record.
The four codes are pairwise distinct. -/
theorem binder_send_txn_command (ctx : binder_ctx) (handle : Int) (code flags : Nat)
    (trdata : translation_data_t) (reply sg : Bool) (a : Nat) (r : ioctl_reply)
    (rest : List ioctl_reply) (hwf : trdata_wf trdata) (hheap : ctx.mem.heap_buf = some a)
    (ha : a + BUF_CAPACITY < WORD) (hs : ctx.script = r :: rest) :
    (∃ ret, binder_send_txn ctx handle code flags trdata reply sg
      = .ok (ret, { ctx with
          script := rest
          log := ctx.log ++ [write_request (le_bytes 4 (transaction_command reply sg) ++
            transaction_data_bytes
              { target := (handle % 2 ^ 32).toNat
                cookie := 0
                code := code
                flags := flags
                sender_pid := 0
                sender_euid := 0
                data_size := trdata_used trdata
                offsets_size := 8 * trdata_count trdata
                buffer := trdata.data_base
                offsets := trdata.offs_base } ++
            (if sg then le_bytes 8 trdata.buffers_size else []))] })) ∧
    [BC_TRANSACTION, BC_REPLY, BC_TRANSACTION_SG, BC_REPLY_SG].Nodup := by
  refine ⟨?_, by decide⟩
  obtain ⟨⟨a1, a2, a3, a4⟩, w1, w2, w3, w4, w5, w6, w7, w8⟩ := hwf
  have hO : OFFS_CAPACITY = 0x1000 := rfl
  have hW : WORD = 0x10000000000000000 := rfl
  have e1 : size_sub trdata.data_ptr trdata.data_base = trdata_used trdata := size_sub_of_le w1
  have e2 : (size_sub trdata.offs_ptr trdata.offs_base / 8 * 8) % WORD
      = 8 * trdata_count trdata := by
    rw [size_sub_of_le w4, Nat.mod_eq_of_lt (by omega)]
    unfold trdata_count
    omega
  have hrec : binder_send_txn_record handle code flags trdata
      = { target := (handle % 2 ^ 32).toNat
          cookie := 0
          code := code
          flags := flags
          sender_pid := 0
          sender_euid := 0
          data_size := trdata_used trdata
          offsets_size := 8 * trdata_count trdata
          buffer := trdata.data_base
          offsets := trdata.offs_base } := by
    unfold binder_send_txn_record
    rw [e1, e2]
  unfold binder_send_txn
  dsimp only
  rw [hrec]
  generalize ({ target := (handle % 2 ^ 32).toNat
                cookie := 0
                code := code
                flags := flags
                sender_pid := 0
                sender_euid := 0
                data_size := trdata_used trdata
                offsets_size := 8 * trdata_count trdata
                buffer := trdata.data_base
                offsets := trdata.offs_base } : binder_transaction_data) = tr
  have hl := transaction_data_bytes_length tr
  cases sg with
  | false =>
    have hcmd : (if reply = true then BC_REPLY else BC_TRANSACTION)
        = transaction_command reply false := by
      cases reply <;> rfl
    rw [if_neg Bool.false_ne_true, if_neg Bool.false_ne_true, List.append_nil, hcmd]
    obtain ⟨ret, hsend⟩ := binder_send_cmd_log ctx (transaction_command reply false)
      (transaction_data_bytes tr) SIZEOF_TRANSACTION_DATA a r rest hheap ha (by decide)
      (by rw [hl]) (by decide) hs
    rw [List.take_of_length_le (by rw [hl])] at hsend
    exact ⟨ret, hsend⟩
  | true =>
    have hcmd : (if reply = true then BC_REPLY_SG else BC_TRANSACTION_SG)
        = transaction_command reply true := by
      cases reply <;> rfl
    rw [if_pos rfl, if_pos rfl, List.append_assoc, hcmd]
    have hl2 : (transaction_data_bytes tr ++ le_bytes 8 trdata.buffers_size).length
        = SIZEOF_TRANSACTION_DATA_SG := by
      rw [List.length_append, hl, le_bytes_length]
      rfl
    obtain ⟨ret, hsend⟩ := binder_send_cmd_log ctx (transaction_command reply true)
      (transaction_data_bytes tr ++ le_bytes 8 trdata.buffers_size)
      SIZEOF_TRANSACTION_DATA_SG a r rest hheap ha (by decide)
      (by rw [hl2]) (by decide) hs
    rw [List.take_of_length_le (by rw [hl2])] at hsend
    exact ⟨ret, hsend⟩

/-- Witness for `binder_send_txn_command`: a reply with scatter-gather built from a
fresh builder. -/
theorem binder_send_txn_command_witness :
    (∃ ret, binder_send_txn
        { script := [reply_written 76], log := [], mem := example_addresses } 3 5 TF_ONE_WAY
        (trdata_init (trdata_zero 0x100000 0x110010)) true true
      = .ok (ret,
          { script := []
            log := [] ++ [write_request (le_bytes 4 (transaction_command true true) ++
              transaction_data_bytes
                { target := ((3 : Int) % 2 ^ 32).toNat
                  cookie := 0
                  code := 5
                  flags := TF_ONE_WAY
                  sender_pid := 0
                  sender_euid := 0
                  data_size := trdata_used (trdata_init (trdata_zero 0x100000 0x110010))
                  offsets_size := 8 * trdata_count (trdata_init (trdata_zero 0x100000 0x110010))
                  buffer := (trdata_init (trdata_zero 0x100000 0x110010)).data_base
                  offsets := (trdata_init (trdata_zero 0x100000 0x110010)).offs_base } ++
              (if true then
                le_bytes 8 (trdata_init (trdata_zero 0x100000 0x110010)).buffers_size
              else []))]
            mem := example_addresses })) ∧
    [BC_TRANSACTION, BC_REPLY, BC_TRANSACTION_SG, BC_REPLY_SG].Nodup :=
  binder_send_txn_command
    { script := [reply_written 76], log := [], mem := example_addresses } 3 5 TF_ONE_WAY
    (trdata_init (trdata_zero 0x100000 0x110010)) true true 0x5000 (reply_written 76) []
    (trdata_init_wf _
      (trdata_zero_arrays _ _ (by unfold WORD; decide) (by unfold WORD; decide)))
    rfl (by unfold WORD; decide) rfl

/-! ### Buffer descriptors and `buffers_size` -/

theorem overwrite_fields_bbo (l : List Nat) (k : Nat) (f0 f1 f2 f3 f4 f5 : List Nat)
    (h0 : f0.length = 4) (h1 : f1.length = 4) (h2 : f2.length = 8) (h3 : f3.length = 8)
    (h4 : f4.length = 8) (h5 : f5.length = 8) (hl : k + 40 ≤ l.length) :
    overwrite_fields l k [(0, f0), (4, f1), (8, f2), (16, f3), (24, f4), (32, f5)]
      = overwrite l k (f0 ++ f1 ++ f2 ++ f3 ++ f4 ++ f5) := by
  have e1 : (f0 ++ f1).length = 8 := by rw [List.length_append, h0, h1]
  have e2 : (f0 ++ f1 ++ f2).length = 16 := by rw [List.length_append, e1, h2]
  have e3 : (f0 ++ f1 ++ f2 ++ f3).length = 24 := by rw [List.length_append, e2, h3]
  have e4 : (f0 ++ f1 ++ f2 ++ f3 ++ f4).length = 32 := by rw [List.length_append, e3, h4]
  simp only [overwrite_fields]
  rw [overwrite_adjacent l (k + 0) (k + 4) f0 f1 (by omega) (by omega),
    overwrite_adjacent l (k + 0) (k + 8) (f0 ++ f1) f2 (by omega) (by omega),
    overwrite_adjacent l (k + 0) (k + 16) (f0 ++ f1 ++ f2) f3 (by omega) (by omega),
    overwrite_adjacent l (k + 0) (k + 24) (f0 ++ f1 ++ f2 ++ f3) f4 (by omega) (by omega),
    overwrite_adjacent l (k + 0) (k + 32) (f0 ++ f1 ++ f2 ++ f3 ++ f4) f5 (by omega) (by omega)]
  rfl

theorem trdata_put_buffer_fits (t : translation_data_t) (b l p po : Nat) (hp : Bool)
    (hwf : trdata_wf t) (hfit : 40 ≤ t.data_avail) :
    ∃ s, trdata_put_buffer t b l p po hp = .ok s ∧ trdata_wf s ∧
      region s.data (trdata_used t) 40
        = le_bytes 4 BINDER_TYPE_PTR ++
          le_bytes 4 (if hp then BINDER_BUFFER_FLAG_HAS_PARENT else 0) ++ le_bytes 8 b ++
          le_bytes 8 l ++ le_bytes 8 p ++ le_bytes 8 po ∧
      s.data.take (trdata_used t) = t.data.take (trdata_used t) ∧
      s.offs = t.offs.set (trdata_count t) (trdata_used t) ∧
      trdata_count s = trdata_count t + 1 ∧ s.data_ptr = t.data_ptr + 40 ∧
      s.data_avail = t.data_avail - 40 ∧ s.buffers_size = (t.buffers_size + l) % WORD ∧
      s.data_base = t.data_base := by
  have hc : (put_call.buffer b l p po hp).ok := trivial
  obtain ⟨r1, w1⟩ := trdata_put_effects t _ hwf hc
  have x1 := effects_extends _ t hwf (put_call_steps_ok _ hc)
  obtain ⟨⟨a1, a2, a3, a4⟩, v1, v2, v3, v4, v5, v6, v7, v8⟩ := hwf
  have hD : DATA_CAPACITY = 0x10000 := rfl
  have heff : effects (put_call.buffer b l p po hp).steps t
      = { data_base := t.data_base
          data := overwrite t.data (trdata_used t)
            (le_bytes 4 BINDER_TYPE_PTR ++
              le_bytes 4 (if hp then BINDER_BUFFER_FLAG_HAS_PARENT else 0) ++ le_bytes 8 b ++
              le_bytes 8 l ++ le_bytes 8 p ++ le_bytes 8 po)
          data_ptr := t.data_ptr + 40
          data_avail := t.data_avail - 40
          offs_base := t.offs_base
          offs := t.offs.set (trdata_count t) (trdata_used t)
          offs_ptr := t.offs_ptr + 8
          offs_avail := t.offs_avail - 1
          buffers_size := (t.buffers_size + l) % WORD } := by
    have hfit' : (SIZEOF_BINDER_BUFFER_OBJECT + 3) / 4 * 4 ≤ t.data_avail := hfit
    rw [put_call.steps, effects, effects]
    unfold alloc_store.effect
    dsimp only
    rw [if_pos hfit', if_pos rfl, if_pos rfl, if_pos rfl,
      overwrite_fields_bbo t.data (trdata_used t) _ _ _ _ _ _ (le_bytes_length _ _)
        (le_bytes_length _ _) (le_bytes_length _ _) (le_bytes_length _ _) (le_bytes_length _ _)
        (le_bytes_length _ _) (by unfold trdata_used; omega)]
    rfl
  rw [heff] at r1 w1 x1
  refine ⟨_, r1, w1, ?_, x1.2.2.2.2.1, rfl, ?_, rfl, rfl, rfl, rfl⟩
  · dsimp only
    have h := region_overwrite_self t.data (trdata_used t)
      (le_bytes 4 BINDER_TYPE_PTR ++
        le_bytes 4 (if hp then BINDER_BUFFER_FLAG_HAS_PARENT else 0) ++ le_bytes 8 b ++
        le_bytes 8 l ++ le_bytes 8 p ++ le_bytes 8 po)
      (by
        simp only [List.length_append, le_bytes_length]
        unfold trdata_used
        omega)
    simp only [List.length_append, le_bytes_length] at h
    exact h
  · unfold trdata_count
    dsimp only
    omega

theorem trdata_put_buffer_full (t : translation_data_t) (b l p po : Nat) (hp : Bool)
    (hwf : trdata_wf t) (hfull : t.data_avail < 40) :
    trdata_put_buffer t b l p po hp = .ok t := by
  have hc : (put_call.buffer b l p po hp).ok := trivial
  obtain ⟨r1, _⟩ := trdata_put_effects t _ hwf hc
  have heff : effects (put_call.buffer b l p po hp).steps t = t := by
    have hfull' : ¬ (SIZEOF_BINDER_BUFFER_OBJECT + 3) / 4 * 4 ≤ t.data_avail := by
      have : (SIZEOF_BINDER_BUFFER_OBJECT + 3) / 4 * 4 = 40 := rfl
      omega
    rw [put_call.steps, effects, effects]
    unfold alloc_store.effect
    dsimp only
    rw [if_neg hfull']
  rw [heff] at r1
  exact r1

theorem put_call_length_none (c : put_call)
    (h : ∀ b l p po hp, c ≠ put_call.buffer b l p po hp) : ∀ a ∈ c.steps, a.length = none := by
  cases c with
  | buffer b l p po hp => exact absurd rfl (h b l p po hp)
  | u32 n => exact fun a ha => (put_call_plain_steps (put_call.u32 n) rfl a ha).2
  | bytes data len => exact fun a ha => (put_call_plain_steps (put_call.bytes data len) rfl a ha).2
  | str s => exact fun a ha => (put_call_plain_steps (put_call.str s) rfl a ha).2
  | str16 s => exact fun a ha => (put_call_plain_steps (put_call.str16 s) rfl a ha).2
  | binder ptr strong =>
    intro a ha
    rw [put_call.steps, List.mem_singleton] at ha
    rw [ha]
  | handle hd strong =>
    intro a ha
    rw [put_call.steps, List.mem_singleton] at ha
    rw [ha]

theorem effects_buffers_size (as : List alloc_store) :
    ∀ (t : translation_data_t), (∀ a ∈ as, a.length = none) →
      (effects as t).buffers_size = t.buffers_size := by
  induction as with
  | nil => intro t _; rfl
  | cons a as ih =>
    intro t h
    have hl := h a (List.mem_cons_self _ _)
    have e : (a.effect t).buffers_size = t.buffers_size := by
      unfold alloc_store.effect
      split
      · dsimp only
        rw [hl]
      · rfl
    rw [effects, ih (a.effect t) (fun x hx => h x (List.mem_cons_of_mem _ hx)), e]

theorem trdata_run_buffers_size (calls : List put_call) :
    ∀ (t : translation_data_t), trdata_wf t → (∀ c ∈ calls, c.ok) →
      ∃ s, trdata_run t calls = .ok s ∧
        s.buffers_size = (t.buffers_size + (trdata_buffer_lengths t calls).sum) % WORD := by
  induction calls with
  | nil =>
    intro t hwf _
    refine ⟨t, rfl, ?_⟩
    obtain ⟨_, _, _, _, _, _, _, _, w8⟩ := hwf
    rw [trdata_buffer_lengths, List.sum_nil, Nat.add_zero, Nat.mod_eq_of_lt w8]
  | cons c cs ih =>
    intro t hwf hc
    have hc0 := hc c (List.mem_cons_self _ _)
    obtain ⟨e0, w0⟩ := trdata_put_effects t c hwf hc0
    by_cases hb : ∃ b l p po hp, c = put_call.buffer b l p po hp
    · obtain ⟨b, l, p, po, hp, hcb⟩ := hb
      subst hcb
      have e0' : trdata_put_buffer t b l p po hp
          = .ok (effects (put_call.buffer b l p po hp).steps t) := e0
      by_cases hfit : 40 ≤ t.data_avail
      · obtain ⟨s1, r1, w1, _, _, _, _, g1, _, g2, _⟩ :=
          trdata_put_buffer_fits t b l p po hp hwf hfit
        have r1' : trdata_put t (put_call.buffer b l p po hp) = .ok s1 := r1
        obtain ⟨s, r2, q2⟩ := ih s1 w1 (fun x hx => hc x (List.mem_cons_of_mem _ hx))
        refine ⟨s, ?_, ?_⟩
        · rw [trdata_run, r1']
          exact r2
        · have hne : ¬ s1.data_ptr = t.data_ptr := by omega
          rw [trdata_buffer_lengths, r1']
          dsimp only
          rw [if_neg hne, List.sum_append, List.sum_singleton, q2, g2, Nat.add_mod,
            Nat.mod_mod, ← Nat.add_mod, Nat.add_assoc]
      · have r1 := trdata_put_buffer_full t b l p po hp hwf (by omega)
        have r1' : trdata_put t (put_call.buffer b l p po hp) = .ok t := r1
        obtain ⟨s, r2, q2⟩ := ih t hwf (fun x hx => hc x (List.mem_cons_of_mem _ hx))
        refine ⟨s, ?_, ?_⟩
        · rw [trdata_run, r1']
          exact r2
        · rw [trdata_buffer_lengths, r1']
          dsimp only
          rw [if_pos rfl, List.nil_append]
          exact q2
    · have hnb : ∀ b l p po hp, c ≠ put_call.buffer b l p po hp :=
        fun b l p po hp h => hb ⟨b, l, p, po, hp, h⟩
      have hbs := effects_buffers_size c.steps t (put_call_length_none c hnb)
      generalize effects c.steps t = t1 at e0 w0 hbs
      obtain ⟨s, r2, q2⟩ := ih t1 w0 (fun x hx => hc x (List.mem_cons_of_mem _ hx))
      refine ⟨s, ?_, ?_⟩
      · rw [trdata_run, e0]
        exact r2
      · have hl : trdata_buffer_lengths t (c :: cs) = trdata_buffer_lengths t1 cs := by
          rw [trdata_buffer_lengths, e0]
          dsimp only
          cases c with
          | buffer b l p po hp => exact absurd rfl (hnb b l p po hp)
          | u32 n => rfl
          | bytes data len => rfl
          | str s => rfl
          | str16 s => rfl
          | binder ptr strong => rfl
          | handle hd strong => rfl
        rw [hl, q2, hbs]

/-- C18 (amended): on a builder in a valid state `trdata_put_buffer` either finds 40
free bytes, stores one `binder_buffer_object` at the cursor (type `BINDER_TYPE_PTR`,
flags `BINDER_BUFFER_FLAG_HAS_PARENT` exactly when `has_parent`, then buffer, length,
parent and parent offset), appends the offset of the record to the offsets table and
adds `length` to `buffers_size` modulo `2 ^ 64`, or changes nothing.  After any
sequence of put operations on a builder that was just initialised, `buffers_size` is
the sum, modulo `2 ^ 64`, of the lengths of the descriptors that were allocated. -/
theorem trdata_put_buffer_spec (t : translation_data_t) (b l p po : Nat) (hp : Bool)
    (t0 : translation_data_t) (calls : List put_call) (hwf : trdata_wf t)
    (harrays : trdata_arrays t0) (hcalls : ∀ c ∈ calls, c.ok) :
    (40 ≤ t.data_avail →
      ∃ s, trdata_put_buffer t b l p po hp = .ok s ∧
        region s.data (trdata_used t) 40
          = le_bytes 4 BINDER_TYPE_PTR ++
            le_bytes 4 (if hp then BINDER_BUFFER_FLAG_HAS_PARENT else 0) ++ le_bytes 8 b ++
            le_bytes 8 l ++ le_bytes 8 p ++ le_bytes 8 po ∧
        s.data.take (trdata_used t) = t.data.take (trdata_used t) ∧
        s.offs = t.offs.set (trdata_count t) (trdata_used t) ∧
        trdata_count s = trdata_count t + 1 ∧ s.data_ptr = t.data_ptr + 40 ∧
        s.data_avail = t.data_avail - 40 ∧ s.buffers_size = (t.buffers_size + l) % WORD) ∧
    (t.data_avail < 40 → trdata_put_buffer t b l p po hp = .ok t) ∧
    ∃ s, trdata_run (trdata_init t0) calls = .ok s ∧
      s.buffers_size = (trdata_buffer_lengths (trdata_init t0) calls).sum % WORD := by
  refine ⟨?_, ?_, ?_⟩
  · intro hfit
    obtain ⟨s, r1, _, g1, g2, g3, g4, g5, g6, g7, _⟩ :=
      trdata_put_buffer_fits t b l p po hp hwf hfit
    exact ⟨s, r1, g1, g2, g3, g4, g5, g6, g7⟩
  · exact trdata_put_buffer_full t b l p po hp hwf
  · obtain ⟨s, r, q⟩ := trdata_run_buffers_size calls (trdata_init t0)
      (trdata_init_wf t0 harrays) hcalls
    have h0 : (trdata_init t0).buffers_size = 0 := rfl
    rw [h0, Nat.zero_add] at q
    exact ⟨s, r, q⟩

/-- Witness for `trdata_put_buffer_spec`: one descriptor of 16 bytes with a parent,
put into a fresh builder. -/
theorem trdata_put_buffer_spec_witness :
    (40 ≤ (trdata_init (trdata_zero 0x100000 0x110010)).data_avail →
      ∃ s, trdata_put_buffer (trdata_init (trdata_zero 0x100000 0x110010)) 0x1234 16 2 3 true
          = .ok s ∧
        region s.data (trdata_used (trdata_init (trdata_zero 0x100000 0x110010))) 40
          = le_bytes 4 BINDER_TYPE_PTR ++
            le_bytes 4 (if true then BINDER_BUFFER_FLAG_HAS_PARENT else 0) ++
            le_bytes 8 0x1234 ++ le_bytes 8 16 ++ le_bytes 8 2 ++ le_bytes 8 3 ∧
        s.data.take (trdata_used (trdata_init (trdata_zero 0x100000 0x110010)))
          = (trdata_init (trdata_zero 0x100000 0x110010)).data.take
              (trdata_used (trdata_init (trdata_zero 0x100000 0x110010))) ∧
        s.offs = (trdata_init (trdata_zero 0x100000 0x110010)).offs.set
            (trdata_count (trdata_init (trdata_zero 0x100000 0x110010)))
            (trdata_used (trdata_init (trdata_zero 0x100000 0x110010))) ∧
        trdata_count s = trdata_count (trdata_init (trdata_zero 0x100000 0x110010)) + 1 ∧
        s.data_ptr = (trdata_init (trdata_zero 0x100000 0x110010)).data_ptr + 40 ∧
        s.data_avail = (trdata_init (trdata_zero 0x100000 0x110010)).data_avail - 40 ∧
        s.buffers_size
          = ((trdata_init (trdata_zero 0x100000 0x110010)).buffers_size + 16) % WORD) ∧
    ((trdata_init (trdata_zero 0x100000 0x110010)).data_avail < 40 →
      trdata_put_buffer (trdata_init (trdata_zero 0x100000 0x110010)) 0x1234 16 2 3 true
        = .ok (trdata_init (trdata_zero 0x100000 0x110010))) ∧
    ∃ s, trdata_run (trdata_init (trdata_zero 0x100000 0x110010))
        [put_call.buffer 0x1234 16 2 3 true, put_call.u32 7] = .ok s ∧
      s.buffers_size
        = (trdata_buffer_lengths (trdata_init (trdata_zero 0x100000 0x110010))
            [put_call.buffer 0x1234 16 2 3 true, put_call.u32 7]).sum % WORD :=
  trdata_put_buffer_spec (trdata_init (trdata_zero 0x100000 0x110010)) 0x1234 16 2 3 true
    (trdata_zero 0x100000 0x110010) [put_call.buffer 0x1234 16 2 3 true, put_call.u32 7]
    (trdata_init_wf _
      (trdata_zero_arrays _ _ (by unfold WORD; decide) (by unfold WORD; decide)))
    (trdata_zero_arrays _ _ (by unfold WORD; decide) (by unfold WORD; decide))
    (by
      intro c hc
      simp only [List.mem_cons, List.mem_singleton, List.not_mem_nil, or_false] at hc
      rcases hc with hc | hc <;> rw [hc] <;> trivial)

/-- C18 (counterexample): two descriptors of declared length `2 ^ 63` are put into a
fresh builder; both are allocated (the offsets table has two entries), the sum of
their lengths is `2 ^ 64`, and `buffers_size` is 0. -/
theorem trdata_buffers_size_wraps :
    ∃ s, trdata_run (trdata_init (trdata_zero 0x100000 0x110010))
        [put_call.buffer 0 (2 ^ 63) 0 0 false, put_call.buffer 0 (2 ^ 63) 0 0 false] = .ok s ∧
      trdata_buffer_lengths (trdata_init (trdata_zero 0x100000 0x110010))
        [put_call.buffer 0 (2 ^ 63) 0 0 false, put_call.buffer 0 (2 ^ 63) 0 0 false]
        = [2 ^ 63, 2 ^ 63] ∧
      trdata_count s = 2 ∧ s.buffers_size = 0 ∧ (2 ^ 63 + 2 ^ 63 : Nat) ≠ 0 := by
  have hwf := trdata_init_wf _
    (trdata_zero_arrays 0x100000 0x110010 (by unfold WORD; decide) (by unfold WORD; decide))
  obtain ⟨c0, a0, b0⟩ : trdata_count (trdata_init (trdata_zero 0x100000 0x110010)) = 0 ∧
      (trdata_init (trdata_zero 0x100000 0x110010)).data_avail = 0x10000 ∧
      (trdata_init (trdata_zero 0x100000 0x110010)).buffers_size = 0 :=
    ⟨(trdata_init_fresh _).2, rfl, rfl⟩
  generalize trdata_init (trdata_zero 0x100000 0x110010) = t at hwf c0 a0 b0
  obtain ⟨s1, r1, w1, _, _, _, g1, g4, g2, g3, _⟩ :=
    trdata_put_buffer_fits t 0 (2 ^ 63) 0 0 false hwf (by omega)
  obtain ⟨s2, r2, _, _, _, _, h1, h4, _, h3, _⟩ :=
    trdata_put_buffer_fits s1 0 (2 ^ 63) 0 0 false w1 (by omega)
  have r1' : trdata_put t (put_call.buffer 0 (2 ^ 63) 0 0 false) = .ok s1 := r1
  have r2' : trdata_put s1 (put_call.buffer 0 (2 ^ 63) 0 0 false) = .ok s2 := r2
  have n1 : ¬ s1.data_ptr = t.data_ptr := by omega
  have n2 : ¬ s2.data_ptr = s1.data_ptr := by omega
  refine ⟨s2, ?_, ?_, by omega, ?_, by norm_num⟩
  · rw [trdata_run, r1']
    dsimp only
    rw [trdata_run, r2']
    rfl
  · rw [trdata_buffer_lengths, r1']
    dsimp only
    rw [if_neg n1, trdata_buffer_lengths, r2']
    dsimp only
    rw [if_neg n2]
    rfl
  · rw [h3, g3, b0]
    unfold WORD
    norm_num

/-! ### Notifications and the transaction record -/

theorem acks_single (r : record) :
    (acks [r]).length
      = if r.cmd = BR_ACQUIRE ∨ r.cmd = BR_INCREFS ∨ r.cmd = BR_DEAD_BINDER then 1 else 0 := by
  have e : acks [r] = match ack_of r with
      | none => []
      | some w => [w] := by
    unfold acks
    rw [List.filterMap_cons]
    cases ack_of r <;> rfl
  rw [e]
  unfold ack_of
  by_cases h1 : r.cmd = BR_INCREFS
  · rw [if_pos h1, if_pos (Or.inr (Or.inl h1))]
    rfl
  · by_cases h2 : r.cmd = BR_ACQUIRE
    · rw [if_neg h1, if_pos h2, if_pos (Or.inl h2)]
      rfl
    · by_cases h3 : r.cmd = BR_DEAD_BINDER
      · rw [if_neg h1, if_neg h2, if_pos h3, if_pos (Or.inr (Or.inr h3))]
        rfl
      · rw [if_neg h1, if_neg h2, if_neg h3, if_neg (fun h => h.elim h2 (fun h => h.elim h1 h3))]
        rfl

theorem acks_length (rs : List record) :
    (acks rs).length
      = rs.countP (fun r => decide (r.cmd = BR_ACQUIRE ∨ r.cmd = BR_INCREFS ∨
          r.cmd = BR_DEAD_BINDER)) := by
  induction rs with
  | nil => rfl
  | cons r rs ih =>
    rw [acks_cons, List.length_append, ih, List.countP_cons, Nat.add_comm, acks_single]
    simp only [decide_eq_true_eq]

theorem ack_of_release (r : record) (h : r.cmd = BR_RELEASE ∨ r.cmd = BR_DECREFS) :
    ack_of r = none := by
  unfold ack_of
  rcases h with h | h <;> rw [h] <;>
    rw [if_neg (by decide), if_neg (by decide), if_neg (by decide)]

/-- C19 (amended): while `binder_skip_cmds` scans the well-formed records before the
first transaction or reply record, it makes exactly one acknowledgement exchange for
each `BR_ACQUIRE`, `BR_INCREFS` and `BR_DEAD_BINDER` record, in stream order, so the
number of exchanges is the number of these records; a `BR_RELEASE` or `BR_DECREFS`
record asks for no acknowledgement and is skipped without an exchange. -/
theorem binder_skip_cmds_ack_count (pre : List record) (txn : record) (rest : List Nat)
    (replies tail : List ioctl_reply) (ctx : binder_ctx) (buf : buf_t)
    (txnin : translated_data_t) (fuel : Nat)
    (hpre : ∀ r ∈ pre, r.ok ∧ ¬ r.is_transaction) (htxn : txn.ok ∧ txn.is_transaction)
    (hbuf : buf_holds buf (stream_bytes pre ++ (txn.bytes ++ rest)))
    (hack : ctx.mem.ack_buf + BUF_CAPACITY < WORD)
    (hscript : ctx.script = replies ++ tail) (hreplies : replies.length = (acks pre).length)
    (hfuel : pre.length < fuel) :
    (∃ buf1 txnin1, binder_skip_cmds fuel ctx buf txnin
      = .ok (1, { ctx with script := tail, log := ctx.log ++ (acks pre).map write_request },
          buf1, txnin1)) ∧
    ((acks pre).map write_request).length
      = pre.countP (fun r => decide (r.cmd = BR_ACQUIRE ∨ r.cmd = BR_INCREFS ∨
          r.cmd = BR_DEAD_BINDER)) ∧
    (∀ r ∈ pre, r.cmd = BR_RELEASE ∨ r.cmd = BR_DECREFS → ack_of r = none) ∧
    ∀ r ∈ pre, r.cmd = BR_ACQUIRE ∨ r.cmd = BR_INCREFS ∨ r.cmd = BR_DEAD_BINDER →
      ∃ w, ack_of r = some w := by
  refine ⟨⟨_, _, binder_skip_cmds_scan_found pre txn rest replies tail ctx buf txnin fuel hpre
    htxn hbuf hack hscript hreplies hfuel⟩, ?_, fun r _ h => ack_of_release r h, ?_⟩
  · rw [List.length_map]
    exact acks_length pre
  · intro r _ h
    unfold ack_of
    by_cases h1 : r.cmd = BR_INCREFS
    · exact ⟨_, if_pos h1⟩
    · by_cases h2 : r.cmd = BR_ACQUIRE
      · rw [if_neg h1, if_pos h2]
        exact ⟨_, rfl⟩
      · have h3 : r.cmd = BR_DEAD_BINDER := by
          rcases h with h | h | h
          · exact absurd h h2
          · exact absurd h h1
          · exact h
        rw [if_neg h1, if_neg h2, if_pos h3]
        exact ⟨_, rfl⟩

/-- Witness for `binder_skip_cmds_ack_count`: `BR_RELEASE` and `BR_INCREFS`
before a transaction cause the single exchange of `BC_INCREFS_DONE`. -/
theorem binder_skip_cmds_ack_count_witness :
    ((∃ buf1 txnin1, binder_skip_cmds 3
        { script := [reply_written 20] ++ [], log := [], mem := example_addresses }
        (buf_received 0x7000
          (stream_bytes [example_release, example_increfs]
            ++ (example_txn_record.bytes ++ [])))
        txnin_zero
      = .ok (1,
          { script := [],
            log := [] ++ (acks [example_release, example_increfs]).map
              write_request,
            mem := example_addresses },
          buf1, txnin1)) ∧
    ((acks [example_release, example_increfs]).map write_request).length
      = [example_release, example_increfs].countP
          (fun r => decide (r.cmd = BR_ACQUIRE ∨ r.cmd = BR_INCREFS ∨
            r.cmd = BR_DEAD_BINDER)) ∧
    (∀ r ∈ [example_release, example_increfs],
      r.cmd = BR_RELEASE ∨ r.cmd = BR_DECREFS → ack_of r = none) ∧
    ∀ r ∈ [example_release, example_increfs],
      r.cmd = BR_ACQUIRE ∨ r.cmd = BR_INCREFS ∨ r.cmd = BR_DEAD_BINDER →
        ∃ w, ack_of r = some w) ∧
    (acks [example_release, example_increfs]).map write_request
      = [write_request (le_bytes 4 BC_INCREFS_DONE ++ le_bytes 8 0x10 ++ le_bytes 8 0x20)] :=
  ⟨binder_skip_cmds_ack_count [example_release, example_increfs]
      example_txn_record [] [reply_written 20] []
      { script := [reply_written 20] ++ [], log := [], mem := example_addresses }
      (buf_received 0x7000
        (stream_bytes [example_release, example_increfs]
          ++ (example_txn_record.bytes ++ [])))
      txnin_zero 3
      (by
        intro r hr
        simp only [List.mem_cons, List.mem_singleton, List.not_mem_nil, or_false] at hr
        rcases hr with hr | hr <;> subst hr <;>
          exact ⟨⟨by decide, by decide, by decide⟩, by decide⟩)
      ⟨⟨by decide, by decide, by decide⟩, by decide⟩
      (buf_received_holds _ _ (by decide) (by unfold WORD; decide))
      (by unfold WORD; decide) rfl (by decide) (by decide),
    by decide⟩

/-- C19 (counterexample): the receive buffer holds `BR_RELEASE(0x10, 0x20)` and a
transaction, and the driver has no reply left to give.  `binder_skip_cmds` scans the
notification and returns the transaction without any exchange. -/
theorem binder_skip_cmds_release_not_acknowledged :
    example_release.cmd = BR_RELEASE ∧
    binder_skip_cmds 2 { script := [], log := [], mem := example_addresses }
        (buf_received 0x7000 (stream_bytes [example_release] ++ (example_txn_record.bytes ++ [])))
        txnin_zero
      = .ok (1, { script := [], log := [], mem := example_addresses },
          { buf_received 0x7000
              (stream_bytes [example_release] ++ (example_txn_record.bytes ++ [])) with
            ptr := 0x7000 + (stream_bytes [example_release]).length + 4
              + example_txn_record.payload.length },
          txnin_init txnin_zero example_transaction) := by
  refine ⟨rfl, ?_⟩
  rw [binder_skip_cmds_scan_found [example_release] example_txn_record [] [] []
    { script := [], log := [], mem := example_addresses } _ txnin_zero 2
    (by
      intro r hr
      rw [List.mem_singleton] at hr
      subst hr
      exact ⟨⟨by decide, by decide, by decide⟩, by decide⟩)
    ⟨⟨by decide, by decide, by decide⟩, by decide⟩
    (buf_received_holds _ _ (by decide) (by unfold WORD; decide))
    (by unfold WORD; decide) rfl (by decide) (by decide)]
  have e : transaction_data_of_bytes example_txn_record.payload = example_transaction := by
    decide
  have a : (acks [example_release]).map write_request = [] := by decide
  rw [e, a]
  rfl

theorem le_bytes_lt (k : Nat) : ∀ (v : Nat), ∀ x ∈ le_bytes k v, x < 256 := by
  induction k with
  | zero => intro v x hx; cases hx
  | succ k ih =>
    intro v x hx
    rw [le_bytes, List.mem_cons] at hx
    rcases hx with hx | hx
    · rw [hx]
      exact Nat.mod_lt _ (by norm_num)
    · exact ih _ x hx

theorem transaction_data_bytes_lt (tr : binder_transaction_data) :
    ∀ x ∈ transaction_data_bytes tr, x < 256 := by
  intro x hx
  unfold transaction_data_bytes at hx
  simp only [List.mem_append] at hx
  rcases hx with ((((((((hx | hx) | hx) | hx) | hx) | hx) | hx) | hx) | hx) | hx <;>
    exact le_bytes_lt _ _ x hx

theorem transaction_data_round_trip (tr : binder_transaction_data) (h : tr.ok) :
    transaction_data_of_bytes (transaction_data_bytes tr) = tr := by
  obtain ⟨h1, h2, h3, h4, h5, h6, h7, h8, h9, h10⟩ := h
  have p8 : (256 : Nat) ^ 8 = 2 ^ 64 := by norm_num
  have p4 : (256 : Nat) ^ 4 = 2 ^ 32 := by norm_num
  have hb : transaction_data_bytes tr
      = le_bytes 8 tr.target ++ (le_bytes 8 tr.cookie ++ (le_bytes 4 tr.code ++
          (le_bytes 4 tr.flags ++ (le_bytes 4 tr.sender_pid ++ (le_bytes 4 tr.sender_euid ++
            (le_bytes 8 tr.data_size ++ (le_bytes 8 tr.offsets_size ++
              (le_bytes 8 tr.buffer ++ le_bytes 8 tr.offsets)))))))) := by
    unfold transaction_data_bytes
    simp only [List.append_assoc]
  have d8 := @List.drop_left' Nat (le_bytes 8 tr.target)
    (le_bytes 8 tr.cookie ++ (le_bytes 4 tr.code ++
      (le_bytes 4 tr.flags ++ (le_bytes 4 tr.sender_pid ++ (le_bytes 4 tr.sender_euid ++
        (le_bytes 8 tr.data_size ++ (le_bytes 8 tr.offsets_size ++
          (le_bytes 8 tr.buffer ++ le_bytes 8 tr.offsets))))))))
    8 (le_bytes_length 8 tr.target)
  rw [← hb] at d8
  have d16 : (transaction_data_bytes tr).drop 16 = _ :=
    ((List.drop_drop 8 8 (transaction_data_bytes tr)).symm.trans (congrArg (List.drop 8) d8)).trans
      (List.drop_left' (le_bytes_length 8 tr.cookie))
  have d20 : (transaction_data_bytes tr).drop 20 = _ :=
    ((List.drop_drop 4 16 (transaction_data_bytes tr)).symm.trans (congrArg (List.drop 4) d16)).trans
      (List.drop_left' (le_bytes_length 4 tr.code))
  have d24 : (transaction_data_bytes tr).drop 24 = _ :=
    ((List.drop_drop 4 20 (transaction_data_bytes tr)).symm.trans (congrArg (List.drop 4) d20)).trans
      (List.drop_left' (le_bytes_length 4 tr.flags))
  have d28 : (transaction_data_bytes tr).drop 28 = _ :=
    ((List.drop_drop 4 24 (transaction_data_bytes tr)).symm.trans (congrArg (List.drop 4) d24)).trans
      (List.drop_left' (le_bytes_length 4 tr.sender_pid))
  have d32 : (transaction_data_bytes tr).drop 32 = _ :=
    ((List.drop_drop 4 28 (transaction_data_bytes tr)).symm.trans (congrArg (List.drop 4) d28)).trans
      (List.drop_left' (le_bytes_length 4 tr.sender_euid))
  have d40 : (transaction_data_bytes tr).drop 40 = _ :=
    ((List.drop_drop 8 32 (transaction_data_bytes tr)).symm.trans (congrArg (List.drop 8) d32)).trans
      (List.drop_left' (le_bytes_length 8 tr.data_size))
  have d48 : (transaction_data_bytes tr).drop 48 = _ :=
    ((List.drop_drop 8 40 (transaction_data_bytes tr)).symm.trans (congrArg (List.drop 8) d40)).trans
      (List.drop_left' (le_bytes_length 8 tr.offsets_size))
  have d56 : (transaction_data_bytes tr).drop 56 = _ :=
    ((List.drop_drop 8 48 (transaction_data_bytes tr)).symm.trans (congrArg (List.drop 8) d48)).trans
      (List.drop_left' (le_bytes_length 8 tr.buffer))
  have f1 : le_value ((transaction_data_bytes tr).take 8) = tr.target := by
    rw [hb, List.take_left' (le_bytes_length 8 _), le_value_le_bytes, p8, Nat.mod_eq_of_lt h1]
  have f2 : le_value (((transaction_data_bytes tr).drop 8).take 8) = tr.cookie := by
    rw [d8, List.take_left' (le_bytes_length 8 _), le_value_le_bytes, p8, Nat.mod_eq_of_lt h2]
  have f3 : le_value (((transaction_data_bytes tr).drop 16).take 4) = tr.code := by
    rw [d16, List.take_left' (le_bytes_length 4 _), le_value_le_bytes, p4, Nat.mod_eq_of_lt h3]
  have f4 : le_value (((transaction_data_bytes tr).drop 20).take 4) = tr.flags := by
    rw [d20, List.take_left' (le_bytes_length 4 _), le_value_le_bytes, p4, Nat.mod_eq_of_lt h4]
  have f5 : le_value (((transaction_data_bytes tr).drop 24).take 4) = tr.sender_pid := by
    rw [d24, List.take_left' (le_bytes_length 4 _), le_value_le_bytes, p4, Nat.mod_eq_of_lt h5]
  have f6 : le_value (((transaction_data_bytes tr).drop 28).take 4) = tr.sender_euid := by
    rw [d28, List.take_left' (le_bytes_length 4 _), le_value_le_bytes, p4, Nat.mod_eq_of_lt h6]
  have f7 : le_value (((transaction_data_bytes tr).drop 32).take 8) = tr.data_size := by
    rw [d32, List.take_left' (le_bytes_length 8 _), le_value_le_bytes, p8, Nat.mod_eq_of_lt h7]
  have f8 : le_value (((transaction_data_bytes tr).drop 40).take 8) = tr.offsets_size := by
    rw [d40, List.take_left' (le_bytes_length 8 _), le_value_le_bytes, p8, Nat.mod_eq_of_lt h8]
  have f9 : le_value (((transaction_data_bytes tr).drop 48).take 8) = tr.buffer := by
    rw [d48, List.take_left' (le_bytes_length 8 _), le_value_le_bytes, p8, Nat.mod_eq_of_lt h9]
  have f10 : le_value (((transaction_data_bytes tr).drop 56).take 8) = tr.offsets := by
    rw [d56, List.take_of_length_le (by rw [le_bytes_length]), le_value_le_bytes, p8,
      Nat.mod_eq_of_lt h10]
  unfold transaction_data_of_bytes
  rw [f1, f2, f3, f4, f5, f6, f7, f8, f9, f10]

/-- C20: when the unread bytes of the receive buffer are well-formed records `pre`,
none of them a transaction, then a `BR_TRANSACTION` or `BR_REPLY` record carrying the
transaction data `tr`, then any further records, `binder_skip_cmds` returns 1 with the
reader bound to `tr`: `data` and the cursor at `tr.data.ptr.buffer`, `data_avail`
equal to `tr.data_size`, and code, target and cookie those of `tr`.  The exchanges
are the acknowledgements of `pre` only, and the buffer cursor is left just behind the
transaction record, in front of the records that follow. -/
theorem binder_skip_cmds_stops_at_transaction (pre later : List record) (cmd : Nat)
    (tr : binder_transaction_data) (replies tail : List ioctl_reply) (ctx : binder_ctx)
    (buf : buf_t) (txnin : translated_data_t) (fuel : Nat)
    (hpre : ∀ r ∈ pre, r.ok ∧ ¬ r.is_transaction)
    (hcmd : cmd = BR_TRANSACTION ∨ cmd = BR_REPLY) (htr : tr.ok)
    (hbuf : buf_holds buf
      (stream_bytes pre ++ ((record.mk cmd (transaction_data_bytes tr)).bytes
        ++ stream_bytes later)))
    (hack : ctx.mem.ack_buf + BUF_CAPACITY < WORD)
    (hscript : ctx.script = replies ++ tail) (hreplies : replies.length = (acks pre).length)
    (hfuel : pre.length < fuel) :
    binder_skip_cmds fuel ctx buf txnin
      = .ok (1, { ctx with script := tail, log := ctx.log ++ (acks pre).map write_request },
          { buf with ptr := buf.ptr + (stream_bytes pre).length + 4 + SIZEOF_TRANSACTION_DATA },
          { data := tr.buffer, data_ptr := tr.buffer, data_avail := tr.data_size,
            target := tr.target, cookie := tr.cookie, code := tr.code }) ∧
    buf_holds
      { buf with ptr := buf.ptr + (stream_bytes pre).length + 4 + SIZEOF_TRANSACTION_DATA }
      (stream_bytes later) := by
  have hok : (record.mk cmd (transaction_data_bytes tr)).ok := by
    refine ⟨?_, ?_, transaction_data_bytes_lt tr⟩
    · dsimp only
      rcases hcmd with h | h <;> rw [h] <;> decide
    · dsimp only
      rw [transaction_data_bytes_length]
      rcases hcmd with h | h <;> rw [h] <;> decide
  have htxn : (record.mk cmd (transaction_data_bytes tr)).is_transaction := hcmd
  have h1 := binder_skip_cmds_scan_found pre (record.mk cmd (transaction_data_bytes tr))
    (stream_bytes later) replies tail ctx buf txnin fuel hpre ⟨hok, htxn⟩ hbuf hack hscript
    hreplies hfuel
  obtain ⟨_, hh1⟩ := binder_skip_cmds_leading pre 0 ctx buf txnin
    ((record.mk cmd (transaction_data_bytes tr)).bytes ++ stream_bytes later)
    replies tail hpre hbuf hack hscript hreplies
  obtain ⟨_, _, _, _, hh2, _⟩ := record_read _ (record.mk cmd (transaction_data_bytes tr))
    (stream_bytes later) hok hh1
  dsimp only at h1 hh2
  rw [transaction_data_bytes_length] at h1 hh2
  rw [transaction_data_round_trip tr htr] at h1
  exact ⟨h1, hh2⟩

/-- Witness for `binder_skip_cmds_stops_at_transaction`: `BR_INCREFS`, a transaction,
then `BR_DEAD_BINDER`; only the first notification is acknowledged. -/
theorem binder_skip_cmds_stops_at_transaction_witness :
    (binder_skip_cmds 2
        { script := [reply_written 20] ++ [], log := [], mem := example_addresses }
        (buf_received 0x7000
          (stream_bytes [example_increfs]
            ++ ((record.mk BR_TRANSACTION (transaction_data_bytes example_transaction)).bytes
              ++ stream_bytes [example_dead_binder])))
        txnin_zero
      = .ok (1,
          { script := [], log := [] ++ (acks [example_increfs]).map write_request,
            mem := example_addresses },
          { buf_received 0x7000
              (stream_bytes [example_increfs]
                ++ ((record.mk BR_TRANSACTION (transaction_data_bytes example_transaction)).bytes
                  ++ stream_bytes [example_dead_binder])) with
            ptr := 0x7000 + (stream_bytes [example_increfs]).length + 4
              + SIZEOF_TRANSACTION_DATA },
          { data := example_transaction.buffer, data_ptr := example_transaction.buffer,
            data_avail := example_transaction.data_size, target := example_transaction.target,
            cookie := example_transaction.cookie, code := example_transaction.code }) ∧
      buf_holds
        { buf_received 0x7000
            (stream_bytes [example_increfs]
              ++ ((record.mk BR_TRANSACTION (transaction_data_bytes example_transaction)).bytes
                ++ stream_bytes [example_dead_binder])) with
          ptr := 0x7000 + (stream_bytes [example_increfs]).length + 4
            + SIZEOF_TRANSACTION_DATA }
        (stream_bytes [example_dead_binder])) ∧
    (acks [example_increfs]).map write_request
      = [write_request (le_bytes 4 BC_INCREFS_DONE ++ le_bytes 8 0x10 ++ le_bytes 8 0x20)] ∧
    acks [example_dead_binder] ≠ [] :=
  ⟨binder_skip_cmds_stops_at_transaction [example_increfs] [example_dead_binder] BR_TRANSACTION
      example_transaction [reply_written 20] []
      { script := [reply_written 20] ++ [], log := [], mem := example_addresses }
      (buf_received 0x7000
        (stream_bytes [example_increfs]
          ++ ((record.mk BR_TRANSACTION (transaction_data_bytes example_transaction)).bytes
            ++ stream_bytes [example_dead_binder])))
      txnin_zero 2
      (by
        intro r hr
        rw [List.mem_singleton] at hr
        subst hr
        exact ⟨⟨by decide, by decide, by decide⟩, by decide⟩)
      (Or.inl rfl) (by decide)
      (buf_received_holds _ _ (by decide) (by unfold WORD; decide))
      (by unfold WORD; decide) rfl (by decide) (by decide),
    by decide, by decide⟩

/-! ### Records without a case in the scan -/

theorem binder_skip_cmds_body_default (ctx : binder_ctx) (buf : buf_t)
    (txnin : translated_data_t) (r : record) (tl : List Nat) (hok : r.ok)
    (hcode : r.cmd ≠ BR_ACQUIRE ∧ r.cmd ≠ BR_INCREFS ∧ r.cmd ≠ BR_DEAD_BINDER ∧
      r.cmd ≠ BR_TRANSACTION ∧ r.cmd ≠ BR_REPLY)
    (hh : buf_holds buf (r.bytes ++ tl)) :
    binder_skip_cmds_body ctx buf txnin
        = .ok (none, ctx, { buf with ptr := buf.ptr + 4 + _IOC_SIZE r.cmd }, txnin) ∧
      buf_holds { buf with ptr := buf.ptr + 4 + _IOC_SIZE r.cmd } tl := by
  obtain ⟨_, hu, hr, hcap, hh2, _⟩ := record_read buf r tl hok hh
  obtain ⟨c1, c2, c3, c4, c5⟩ := hcode
  rw [hok.2.1] at hr hh2
  refine ⟨?_, hh2⟩
  have h12 : ¬ (r.cmd = BR_ACQUIRE ∨ r.cmd = BR_INCREFS) := fun h => h.elim c1 c2
  have h45 : ¬ (r.cmd = BR_TRANSACTION ∨ r.cmd = BR_REPLY) := fun h => h.elim c4 c5
  unfold binder_skip_cmds_body
  rw [hu]
  dsimp only
  rw [hr]
  dsimp only
  rw [if_neg hcap, if_neg h12, if_neg c3, if_neg h45]

/-- C21: a well-formed record whose code is none of `BR_ACQUIRE`, `BR_INCREFS`,
`BR_DEAD_BINDER`, `BR_TRANSACTION` and `BR_REPLY` makes the loop body of
`binder_skip_cmds` advance the cursor by exactly `4 + _IOC_SIZE(code)` bytes and run to
its end, with the driver (script and log of exchanges) and the reader as they were.
And when the unread bytes of the buffer are well-formed records `pre` none of which is
a transaction or reply, the scan returns 0 with the cursor at the end of the buffer,
`buffer + size`, and the reader as it was; the only exchanges are the acknowledgements
the records of `pre` ask for. -/
theorem binder_skip_cmds_no_transaction (ctx : binder_ctx) (buf : buf_t)
    (txnin : translated_data_t) (r : record) (tl : List Nat)
    (pre : List record) (replies tail : List ioctl_reply) (ctx0 : binder_ctx) (buf0 : buf_t)
    (txnin0 : translated_data_t) (fuel : Nat)
    (hok : r.ok)
    (hcode : r.cmd ≠ BR_ACQUIRE ∧ r.cmd ≠ BR_INCREFS ∧ r.cmd ≠ BR_DEAD_BINDER ∧
      r.cmd ≠ BR_TRANSACTION ∧ r.cmd ≠ BR_REPLY)
    (hh : buf_holds buf (r.bytes ++ tl))
    (hpre : ∀ r ∈ pre, r.ok ∧ ¬ r.is_transaction)
    (hbuf : buf_holds buf0 (stream_bytes pre))
    (hack : ctx0.mem.ack_buf + BUF_CAPACITY < WORD)
    (hscript : ctx0.script = replies ++ tail) (hreplies : replies.length = (acks pre).length)
    (hfuel : pre.length < fuel) :
    (binder_skip_cmds_body ctx buf txnin
        = .ok (none, ctx, { buf with ptr := buf.ptr + 4 + _IOC_SIZE r.cmd }, txnin) ∧
      buf_holds { buf with ptr := buf.ptr + 4 + _IOC_SIZE r.cmd } tl) ∧
    binder_skip_cmds fuel ctx0 buf0 txnin0
      = .ok (0, { ctx0 with script := tail, log := ctx0.log ++ (acks pre).map write_request },
          { buf0 with ptr := buf0.ptr + (stream_bytes pre).length }, txnin0) ∧
    buf0.ptr + (stream_bytes pre).length = buf0.base + buf0.size ∧
    buf_is_empty { buf0 with ptr := buf0.ptr + (stream_bytes pre).length } = 1 := by
  refine ⟨binder_skip_cmds_body_default ctx buf txnin r tl hok hcode hh,
    binder_skip_cmds_scan_none pre replies tail ctx0 buf0 txnin0 fuel hpre hbuf hack hscript
      hreplies hfuel, hbuf.2.1, ?_⟩
  obtain ⟨_, h2, _, h4, h5, _⟩ := hbuf
  unfold buf_is_empty
  dsimp only
  have hsz : BUF_CAPACITY = 512 := rfl
  rw [Nat.mod_eq_of_lt (by omega), if_pos h2.symm]

/-- Witness for `binder_skip_cmds_no_transaction`: the body skips `BR_RELEASE` by
4 + 16 bytes without an exchange, and a buffer holding `BR_NOOP`, `BR_RELEASE` and
`BR_INCREFS` is scanned to its end with the one exchange `BR_INCREFS` asks for. -/
theorem binder_skip_cmds_no_transaction_witness :
    ((binder_skip_cmds_body { script := [], log := [], mem := example_addresses }
          (buf_received 0x7000 (example_release.bytes ++ [])) txnin_zero
        = .ok (none, { script := [], log := [], mem := example_addresses },
            { buf_received 0x7000 (example_release.bytes ++ []) with
              ptr := 0x7000 + 4 + _IOC_SIZE example_release.cmd },
            txnin_zero) ∧
      buf_holds
        { buf_received 0x7000 (example_release.bytes ++ []) with
          ptr := 0x7000 + 4 + _IOC_SIZE example_release.cmd } []) ∧
    binder_skip_cmds 4
        { script := [reply_written 20] ++ [], log := [], mem := example_addresses }
        (buf_received 0x7000 (stream_bytes [example_noop, example_release, example_increfs]))
        txnin_zero
      = .ok (0,
          { script := [],
            log := [] ++ (acks [example_noop, example_release, example_increfs]).map
              write_request,
            mem := example_addresses },
          { buf_received 0x7000
              (stream_bytes [example_noop, example_release, example_increfs]) with
            ptr := 0x7000
              + (stream_bytes [example_noop, example_release, example_increfs]).length },
          txnin_zero) ∧
    0x7000 + (stream_bytes [example_noop, example_release, example_increfs]).length
      = 0x7000
        + (buf_received 0x7000
            (stream_bytes [example_noop, example_release, example_increfs])).size ∧
    buf_is_empty
      { buf_received 0x7000 (stream_bytes [example_noop, example_release, example_increfs]) with
        ptr := 0x7000
          + (stream_bytes [example_noop, example_release, example_increfs]).length } = 1) ∧
    _IOC_SIZE example_release.cmd = 16 ∧ _IOC_SIZE example_noop.cmd = 0 ∧
    (acks [example_noop, example_release, example_increfs]).map write_request
      = [write_request (le_bytes 4 BC_INCREFS_DONE ++ le_bytes 8 0x10 ++ le_bytes 8 0x20)] :=
  ⟨binder_skip_cmds_no_transaction
      { script := [], log := [], mem := example_addresses }
      (buf_received 0x7000 (example_release.bytes ++ [])) txnin_zero example_release []
      [example_noop, example_release, example_increfs] [reply_written 20] []
      { script := [reply_written 20] ++ [], log := [], mem := example_addresses }
      (buf_received 0x7000 (stream_bytes [example_noop, example_release, example_increfs]))
      txnin_zero 4
      ⟨by decide, by decide, by decide⟩
      ⟨by decide, by decide, by decide, by decide, by decide⟩
      (buf_received_holds _ _ (by decide) (by unfold WORD; decide))
      (by
        intro r hr
        simp only [List.mem_cons, List.mem_singleton, List.not_mem_nil, or_false] at hr
        rcases hr with hr | hr | hr <;> subst hr <;>
          exact ⟨⟨by decide, by decide, by decide⟩, by decide⟩)
      (buf_received_holds _ _ (by decide) (by unfold WORD; decide))
      (by unfold WORD; decide) rfl (by decide) (by decide),
    by decide, by decide, by decide⟩

/-! ### Commands that do not fit the wire buffer -/

theorem buf_write_full (b : buf_t) (w d : List Nat) (n : Nat) (h : buf_writing b w)
    (hfit : BUF_CAPACITY < w.length + n) : buf_write b d n = .error .null_deref := by
  obtain ⟨_, h2, h3, h4, h5, _⟩ := h
  have hle : b.size ≤ BUF_CAPACITY := by
    have hl := congrArg List.length h3
    rw [List.length_take, h4, ← h2] at hl
    omega
  have hsub : size_sub b.max_size b.size = b.max_size - b.size :=
    size_sub_of_le (by rw [h5]; exact hle)
  have hlt : size_sub b.max_size b.size < n := by
    rw [hsub, h5]
    omega
  unfold buf_write buf_push
  rw [if_pos hlt]

theorem binder_send_cmd_overflow (ctx : binder_ctx) (cmd : Nat) (d : List Nat) (n a : Nat)
    (hh : ctx.mem.heap_buf = some a) (ha : a + BUF_CAPACITY < WORD)
    (hfit : BUF_CAPACITY < 4 + n) :
    binder_send_cmd ctx cmd (some d) n = .error .null_deref := by
  have hsz : BUF_CAPACITY = 512 := rfl
  obtain ⟨b1, e1, w1⟩ := buf_write_u32_writing _ [] cmd (buf_init_write_writing a ha)
    (by rw [List.length_nil]; omega)
  have e2 : buf_write b1 d n = .error .null_deref :=
    buf_write_full b1 _ d n w1 (by rw [List.nil_append, le_bytes_length]; exact hfit)
  have hn : n > 0 := by omega
  unfold binder_send_cmd
  rw [hh]
  dsimp only
  unfold binder_send_cmd_on
  rw [e1]
  dsimp only
  rw [if_pos hn, e2]

/-- C22: the command `BC_TRANSACTION` with a payload of 509 bytes needs 513 bytes, one
more than the wire buffer has.  `binder_send_cmd` does not return a failure: after the
code is written, `buf_write` is handed the `NULL` that `buf_push` returns and copies
the payload to it.  The call ends there, before the exchange. -/
theorem binder_send_cmd_oversized :
    example_payload.length = 509 ∧ BUF_CAPACITY < 4 + 509 ∧
    buf_write_u32 (buf_init_write (buf_at 0x5000)) BC_TRANSACTION
      = .ok { base := 0x5000
              buffer := le_bytes 4 BC_TRANSACTION ++ List.replicate 508 0
              ptr := 0x5004
              size := 4
              max_size := BUF_CAPACITY } ∧
    buf_push
        { base := 0x5000
          buffer := le_bytes 4 BC_TRANSACTION ++ List.replicate 508 0
          ptr := 0x5004
          size := 4
          max_size := BUF_CAPACITY } 509
      = (none,
          { base := 0x5000
            buffer := le_bytes 4 BC_TRANSACTION ++ List.replicate 508 0
            ptr := 0x5004
            size := 4
            max_size := BUF_CAPACITY }) ∧
    binder_send_cmd { script := [reply_written 513], log := [], mem := example_addresses }
        BC_TRANSACTION (some example_payload) 509
      = .error .null_deref := by
  refine ⟨List.length_replicate _ _, by decide, ?_, ?_, ?_⟩
  · have hs : size_sub BUF_CAPACITY 0 = 512 := by decide
    unfold buf_write_u32 buf_push buf_init_write buf_init buf_at
    dsimp only
    rw [hs, if_neg (by decide)]
    dsimp only
    unfold buf_store
    dsimp only
    rw [if_pos ⟨by decide, by rw [le_bytes_length, List.length_replicate]; decide⟩]
    have e1 : (0x5000 + 4) % WORD = 0x5004 := by unfold WORD; decide
    have e2 : (0 + 4) % WORD = 4 := by unfold WORD; decide
    have e3 : 0x5000 - 0x5000 = 0 := rfl
    rw [e1, e2, e3, le_bytes_length, List.take_zero, List.nil_append, Nat.zero_add]
    have e4 : List.drop 4 (List.replicate BUF_CAPACITY 0) = List.replicate 508 0 := by
      rw [List.drop_replicate]
      rfl
    rw [e4]
  · have hs : size_sub BUF_CAPACITY 4 = 508 := by decide
    unfold buf_push
    dsimp only
    rw [hs, if_pos (by decide)]
  · exact binder_send_cmd_overflow _ BC_TRANSACTION example_payload 509 0x5000 rfl
      (by unfold WORD; decide) (by decide)

/-! ### A UTF-16 string that does not fit -/

theorem trdata_put_str16_body_full (t : translation_data_t) (s : List Nat) (len : Nat)
    (hwf : trdata_wf t) (hlen : strlen s = some len) (hsz : 2 * (len + 1) + 3 < WORD)
    (h4 : 4 ≤ t.data_avail) (hbody : t.data_avail - 4 < (2 * (len + 1) + 3) / 4 * 4) :
    ∃ s1, trdata_put_str16 t s = .ok s1 ∧ s1.data_ptr = t.data_ptr + 4 ∧
      s1.data_avail = t.data_avail - 4 ∧ region s1.data (trdata_used t) 4 = le_bytes 4 len ∧
      s1.offs = t.offs ∧ s1.offs_ptr = t.offs_ptr ∧ s1.offs_avail = t.offs_avail := by
  have hc : (put_call.str16 s).ok := by
    rw [put_call.ok, hlen]
    exact hsz
  obtain ⟨hput, _⟩ := trdata_put_effects t (put_call.str16 s) hwf hc
  rw [trdata_put, put_call.steps, hlen] at hput
  dsimp only at hput
  obtain ⟨_, hfits⟩ := effect_plain_bytes t 4 (le_bytes 4 len) hwf (by rw [le_bytes_length])
  obtain ⟨g1, g2, g3, g4, g5, g6⟩ := hfits (by omega)
  rw [le_bytes_length] at g1
  have hsecond : alloc_store.effect
      ⟨2 * (len + 1), false, none,
        chars_fields 2 0 ((s.take len).map char_to_uint16) ++ [(2 * len, le_bytes 2 0)]⟩
      (alloc_store.effect ⟨4, false, none, [(0, le_bytes 4 len)]⟩ t)
        = alloc_store.effect ⟨4, false, none, [(0, le_bytes 4 len)]⟩ t := by
    have hno : ¬ (2 * (len + 1) + 3) / 4 * 4
        ≤ (alloc_store.effect ⟨4, false, none, [(0, le_bytes 4 len)]⟩ t).data_avail := by
      rw [g3]
      omega
    generalize alloc_store.effect ⟨4, false, none, [(0, le_bytes 4 len)]⟩ t = t1 at hno
    unfold alloc_store.effect
    dsimp only
    rw [if_neg hno]
  rw [effects, effects, effects, hsecond] at hput
  exact ⟨_, hput, g2, g3, g1, g4, g5, g6⟩

/-- C23: a string of 32767 characters is put as UTF-16 into a fresh builder.  Its
encoding, 4 + 2 * 32767 + 2 bytes, is longer than the 65536 bytes of the arena, yet the
call is not a no-op: `trdata_put_u32` has stored the length word and moved the cursor
before the allocation for the characters fails, so afterwards `data_ptr` is 4 further
on, `data_avail` is 65532 and the arena starts with that word. -/
theorem trdata_put_str16_length_only :
    strlen example_long_string = some 32767 ∧
    (trdata_init (trdata_zero 0x100000 0x110010)).data_ptr = 0x100000 ∧
    (trdata_init (trdata_zero 0x100000 0x110010)).data_avail = 65536 ∧
    (trdata_init (trdata_zero 0x100000 0x110010)).data_avail < 4 + 2 * 32767 + 2 ∧
    ∃ s, trdata_put_str16 (trdata_init (trdata_zero 0x100000 0x110010)) example_long_string
        = .ok s ∧
      s.data_ptr = 0x100004 ∧ s.data_avail = 65532 ∧ region s.data 0 4 = le_bytes 4 32767 ∧
      s.offs_ptr = (trdata_init (trdata_zero 0x100000 0x110010)).offs_ptr := by
  have hlen : strlen example_long_string = some 32767 := by
    unfold example_long_string
    rw [strlen_append (List.replicate 32767 0x61) []
      (fun c hc => by rw [List.eq_of_mem_replicate hc]; decide), List.length_replicate]
  have hwf : trdata_wf (trdata_init (trdata_zero 0x100000 0x110010)) :=
    trdata_init_wf _ (trdata_zero_arrays 0x100000 0x110010 (by unfold WORD; decide)
      (by unfold WORD; decide))
  have hav : (trdata_init (trdata_zero 0x100000 0x110010)).data_avail = 65536 := rfl
  have hptr : (trdata_init (trdata_zero 0x100000 0x110010)).data_ptr = 0x100000 := rfl
  obtain ⟨s, hput, g1, g2, g3, _, g5, _⟩ :=
    trdata_put_str16_body_full (trdata_init (trdata_zero 0x100000 0x110010)) example_long_string
      32767 hwf hlen (by unfold WORD; decide) (by rw [hav]; decide) (by rw [hav]; decide)
  have hused : trdata_used (trdata_init (trdata_zero 0x100000 0x110010)) = 0 :=
    (trdata_init_fresh _).1
  rw [hused] at g3
  rw [hptr] at g1
  rw [hav] at g2
  exact ⟨hlen, hptr, hav, by rw [hav]; decide, s, hput, g1, g2, g3, g5⟩

/-! ### Requests close to the largest `size_t` -/

theorem trdata_alloc_within (t : translation_data_t) (size : Nat) (obj : Bool) (p : Nat)
    (t1 : translation_data_t) (hwf : trdata_wf t) (hs : size + 3 < WORD)
    (h : trdata_alloc t size obj = .ok (some p, t1)) :
    size ≤ t.data_avail ∧ trdata_used t + size ≤ DATA_CAPACITY := by
  by_cases hfit : (size + 3) / 4 * 4 > t.data_avail
  · rw [trdata_alloc_full t size obj hs hfit] at h
    cases h
  · obtain ⟨_, w1, w2, _⟩ := hwf
    unfold trdata_used
    omega

theorem txnin_pop_within (r : translated_data_t) (size p : Nat) (r1 : translated_data_t)
    (hs : size + 3 < WORD) (h : txnin_pop r size = (some p, r1)) : size ≤ r.data_avail := by
  unfold txnin_pop at h
  rw [PAD_SIZE_UNSAFE_of_lt size hs] at h
  dsimp only at h
  by_cases hfit : (size + 3) / 4 * 4 > r.data_avail
  · rw [if_pos hfit] at h
    cases h
  · omega

/-- C24: requests within 3 of the largest `size_t` succeed although nothing of that size
exists.  On a fresh builder `trdata_alloc(trdata, SIZE_MAX - 2, false)` returns the
cursor, while the 65536 bytes of the arena cannot hold the request and the request is
larger than `data_avail`; `trdata_put_bytes` with the length `SIZE_MAX` allocates in the
same way and then copies out of bounds; and `txnin_pop(txnin, SIZE_MAX - 1)` on a reader
with 8 bytes left returns the cursor.  In each case the padded size wraps to 0. -/
theorem trdata_txnin_request_wraps :
    PAD_SIZE_UNSAFE (WORD - 3) = 0 ∧ PAD_SIZE_UNSAFE (WORD - 2) = 0 ∧
    trdata_alloc (trdata_init (trdata_zero 0x100000 0x110010)) (WORD - 3) false
      = .ok (some 0x100000, trdata_init (trdata_zero 0x100000 0x110010)) ∧
    ¬ trdata_used (trdata_init (trdata_zero 0x100000 0x110010)) + (WORD - 3) ≤ DATA_CAPACITY ∧
    (trdata_init (trdata_zero 0x100000 0x110010)).data_avail < WORD - 3 ∧
    trdata_put_bytes (trdata_init (trdata_zero 0x100000 0x110010)) hello (WORD - 1)
      = .error .out_of_bounds ∧
    txnin_pop
        { data := 0x7f0000, data_ptr := 0x7f0000, data_avail := 8, target := 0, cookie := 0,
          code := 0 }
        (WORD - 2)
      = (some 0x7f0000,
          { data := 0x7f0000, data_ptr := 0x7f0000, data_avail := 8, target := 0, cookie := 0,
            code := 0 }) ∧
    ¬ WORD - 2 ≤ 8 := by
  have hp3 : PAD_SIZE_UNSAFE (WORD - 3) = 0 := by unfold PAD_SIZE_UNSAFE WORD; decide
  have hp2 : PAD_SIZE_UNSAFE (WORD - 2) = 0 := by unfold PAD_SIZE_UNSAFE WORD; decide
  have hp1 : PAD_SIZE_UNSAFE (WORD - 1) = 0 := by unfold PAD_SIZE_UNSAFE WORD; decide
  have halloc : ∀ size, PAD_SIZE_UNSAFE size = 0 →
      trdata_alloc (trdata_init (trdata_zero 0x100000 0x110010)) size false
        = .ok (some 0x100000, trdata_init (trdata_zero 0x100000 0x110010)) := by
    intro size hp
    have h := trdata_alloc_plain (trdata_init (trdata_zero 0x100000 0x110010)) size
      (by rw [hp]; exact Nat.zero_le _)
      (by rw [hp]; simp only [trdata_init, trdata_zero, WORD]; norm_num)
    rw [h, hp]
    rfl
  refine ⟨hp3, hp2, halloc _ hp3, ?_, ?_, ?_, ?_, ?_⟩
  · simp only [trdata_used, trdata_init, trdata_zero, DATA_CAPACITY, WORD]
    omega
  · simp only [trdata_init, DATA_CAPACITY, WORD]
    omega
  · unfold trdata_put_bytes
    rw [halloc _ hp1]
    dsimp only
    have hl : ¬ WORD - 1 ≤ hello.length := by
      unfold WORD hello
      decide
    rw [if_neg hl]
  · unfold txnin_pop PAD_SIZE_UNSAFE size_sub WORD
    decide
  · unfold WORD
    decide

/-! ### Occupancy of the offsets table -/

/-- C25: on a builder that was just initialised, every sequence of put operations runs
to its end, and afterwards each entry of the offsets table accounts for at least 24
used bytes of the data arena: `24 * entries <= used <= 65536`.  So there are at most
2730 entries, fewer than the 4096 the table has room for, `offs_avail` is the exact
number of free entries (`offs_avail + entries = 4096`), it is at least 1366, and no
decrement of it wraps. -/
theorem trdata_offsets_within_capacity (t0 : translation_data_t) (calls : List put_call)
    (harrays : trdata_arrays t0) (hcalls : ∀ c ∈ calls, c.ok) :
    ∃ s, trdata_run (trdata_init t0) calls = .ok s ∧
      24 * trdata_count s ≤ trdata_used s ∧ trdata_used s ≤ DATA_CAPACITY ∧
      trdata_count s ≤ 2730 ∧ 2730 < OFFS_CAPACITY ∧
      s.offs_avail + trdata_count s = OFFS_CAPACITY ∧ 1366 ≤ s.offs_avail ∧
      s.offs_ptr + 8 ≤ s.offs_base + 8 * OFFS_CAPACITY := by
  obtain ⟨hrun, hwf⟩ := trdata_run_effects calls (trdata_init t0) (trdata_init_wf t0 harrays) hcalls
  refine ⟨_, hrun, ?_⟩
  obtain ⟨_, w1, w2, _, w4, w5, w6, w7, _⟩ := hwf
  have hD : DATA_CAPACITY = 0x10000 := rfl
  have hO : OFFS_CAPACITY = 0x1000 := rfl
  unfold trdata_count trdata_used
  generalize effects (calls.flatMap put_call.steps) (trdata_init t0) = s at *
  omega

/-- Witness for `trdata_offsets_within_capacity`: a local reference, a UTF-16 string
and a weak handle put into a fresh builder. -/
theorem trdata_offsets_within_capacity_witness :
    ∃ s, trdata_run (trdata_init (trdata_zero 0x100000 0x110010))
        [put_call.binder 0xdead true, put_call.str16 [0x68, 0x69, 0], put_call.handle 5 false]
          = .ok s ∧
      24 * trdata_count s ≤ trdata_used s ∧ trdata_used s ≤ DATA_CAPACITY ∧
      trdata_count s ≤ 2730 ∧ 2730 < OFFS_CAPACITY ∧
      s.offs_avail + trdata_count s = OFFS_CAPACITY ∧ 1366 ≤ s.offs_avail ∧
      s.offs_ptr + 8 ≤ s.offs_base + 8 * OFFS_CAPACITY :=
  trdata_offsets_within_capacity (trdata_zero 0x100000 0x110010)
    [put_call.binder 0xdead true, put_call.str16 [0x68, 0x69, 0], put_call.handle 5 false]
    (trdata_zero_arrays 0x100000 0x110010 (by unfold WORD; decide) (by unfold WORD; decide))
    (by
      intro c hc
      simp only [List.mem_cons, List.mem_singleton, List.not_mem_nil, or_false] at hc
      rcases hc with hc | hc | hc
      · rw [hc]; trivial
      · rw [hc]
        show 2 * (2 + 1) + 3 < WORD
        unfold WORD
        decide
      · rw [hc]; trivial)

/-! ### Termination of the scan -/

theorem buf_pop_load (b : buf_t) (n p : Nat) (b1 : buf_t) (bytes : List Nat)
    (h : buf_scanning b) (hp : buf_pop b n = (some p, b1)) (hl : buf_load b1 p n = .ok bytes) :
    b1 = { b with ptr := b.ptr + n } ∧ b.ptr + n ≤ b.base + b.size := by
  obtain ⟨h1, h2, h3, h4⟩ := h
  unfold buf_pop at hp
  by_cases hc : (b.base + b.size) % WORD < (b.ptr + n) % WORD
  · rw [if_pos hc] at hp
    cases hp
  · rw [if_neg hc] at hp
    rw [Prod.mk.injEq, Option.some.injEq] at hp
    obtain ⟨hp1, hp2⟩ := hp
    rw [← hp1, ← hp2] at hl
    unfold buf_load at hl
    dsimp only at hl
    by_cases hin : b.base ≤ b.ptr ∧ b.ptr + n ≤ b.base + b.buffer.length
    · have e1 : (b.ptr + n) % WORD = b.ptr + n := Nat.mod_eq_of_lt (by omega)
      have e2 : (b.base + b.size) % WORD = b.base + b.size := Nat.mod_eq_of_lt (by omega)
      rw [e1, e2] at hc
      rw [e1] at hp2
      exact ⟨hp2.symm, by omega⟩
    · rw [if_neg hin] at hl
      cases hl

theorem buf_read_u32_scanning (b : buf_t) (v : Nat) (b1 : buf_t) (h : buf_scanning b)
    (hr : buf_read_u32 b = .ok (v, b1)) :
    b1 = { b with ptr := b.ptr + 4 } ∧ b.ptr + 4 ≤ b.base + b.size := by
  unfold buf_read_u32 at hr
  cases hp : buf_pop b 4 with
  | mk o b2 =>
    rw [hp] at hr
    cases o with
    | none => cases hr
    | some p =>
      dsimp only at hr
      cases hl : buf_load b2 p 4 with
      | error e =>
        rw [hl] at hr
        cases hr
      | ok bytes =>
        rw [hl] at hr
        dsimp only at hr
        rw [Except.ok.injEq, Prod.mk.injEq] at hr
        rw [← hr.2]
        exact buf_pop_load b 4 p b2 bytes h hp hl

theorem buf_read_scanning (b : buf_t) (n : Nat) (bytes : List Nat) (b1 : buf_t)
    (h : buf_scanning b) (hr : buf_read b n = .ok (bytes, b1)) :
    b1 = { b with ptr := b.ptr + n } ∧ b.ptr + n ≤ b.base + b.size := by
  unfold buf_read at hr
  cases hp : buf_pop b n with
  | mk o b2 =>
    rw [hp] at hr
    cases o with
    | none => cases hr
    | some p =>
      dsimp only at hr
      cases hl : buf_load b2 p n with
      | error e =>
        rw [hl] at hr
        cases hr
      | ok bytes2 =>
        rw [hl] at hr
        dsimp only at hr
        rw [Except.ok.injEq, Prod.mk.injEq] at hr
        rw [← hr.2]
        exact buf_pop_load b n p b2 bytes2 h hp hl

theorem buf_load_no_fuel (b : buf_t) (a n : Nat) (e : Err) (h : buf_load b a n = .error e) :
    e ≠ Err.fuel := by
  unfold buf_load at h
  split at h
  · cases h
  · rw [Except.error.injEq] at h
    rw [← h]
    decide

theorem buf_store_no_fuel (b : buf_t) (a : Nat) (bytes : List Nat) (e : Err)
    (h : buf_store b a bytes = .error e) : e ≠ Err.fuel := by
  unfold buf_store at h
  split at h
  · cases h
  · rw [Except.error.injEq] at h
    rw [← h]
    decide

theorem buf_read_u32_no_fuel (b : buf_t) (e : Err) (h : buf_read_u32 b = .error e) :
    e ≠ Err.fuel := by
  unfold buf_read_u32 at h
  cases hp : buf_pop b 4 with
  | mk o b2 =>
    rw [hp] at h
    cases o with
    | none =>
      dsimp only at h
      rw [Except.error.injEq] at h
      rw [← h]
      decide
    | some p =>
      dsimp only at h
      cases hl : buf_load b2 p 4 with
      | error e2 =>
        rw [hl] at h
        dsimp only at h
        rw [Except.error.injEq] at h
        rw [← h]
        exact buf_load_no_fuel b2 p 4 e2 hl
      | ok bytes =>
        rw [hl] at h
        cases h

theorem buf_read_no_fuel (b : buf_t) (n : Nat) (e : Err) (h : buf_read b n = .error e) :
    e ≠ Err.fuel := by
  unfold buf_read at h
  cases hp : buf_pop b n with
  | mk o b2 =>
    rw [hp] at h
    cases o with
    | none =>
      dsimp only at h
      rw [Except.error.injEq] at h
      rw [← h]
      decide
    | some p =>
      dsimp only at h
      cases hl : buf_load b2 p n with
      | error e2 =>
        rw [hl] at h
        dsimp only at h
        rw [Except.error.injEq] at h
        rw [← h]
        exact buf_load_no_fuel b2 p n e2 hl
      | ok bytes =>
        rw [hl] at h
        cases h

theorem buf_write_u32_no_fuel (b : buf_t) (v : Nat) (e : Err)
    (h : buf_write_u32 b v = .error e) : e ≠ Err.fuel := by
  unfold buf_write_u32 at h
  cases hp : buf_push b 4 with
  | mk o b2 =>
    rw [hp] at h
    cases o with
    | none =>
      dsimp only at h
      rw [Except.error.injEq] at h
      rw [← h]
      decide
    | some p =>
      dsimp only at h
      exact buf_store_no_fuel b2 p _ e h

theorem buf_write_uintptr_no_fuel (b : buf_t) (v : Nat) (e : Err)
    (h : buf_write_uintptr b v = .error e) : e ≠ Err.fuel := by
  unfold buf_write_uintptr at h
  cases hp : buf_push b 8 with
  | mk o b2 =>
    rw [hp] at h
    cases o with
    | none =>
      dsimp only at h
      rw [Except.error.injEq] at h
      rw [← h]
      decide
    | some p =>
      dsimp only at h
      exact buf_store_no_fuel b2 p _ e h

theorem binder_send_no_fuel (ctx : binder_ctx) (b : buf_t) (e : Err)
    (h : binder_send ctx b = .error e) : e ≠ Err.fuel := by
  unfold binder_send ioctl at h
  cases hs : ctx.script with
  | nil =>
    rw [hs] at h
    dsimp only at h
    rw [Except.error.injEq] at h
    rw [← h]
    decide
  | cons r rest =>
    rw [hs] at h
    dsimp only at h
    split at h <;> cases h

theorem binder_skip_cmds_body_cases (ctx : binder_ctx) (buf : buf_t) (txnin : translated_data_t)
    (res : Except Err (Option Int × binder_ctx × buf_t × translated_data_t))
    (hres : binder_skip_cmds_body ctx buf txnin = res) :
    (∃ e, e ≠ Err.fuel ∧ res = .error e) ∨
      ∃ o ctx1 txnin1 cmd cmd_data buf1 buf2, buf_read_u32 buf = .ok (cmd, buf1) ∧
        buf_read buf1 (_IOC_SIZE cmd) = .ok (cmd_data, buf2) ∧
        res = .ok (o, ctx1, buf2, txnin1) := by
  unfold binder_skip_cmds_body at hres
  cases h1 : buf_read_u32 buf with
  | error e =>
    rw [h1] at hres
    exact Or.inl ⟨e, buf_read_u32_no_fuel buf e h1, hres.symm⟩
  | ok r1 =>
    obtain ⟨cmd, buf1⟩ := r1
    rw [h1] at hres
    dsimp only at hres
    cases h2 : buf_read buf1 (_IOC_SIZE cmd) with
    | error e =>
      rw [h2] at hres
      exact Or.inl ⟨e, buf_read_no_fuel _ _ e h2, hres.symm⟩
    | ok r2 =>
      obtain ⟨cmd_data, buf2⟩ := r2
      rw [h2] at hres
      dsimp only at hres
      have hok : ∀ o ctx1 txnin1, res = .ok (o, ctx1, buf2, txnin1) →
          ∃ o ctx1 txnin1 cmd0 cmd_data0 buf10 buf20,
            (Except.ok (cmd, buf1) : Except Err (Nat × buf_t)) = .ok (cmd0, buf10) ∧
            buf_read buf10 (_IOC_SIZE cmd0) = .ok (cmd_data0, buf20) ∧
            res = .ok (o, ctx1, buf20, txnin1) :=
        fun o ctx1 txnin1 h => ⟨o, ctx1, txnin1, cmd, cmd_data, buf1, buf2, rfl, h2, h⟩
      by_cases hcap : 2048 < _IOC_SIZE cmd
      · rw [if_pos hcap] at hres
        exact Or.inl ⟨_, by decide, hres.symm⟩
      · rw [if_neg hcap] at hres
        by_cases h12 : cmd = BR_ACQUIRE ∨ cmd = BR_INCREFS
        · rw [if_pos h12] at hres
          cases e1 : buf_write_u32 (buf_init_write (buf_at ctx.mem.ack_buf))
              (if cmd = BR_ACQUIRE then BC_ACQUIRE_DONE else BC_INCREFS_DONE) with
          | error e =>
            rw [e1] at hres
            exact Or.inl ⟨e, buf_write_u32_no_fuel _ _ e e1, hres.symm⟩
          | ok a1 =>
            rw [e1] at hres
            dsimp only at hres
            cases e2 : buf_write_uintptr a1 (le_value (cmd_data.take 8)) with
            | error e =>
              rw [e2] at hres
              exact Or.inl ⟨e, buf_write_uintptr_no_fuel _ _ e e2, hres.symm⟩
            | ok a2 =>
              rw [e2] at hres
              dsimp only at hres
              cases e3 : buf_write_uintptr a2 (le_value ((cmd_data.drop 8).take 8)) with
              | error e =>
                rw [e3] at hres
                exact Or.inl ⟨e, buf_write_uintptr_no_fuel _ _ e e3, hres.symm⟩
              | ok a3 =>
                rw [e3] at hres
                dsimp only at hres
                cases e4 : binder_send ctx a3 with
                | error e =>
                  rw [e4] at hres
                  exact Or.inl ⟨e, binder_send_no_fuel _ _ e e4, hres.symm⟩
                | ok r4 =>
                  rw [e4] at hres
                  exact Or.inr (hok _ _ _ hres.symm)
        · rw [if_neg h12] at hres
          by_cases h3 : cmd = BR_DEAD_BINDER
          · rw [if_pos h3] at hres
            cases e1 : buf_write_u32 (buf_init_write (buf_at ctx.mem.ack_buf))
                BC_DEAD_BINDER_DONE with
            | error e =>
              rw [e1] at hres
              exact Or.inl ⟨e, buf_write_u32_no_fuel _ _ e e1, hres.symm⟩
            | ok a1 =>
              rw [e1] at hres
              dsimp only at hres
              cases e2 : buf_write_uintptr a1 (le_value (cmd_data.take 8)) with
              | error e =>
                rw [e2] at hres
                exact Or.inl ⟨e, buf_write_uintptr_no_fuel _ _ e e2, hres.symm⟩
              | ok a2 =>
                rw [e2] at hres
                dsimp only at hres
                cases e4 : binder_send ctx a2 with
                | error e =>
                  rw [e4] at hres
                  exact Or.inl ⟨e, binder_send_no_fuel _ _ e e4, hres.symm⟩
                | ok r4 =>
                  rw [e4] at hres
                  exact Or.inr (hok _ _ _ hres.symm)
          · rw [if_neg h3] at hres
            by_cases h45 : cmd = BR_TRANSACTION ∨ cmd = BR_REPLY
            · rw [if_pos h45] at hres
              exact Or.inr (hok _ _ _ hres.symm)
            · rw [if_neg h45] at hres
              exact Or.inr (hok _ _ _ hres.symm)

theorem binder_skip_cmds_body_no_fuel (ctx : binder_ctx) (buf : buf_t)
    (txnin : translated_data_t) : binder_skip_cmds_body ctx buf txnin ≠ .error .fuel := by
  intro h
  rcases binder_skip_cmds_body_cases ctx buf txnin _ rfl with ⟨e, he, hr⟩ | ⟨_, _, _, _, _, _, _, _, _, hr⟩
  · rw [h, Except.error.injEq] at hr
    exact he hr.symm
  · rw [h] at hr
    cases hr

theorem binder_skip_cmds_body_progress (ctx : binder_ctx) (buf : buf_t)
    (txnin : translated_data_t) (o : Option Int) (ctx1 : binder_ctx) (buf1 : buf_t)
    (txnin1 : translated_data_t) (h : buf_scanning buf)
    (hb : binder_skip_cmds_body ctx buf txnin = .ok (o, ctx1, buf1, txnin1)) :
    buf_scanning buf1 ∧ buf_unread buf1 + 4 ≤ buf_unread buf ∧
      buf1.base = buf.base ∧ buf1.size = buf.size ∧ buf1.buffer = buf.buffer ∧
      buf.ptr + 4 ≤ buf1.ptr := by
  rcases binder_skip_cmds_body_cases ctx buf txnin _ hb with
    ⟨e, _, hr⟩ | ⟨o2, c2, t2, cmd, cmd_data, b1, b2, h1, h2, hr⟩
  · cases hr
  · rw [Except.ok.injEq, Prod.mk.injEq, Prod.mk.injEq, Prod.mk.injEq] at hr
    obtain ⟨_, _, hbuf, _⟩ := hr
    obtain ⟨f1, g1⟩ := buf_read_u32_scanning buf cmd b1 h h1
    have hs1 : buf_scanning b1 := by
      obtain ⟨s1, s2, s3, s4⟩ := h
      rw [f1]
      exact ⟨by dsimp only; omega, g1, s3, s4⟩
    obtain ⟨f2, g2⟩ := buf_read_scanning b1 (_IOC_SIZE cmd) cmd_data b2 hs1 h2
    rw [hbuf, f2, f1]
    rw [f1] at g2
    dsimp only at g2
    obtain ⟨s1, s2, s3, s4⟩ := h
    unfold buf_unread
    refine ⟨⟨?_, g2, s3, s4⟩, ?_, rfl, rfl, rfl, ?_⟩ <;> dsimp only <;> omega

theorem binder_skip_cmds_bounded :
    ∀ (fuel : Nat) (ctx : binder_ctx) (buf : buf_t) (txnin : translated_data_t),
      buf_scanning buf →
      (buf_unread buf / 4 < fuel → binder_skip_cmds fuel ctx buf txnin ≠ .error .fuel) ∧
        binder_skip_cmds_iterations fuel ctx buf txnin ≤ buf_unread buf / 4 + 1 ∧
        ∀ res, binder_skip_cmds fuel ctx buf txnin = .ok res →
          binder_skip_cmds_iterations fuel ctx buf txnin ≤ buf_unread buf / 4 := by
  intro fuel
  induction fuel with
  | zero =>
    intro ctx buf txnin _
    refine ⟨fun h => absurd h (Nat.not_lt_zero _), Nat.zero_le _, ?_⟩
    intro res h
    rw [binder_skip_cmds] at h
    cases h
  | succ f ih =>
    intro ctx buf txnin hs
    rw [binder_skip_cmds, binder_skip_cmds_iterations]
    by_cases hne : buf.ptr ≠ (buf.base + buf.size) % WORD
    · rw [if_pos hne, if_pos hne]
      cases hb : binder_skip_cmds_body ctx buf txnin with
      | error e =>
        dsimp only
        refine ⟨fun _ h => ?_, by omega, fun res h => (by cases h)⟩
        rw [Except.error.injEq] at h
        rw [h] at hb
        exact binder_skip_cmds_body_no_fuel ctx buf txnin hb
      | ok r =>
        obtain ⟨o, ctx1, buf1, txnin1⟩ := r
        obtain ⟨hs1, hu, _⟩ := binder_skip_cmds_body_progress ctx buf txnin o ctx1 buf1 txnin1 hs hb
        cases o with
        | some r0 =>
          dsimp only
          exact ⟨fun _ h => (by cases h), by omega, fun _ _ => (by omega)⟩
        | none =>
          dsimp only
          obtain ⟨i1, i2, i3⟩ := ih ctx1 buf1 txnin1 hs1
          refine ⟨fun hf => i1 (by omega), by omega, fun res h => ?_⟩
          have := i3 res h
          omega
    · rw [if_neg hne, if_neg hne]
      exact ⟨fun _ h => (by cases h), Nat.zero_le _, fun _ _ => Nat.zero_le _⟩

theorem binder_skip_cmds_fuel_mono :
    ∀ (f : Nat) (ctx : binder_ctx) (buf : buf_t) (txnin : translated_data_t),
      binder_skip_cmds f ctx buf txnin ≠ .error .fuel →
      ∀ k, binder_skip_cmds (f + k) ctx buf txnin = binder_skip_cmds f ctx buf txnin ∧
        binder_skip_cmds_iterations (f + k) ctx buf txnin
          = binder_skip_cmds_iterations f ctx buf txnin := by
  intro f
  induction f with
  | zero =>
    intro ctx buf txnin h
    rw [binder_skip_cmds] at h
    exact absurd rfl h
  | succ f ih =>
    intro ctx buf txnin h k
    have hk : f + 1 + k = (f + k) + 1 := by omega
    rw [hk, binder_skip_cmds, binder_skip_cmds_iterations, binder_skip_cmds,
      binder_skip_cmds_iterations]
    rw [binder_skip_cmds] at h
    by_cases hne : buf.ptr ≠ (buf.base + buf.size) % WORD
    · rw [if_pos hne, if_pos hne, if_pos hne, if_pos hne]
      rw [if_pos hne] at h
      cases hb : binder_skip_cmds_body ctx buf txnin with
      | error e => exact ⟨rfl, rfl⟩
      | ok r =>
        obtain ⟨o, ctx1, buf1, txnin1⟩ := r
        rw [hb] at h
        cases o with
        | some r0 => exact ⟨rfl, rfl⟩
        | none =>
          dsimp only at h ⊢
          obtain ⟨e1, e2⟩ := ih ctx1 buf1 txnin1 h k
          rw [e1, e2]
          exact ⟨rfl, rfl⟩
    · rw [if_neg hne, if_neg hne, if_neg hne, if_neg hne]
      exact ⟨rfl, rfl⟩

theorem binder_skip_cmds_short (f : Nat) (ctx : binder_ctx) (buf : buf_t)
    (txnin : translated_data_t) (hne : buf.ptr ≠ (buf.base + buf.size) % WORD)
    (hlt : (buf.base + buf.size) % WORD < (buf.ptr + 4) % WORD) :
    binder_skip_cmds (f + 1) ctx buf txnin = .error .null_deref ∧
      binder_skip_cmds_iterations (f + 1) ctx buf txnin = 1 := by
  have hb : binder_skip_cmds_body ctx buf txnin = .error .null_deref := by
    unfold binder_skip_cmds_body buf_read_u32 buf_pop
    rw [if_pos hlt]
  rw [binder_skip_cmds, binder_skip_cmds_iterations, if_pos hne, if_pos hne, hb]
  exact ⟨rfl, rfl⟩

theorem buf_received_scanning (a : Nat) (bytes : List Nat) (hl : bytes.length ≤ BUF_CAPACITY)
    (ha : a + BUF_CAPACITY < WORD) :
    buf_scanning (buf_received a bytes) ∧ buf_unread (buf_received a bytes) = bytes.length := by
  unfold buf_scanning buf_unread buf_received
  dsimp only
  rw [List.length_append, List.length_replicate]
  refine ⟨⟨Nat.le_refl _, Nat.le_add_right _ _, by omega, by omega⟩, by omega⟩

theorem stream_bytes_length (pre : List record) :
    4 * pre.length ≤ (stream_bytes pre).length := by
  induction pre with
  | nil => exact Nat.le_refl _
  | cons r rs ih =>
    rw [stream_bytes, List.length_append, List.length_cons]
    unfold record.bytes
    rw [List.length_append, le_bytes_length]
    omega

theorem buf_holds_scanning (b : buf_t) (bytes : List Nat) (h : buf_holds b bytes) :
    buf_scanning b ∧ buf_unread b = bytes.length := by
  obtain ⟨h1, h2, h3, h4, h5, _⟩ := h
  unfold buf_scanning buf_unread
  exact ⟨⟨h1, by omega, h3, by omega⟩, by omega⟩

theorem binder_skip_cmds_whole_records (pre : List record) (replies tail : List ioctl_reply)
    (ctx : binder_ctx) (buf : buf_t) (txnin : translated_data_t) (fuel : Nat)
    (hpre : ∀ r ∈ pre, r.ok ∧ ¬ r.is_transaction) (hbuf : buf_holds buf (stream_bytes pre))
    (hack : ctx.mem.ack_buf + BUF_CAPACITY < WORD) (hscript : ctx.script = replies ++ tail)
    (hreplies : replies.length = (acks pre).length) (hfuel : buf_unread buf / 4 < fuel) :
    binder_skip_cmds fuel ctx buf txnin
        = .ok (0, { ctx with script := tail, log := ctx.log ++ (acks pre).map write_request },
            { buf with ptr := buf.ptr + (stream_bytes pre).length }, txnin) ∧
      binder_skip_cmds_iterations fuel ctx buf txnin ≤ buf_unread buf / 4 := by
  obtain ⟨hs, hu⟩ := buf_holds_scanning buf _ hbuf
  have hlen := stream_bytes_length pre
  have hres := binder_skip_cmds_scan_none pre replies tail ctx buf txnin fuel hpre hbuf hack
    hscript hreplies (by omega)
  exact ⟨hres, (binder_skip_cmds_bounded fuel ctx buf txnin hs).2.2 _ hres⟩

theorem binder_skip_cmds_whole_records_found (pre : List record) (txn : record)
    (rest : List Nat) (replies tail : List ioctl_reply) (ctx : binder_ctx) (buf : buf_t)
    (txnin : translated_data_t) (fuel : Nat)
    (hpre : ∀ r ∈ pre, r.ok ∧ ¬ r.is_transaction) (htxn : txn.ok ∧ txn.is_transaction)
    (hbuf : buf_holds buf (stream_bytes pre ++ (txn.bytes ++ rest)))
    (hack : ctx.mem.ack_buf + BUF_CAPACITY < WORD) (hscript : ctx.script = replies ++ tail)
    (hreplies : replies.length = (acks pre).length) (hfuel : buf_unread buf / 4 < fuel) :
    binder_skip_cmds fuel ctx buf txnin
        = .ok (1, { ctx with script := tail, log := ctx.log ++ (acks pre).map write_request },
            { buf with ptr := buf.ptr + (stream_bytes pre).length + 4 + txn.payload.length },
            txnin_init txnin (transaction_data_of_bytes txn.payload)) ∧
      binder_skip_cmds_iterations fuel ctx buf txnin ≤ buf_unread buf / 4 := by
  obtain ⟨hs, hu⟩ := buf_holds_scanning buf _ hbuf
  have hlen := stream_bytes_length pre
  rw [List.length_append] at hu
  have hres := binder_skip_cmds_scan_found pre txn rest replies tail ctx buf txnin fuel hpre htxn
    hbuf hack hscript hreplies (by omega)
  exact ⟨hres, (binder_skip_cmds_bounded fuel ctx buf txnin hs).2.2 _ hres⟩

/-- C26: a receive buffer whose used length is 2, the first bytes of a truncated
record.  The loop condition holds, since the cursor is not at `buffer + size`, so the
body is entered although `size / 4` is 0.  `buf_read_u32` asks `buf_pop` for 4 bytes,
`buf_pop` returns `NULL`, and `buf_read_u32` dereferences it: the scan does not come to
an end by a return. -/
theorem binder_skip_cmds_truncated_entered :
    (buf_received 0x7000 [0, 0]).size = 2 ∧ (buf_received 0x7000 [0, 0]).size / 4 = 0 ∧
    buf_is_empty (buf_received 0x7000 [0, 0]) = 0 ∧
    buf_pop (buf_received 0x7000 [0, 0]) 4 = (none, buf_received 0x7000 [0, 0]) ∧
    buf_read_u32 (buf_received 0x7000 [0, 0]) = .error .null_deref ∧
    binder_skip_cmds_iterations 129 { script := [], log := [], mem := example_addresses }
        (buf_received 0x7000 [0, 0]) txnin_zero = 1 ∧
    binder_skip_cmds 129 { script := [], log := [], mem := example_addresses }
        (buf_received 0x7000 [0, 0]) txnin_zero = .error .null_deref := by
  have hne : (buf_received 0x7000 [0, 0]).ptr
      ≠ ((buf_received 0x7000 [0, 0]).base + (buf_received 0x7000 [0, 0]).size) % WORD := by
    unfold WORD
    decide
  have hlt : ((buf_received 0x7000 [0, 0]).base + (buf_received 0x7000 [0, 0]).size) % WORD
      < ((buf_received 0x7000 [0, 0]).ptr + 4) % WORD := by
    unfold WORD
    decide
  obtain ⟨h1, h2⟩ := binder_skip_cmds_short 128
    { script := [], log := [], mem := example_addresses } (buf_received 0x7000 [0, 0])
    txnin_zero hne hlt
  have hpop : buf_pop (buf_received 0x7000 [0, 0]) 4 = (none, buf_received 0x7000 [0, 0]) := by
    unfold buf_pop
    rw [if_pos hlt]
  refine ⟨rfl, rfl, ?_, hpop, ?_, h2, h1⟩
  · unfold buf_is_empty
    rw [if_neg (fun h => hne h.symm)]
  · unfold buf_read_u32
    rw [hpop]

end LibDevBinder
